import Mathlib

/-!
# Slab cache in front of a block store: embedding of `prototype.cpp`

The three source files (`prototype.cpp`, `benchmark.cpp`, `flash-kv-cache.cpp`)
share the same `Slab`, `RocksDBWrapper` and `KeyValueCache` code and differ in
the hard-wired constants `total_slabs`, `NUM_CHANNELS` and the literal floor of
the garbage collector's threshold.  Those constants are collected in `Config`.
`flash-kv-cache.cpp` adds the bulk-load path `batch_put`.

Modelling conventions.

* `std::string` values are lists of bytes; keys and slab ids are `String`.
* `rocksdb::DB` is a finite map from keys to values whose `Put`, `Get` and
  `Delete` succeed (`Get` of an absent key is the non-ok status).
* `std::chrono::steady_clock::now()` is an oracle `clk : Nat → Nat`: the
  `i`-th reading of the clock made by the engine is `clk i`, and the state
  counts the readings made so far in `ticks`.
* `std::map<time_point, std::string>` is the list of its entries in key order.
* `std::unordered_set<int>` is the list of its elements in iteration order;
  `begin()` is the head of that list. The standard leaves the order open; a new
  element is put at the head, which is where libstdc++ and libc++ link a node
  whose bucket is empty.
* `slabs[id]` is only ever evaluated at ids taken from the pools, the
  directory or the eviction index, all of which were entered in `slabs` by the
  constructor; the arena is a total function on ids.
* The function-local statics `dynamic_low_wm` and `dynamic_high_wm` of
  `manage_op` are fields of the engine state, initialised when the constructor
  makes the first call of `manage_op` (one engine for each process).
* `int`/`size_t`/`double` arithmetic: every threshold is a non-negative
  integer bounded by `total_slabs`, and for the constants used here
  (`0.05 0.15 0.2 0.5 0.6 0.75 0.9 1.5 2.0`) truncating the IEEE product
  `n * c` gives the exact rational floor, so the thresholds are computed in
  `Nat` with integer division.
-/

namespace KVCache

abbrev Byte := Fin 256
abbrev Bytes := List Byte

/-- Source `const int BLOCK_SIZE = 4096;` -/
def BLOCK_SIZE : Nat := 4096

/-! ## Slab -/

/-- Source `struct Slab` -/
structure Slab where
  id : String
  channel : Nat
  free_blocks : List Int
  lru : Nat

/-- Source `std::unordered_set<int>::insert`: no effect when the element is present;
a new element is linked at the head of the element list. -/
def set_insert (x : Int) (l : List Int) : List Int :=
  if x ∈ l then l else x :: l

/-- The `for` loop of the constructor `Slab::Slab`: the indices
`0 … blocks - 1` are inserted in `free_blocks` one after another. -/
def init_free_blocks (blocks : Nat) : List Int :=
  (List.range blocks).foldl (fun acc i => set_insert (i : Int) acc) []

/-- Source `Slab::Slab(id, chan, blocks)`; `now` is the clock reading taken by the
member initialiser. -/
def Slab.init (id : String) (chan : Nat) (blocks : Nat) (now : Nat) : Slab :=
  { id := id, channel := chan, free_blocks := init_free_blocks blocks, lru := now }

/-- Source `Slab::alloc`; `now` is the clock reading taken when a block is handed out
(no reading is taken on the `-1` path). -/
def Slab.alloc (s : Slab) (now : Nat) : Int × Slab :=
  match s.free_blocks with
  | [] => (-1, s)
  | idx :: rest => (idx, { s with free_blocks := rest, lru := now })

/-- Source `Slab::free` -/
def Slab.free (s : Slab) (idx : Int) (now : Nat) : Slab :=
  { s with free_blocks := set_insert idx s.free_blocks, lru := now }

/-! ## RocksDBWrapper -/

/-- Contents of the `rocksdb::DB`. -/
abbrev DB := String → Option Bytes

/-- The local `val` of `RocksDBWrapper::put` after the truncate/pad step, i.e.
the value handed to `db->Put`. -/
def RocksDBWrapper.put_value (val : Bytes) : Bytes :=
  if val.length > BLOCK_SIZE then val.take BLOCK_SIZE
  else if val.length < BLOCK_SIZE then val ++ List.replicate (BLOCK_SIZE - val.length) 0
  else val

/-- Source `RocksDBWrapper::put` -/
def RocksDBWrapper.put (db : DB) (key : String) (val : Bytes) : DB :=
  Function.update db key (some (RocksDBWrapper.put_value val))

/-- Source `RocksDBWrapper::get` -/
def RocksDBWrapper.get (db : DB) (key : String) : Bytes :=
  match db key with
  | none => []
  | some val =>
    if val.length < BLOCK_SIZE then val ++ List.replicate (BLOCK_SIZE - val.length) 0
    else val

/-- Source `RocksDBWrapper::del` -/
def RocksDBWrapper.del (db : DB) (key : String) : DB :=
  Function.update db key none

/-- The sizing rule in the words of the specification: `v` cut to its first
`n` bytes, or `v` followed by zero bytes up to length `n`. -/
def pad_or_truncate (v : Bytes) (n : Nat) : Bytes :=
  v.take n ++ List.replicate (n - v.length) 0

/-! ## Eviction index (`std::map<time_point, std::string>`) -/

abbrev LruMap := List (Nat × String)

/-- Source `lru.erase(t)` (erase by key). -/
def lru_erase (t : Nat) (l : LruMap) : LruMap :=
  l.filter (fun e => e.1 ≠ t)

/-- Source `lru[t] = v`: replaces the value of an existing key, otherwise inserts the
entry at its place in key order. -/
def lru_insert (t : Nat) (v : String) : LruMap → LruMap
  | [] => [(t, v)]
  | (t', v') :: l =>
    if t < t' then (t, v) :: (t', v') :: l
    else if t = t' then (t, v) :: l
    else (t', v') :: lru_insert t v l

/-! ## KeyValueCache -/

/-- The constants that differ between the three source files:
`total_slabs` (2700, 2000, 192), `BLOCKS_PER_SLAB` (128), `NUM_CHANNELS`
(2, 2, 12) and the literal in `gc()` (2000, 3000, 2000). -/
structure Config where
  total_slabs : Nat
  BLOCKS_PER_SLAB : Nat
  NUM_CHANNELS : Nat
  gc_min : Nat

/-- Constants of `prototype.cpp`. -/
def prototype_cfg : Config := ⟨2700, 128, 2, 2000⟩
/-- Constants of `benchmark.cpp`. -/
def benchmark_cfg : Config := ⟨2000, 128, 2, 3000⟩
/-- Constants of `flash-kv-cache.cpp`. -/
def flash_cfg : Config := ⟨192, 128, 12, 2000⟩

/-- Source `class KeyValueCache`: the data members, the two function-local statics of
`manage_op`, and the number of clock readings made so far. -/
structure KeyValueCache where
  db : DB
  kv_map : String → Option (String × Int)
  slabs : String → Slab
  free_slabs : List String
  active_slabs : List String
  reserve_slabs : List String
  lru : LruMap
  dynamic_low_wm : Nat
  dynamic_high_wm : Nat
  gc_invoked_count : Nat
  ticks : Nat

/-- Source `KeyValueCache::block_key` -/
def block_key (slab : String) (idx : Int) : String :=
  slab ++ ":" ++ toString idx

/-- The threshold update at the head of `manage_op`, on the numbers it reads:
`n = total_slabs`, `free = free_slabs.size()`, and the two statics.
`low > n * 0.05` is `n < 20 * low`. -/
def adapt (n free low high : Nat) : Nat × Nat :=
  if free < low ∧ low < n / 2 then
    (min (2 * low) (n / 2), min (2 * high) (n * 9 / 10))
  else if free > high ∧ n < 20 * low then
    (max (low * 9 / 10) (n / 20), max (high * 9 / 10) (n * 6 / 10))
  else (low, high)

/-- First `while` loop of `manage_op`: free slabs move to the reserve while
`free.size() > low * 1.5` and `reserve.size() < max_reserve`. -/
def drain (low max_reserve : Nat) : List String → List String → List String × List String
  | [], reserve => ([], reserve)
  | slab :: free, reserve =>
    if 3 * low < 2 * (free.length + 1) ∧ reserve.length < max_reserve then
      drain low max_reserve free (reserve ++ [slab])
    else (slab :: free, reserve)

/-- Second `while` loop of `manage_op`: reserve slabs move to the free pool
while the reserve is non-empty and `free.size() < low`. -/
def refill (low : Nat) : List String → List String → List String × List String
  | [], free => ([], free)
  | slab :: reserve, free =>
    if free.length < low then refill low reserve (free ++ [slab])
    else (slab :: reserve, free)

/-- Body of the `for` loop of `gc()` for block `i` of the victim, on the parts
of the state it touches: the store, the victim slab and the number of clock
readings. -/
def gc_free_block (clk : Nat → Nat) (victim : String) (acc : DB × Slab × Nat) (i : Nat) :
    DB × Slab × Nat :=
  if (i : Int) ∈ acc.2.1.free_blocks then acc
  else (RocksDBWrapper.del acc.1 (block_key victim i),
        acc.2.1.free (i : Int) (clk acc.2.2), acc.2.2 + 1)

/-- The `for` loop of `gc()` over the blocks `0 … blocks - 1` of the victim. -/
def gc_free_blocks (clk : Nat → Nat) (victim : String) (blocks : Nat)
    (db : DB) (s : Slab) (ticks : Nat) : DB × Slab × Nat :=
  (List.range blocks).foldl (gc_free_block clk victim) (db, s, ticks)

/-- One iteration of the `while` loop of `gc()`, for the victim just popped
from the eviction index. -/
def gc_evict (cfg : Config) (clk : Nat → Nat) (victim : String)
    (s : KeyValueCache) : KeyValueCache :=
  let r := gc_free_blocks clk victim cfg.BLOCKS_PER_SLAB s.db (s.slabs victim) s.ticks
  { s with
    db := r.1
    slabs := Function.update s.slabs victim r.2.1
    ticks := r.2.2
    active_slabs := s.active_slabs.erase victim
    free_slabs := s.free_slabs ++ [victim] }

/-- The `while` loop of `gc()`; the first argument is
`gc_threshold - slabs_freed`. -/
def gc_loop (cfg : Config) (clk : Nat → Nat) : Nat → KeyValueCache → KeyValueCache
  | 0, s => s
  | k + 1, s =>
    match s.lru with
    | [] => s
    | (_, victim) :: rest => gc_loop cfg clk k (gc_evict cfg clk victim { s with lru := rest })

/-- Source `KeyValueCache::gc` -/
def gc (cfg : Config) (clk : Nat → Nat) (s : KeyValueCache) : KeyValueCache :=
  let s := { s with gc_invoked_count := s.gc_invoked_count + 1 }
  if s.lru = [] then s
  else gc_loop cfg clk (max (s.active_slabs.length / 2) cfg.gc_min) s

/-- The state of `manage_op` just before its final `if`: thresholds adapted,
both `while` loops run. -/
def manage_pools (cfg : Config) (s : KeyValueCache) : KeyValueCache :=
  let max_reserve := cfg.total_slabs * 20 / 100
  let wm := adapt cfg.total_slabs s.free_slabs.length s.dynamic_low_wm s.dynamic_high_wm
  let d := drain wm.1 max_reserve s.free_slabs s.reserve_slabs
  let r := refill wm.1 d.2 d.1
  { s with
    dynamic_low_wm := wm.1
    dynamic_high_wm := wm.2
    free_slabs := r.2
    reserve_slabs := r.1 }

/-- The condition of the final `if` of `manage_op`. -/
def gc_due (s : KeyValueCache) : Bool :=
  decide (s.free_slabs.length < s.dynamic_low_wm / 2) && s.reserve_slabs.isEmpty

/-- Source `KeyValueCache::manage_op` -/
def manage_op (cfg : Config) (clk : Nat → Nat) (s : KeyValueCache) : KeyValueCache :=
  let s := manage_pools cfg s
  if gc_due s then gc cfg clk s else s

/-- Body of the `for` loop of the constructor: slab `i` is created, entered in
`slabs` and appended to the free pool. -/
def init_slab (cfg : Config) (clk : Nat → Nat) (s : KeyValueCache) (i : Nat) : KeyValueCache :=
  let sid := "slab_" ++ toString i
  { s with
    slabs := Function.update s.slabs sid
      (Slab.init sid (i % cfg.NUM_CHANNELS) cfg.BLOCKS_PER_SLAB (clk s.ticks))
    ticks := s.ticks + 1
    free_slabs := s.free_slabs ++ [sid] }

/-- The `for` loop of the constructor. -/
def init_slabs (cfg : Config) (clk : Nat → Nat) (s : KeyValueCache) : KeyValueCache :=
  (List.range cfg.total_slabs).foldl (init_slab cfg clk) s

/-- The members as default-constructed, with the statics of `manage_op` at
their initial values `total_slabs * 0.15` and `total_slabs * 0.75`. An id that
was never entered in `slabs` is given a slab without blocks; it is never
looked up. -/
def empty_cache (cfg : Config) : KeyValueCache :=
  { db := fun _ => none
    kv_map := fun _ => none
    slabs := fun id => ⟨id, 0, [], 0⟩
    free_slabs := []
    active_slabs := []
    reserve_slabs := []
    lru := []
    dynamic_low_wm := cfg.total_slabs * 15 / 100
    dynamic_high_wm := cfg.total_slabs * 75 / 100
    gc_invoked_count := 0
    ticks := 0 }

/-- Source `KeyValueCache::KeyValueCache` -/
def KeyValueCache.init (cfg : Config) (clk : Nat → Nat) : KeyValueCache :=
  manage_op cfg clk (init_slabs cfg clk (empty_cache cfg))

/-- Source `KeyValueCache::trigger_gc_op` -/
def trigger_gc_op (cfg : Config) (clk : Nat → Nat) (s : KeyValueCache) : KeyValueCache :=
  manage_op cfg clk s

/-- The first `if` of `put`: the block of an existing entry is released and
the eviction index entry keyed by the slab's (refreshed) timestamp erased. -/
def put_release (clk : Nat → Nat) (s : KeyValueCache) (key : String) : KeyValueCache :=
  match s.kv_map key with
  | none => s
  | some (slab, idx) =>
    let sl := (s.slabs slab).free idx (clk s.ticks)
    { s with
      slabs := Function.update s.slabs slab sl
      ticks := s.ticks + 1
      lru := lru_erase sl.lru s.lru }

/-- The state of `put` after its call of `manage_op`, where the free pool is
tested. -/
def put_rebalanced (cfg : Config) (clk : Nat → Nat) (s : KeyValueCache) (key : String) :
    KeyValueCache :=
  manage_op cfg clk (put_release clk s key)

/-- Source `KeyValueCache::put` -/
def put (cfg : Config) (clk : Nat → Nat) (s : KeyValueCache) (key : String) (val : Bytes) :
    KeyValueCache :=
  let s := put_rebalanced cfg clk s key
  match s.free_slabs with
  | [] => s
  | slab_id :: rest =>
    let a := (s.slabs slab_id).alloc (clk s.ticks)
    { s with
      free_slabs := rest
      active_slabs := s.active_slabs ++ [slab_id]
      slabs := Function.update s.slabs slab_id a.2
      ticks := if (s.slabs slab_id).free_blocks = [] then s.ticks else s.ticks + 1
      db := RocksDBWrapper.put s.db (block_key slab_id a.1) val
      kv_map := Function.update s.kv_map key (some (slab_id, a.1))
      lru := lru_insert a.2.lru slab_id s.lru }

/-- Source `KeyValueCache::get`: the returned string and the state afterwards. -/
def get (clk : Nat → Nat) (s : KeyValueCache) (key : String) : Bytes × KeyValueCache :=
  match s.kv_map key with
  | none => ([], s)
  | some (slab, idx) =>
    let sl := s.slabs slab
    let now := clk s.ticks
    (RocksDBWrapper.get s.db (block_key slab idx),
     { s with
       slabs := Function.update s.slabs slab { sl with lru := now }
       ticks := s.ticks + 1
       lru := lru_insert now slab (lru_erase sl.lru s.lru) })

/-- Source `KeyValueCache::del` -/
def del (clk : Nat → Nat) (s : KeyValueCache) (key : String) : KeyValueCache :=
  match s.kv_map key with
  | none => s
  | some (slab, idx) =>
    let sl := (s.slabs slab).free idx (clk s.ticks)
    { s with
      slabs := Function.update s.slabs slab sl
      ticks := s.ticks + 1
      lru := lru_erase sl.lru s.lru
      db := RocksDBWrapper.del s.db (block_key slab idx)
      kv_map := Function.update s.kv_map key none }

/-- The public operations of the engine. -/
inductive Op where
  | put (key : String) (val : Bytes)
  | get (key : String)
  | del (key : String)
  | trigger_gc_op

/-- Effect of one public call on the engine state. -/
def Op.run (cfg : Config) (clk : Nat → Nat) (s : KeyValueCache) : Op → KeyValueCache
  | .put k v => KVCache.put cfg clk s k v
  | .get k => (KVCache.get clk s k).2
  | .del k => KVCache.del clk s k
  | .trigger_gc_op => KVCache.trigger_gc_op cfg clk s

/-- The engine after construction followed by the calls `ops`, in order. -/
def run (cfg : Config) (clk : Nat → Nat) (ops : List Op) : KeyValueCache :=
  ops.foldl (Op.run cfg clk) (KeyValueCache.init cfg clk)

/-- The two statics of `manage_op` after a sequence of calls that found the
free pool at the sizes `frees` (one entry for each call, in order). -/
def wm_run (n : Nat) (frees : List Nat) : Nat × Nat :=
  frees.foldl (fun wm free => adapt n free wm.1 wm.2) (n * 15 / 100, n * 75 / 100)

/-- An engine of four slabs of two blocks. -/
def cfg4 : Config := ⟨4, 2, 2, 2000⟩

/-- Four writes of distinct keys, which use up the four slabs of `cfg4`. -/
def fill4 : List Op := [.put "a" [1], .put "b" [1], .put "c" [1], .put "d" [1]]

/-- An engine of twenty slabs of two blocks. -/
def cfg20 : Config := ⟨20, 2, 2, 2000⟩

/-- The writes `put(p0, v), put(p1, v), …` of `n` distinct keys. -/
def puts (p : String) (n : Nat) (v : Bytes) : List Op :=
  (List.range n).map (fun i => Op.put (p ++ toString i) v)

/-- Nineteen writes (the last one runs the collector, which evicts the slabs of
the first eighteen), a read of the first key, whose directory entry still
names its evicted slab, and sixteen more writes (the last one runs the
collector again). -/
def stale_read_trace : List Op :=
  puts "a" 19 [1] ++ [Op.get "a0"] ++ puts "b" 16 [2]

/-- A clock whose readings are all equal (a run shorter than the clock's
resolution). -/
def frozen_clock : Nat → Nat := fun _ => 0

/-- Nineteen rounds of `put("a", v); del("a")` followed by `put("a", v)`. Under
`frozen_clock` every `del` erases the only entry of the eviction index, so the
collector finds nothing to evict and the writes use up all twenty slabs of
`cfg20`. -/
def churn : List Op :=
  (List.replicate 19 [Op.put "a" [1], Op.del "a"]).flatten ++ [Op.put "a" [1]]

/-- Value of a decimal digit string, most significant digit first, continuing
from the value `acc` of the digits already read. -/
def digits_value (cs : List Char) (acc : Nat) : Nat :=
  cs.foldl (fun a c => 10 * a + (c.toNat - 48)) acc

/-- An engine that has served no write yet: the free and reserve pools hold
`total_slabs` pairwise distinct slabs, nothing is active, the eviction index
and the directory are empty, and the low watermark is within its cap. -/
def Fresh (cfg : Config) (s : KeyValueCache) : Prop :=
  (s.free_slabs ++ s.reserve_slabs).Nodup ∧
  (s.free_slabs ++ s.reserve_slabs).length = cfg.total_slabs ∧
  s.active_slabs = [] ∧ s.lru = [] ∧ (∀ k, s.kv_map k = none) ∧
  s.dynamic_low_wm ≤ cfg.total_slabs / 2

/-- A state in which `manage_op` does nothing: the low watermark is 0 and the
reserve holds `max_reserve` slabs or more. -/
def Idle (cfg : Config) (s : KeyValueCache) : Prop :=
  s.dynamic_low_wm = 0 ∧ cfg.total_slabs * 20 / 100 ≤ s.reserve_slabs.length

/-- The engine after the writes `put(k, v)` for the pairs of `kvs`, in order. -/
def put_all (cfg : Config) (clk : Nat → Nat) (s : KeyValueCache)
    (kvs : List (String × Bytes)) : KeyValueCache :=
  kvs.foldl (fun s kv => put cfg clk s kv.1 kv.2) s

/-- Scenario A: eight slabs of two blocks, with the channel count and the
collector floor of `prototype.cpp`. -/
def cfg8 : Config := ⟨8, 2, 2, 2000⟩

/-- The sixteen writes of Scenario A used as an instance: keys
`key_0 … key_15`, each with the one-byte value `"x"`. -/
def pairs16 : List (String × Bytes) :=
  (List.range 16).map (fun i => ("key_" ++ toString i, [120]))

/-- One write of the key `"k"`. -/
def write_k : List Op := [.put "k" [1]]

/-- The write of `"k"` followed by an overwrite of `"k"`. -/
def overwrite_k : List Op := [.put "k" [1], .put "k" [2]]

/-- Body of the `for` loop of `RocksDBWrapper::batch_put`
(`flash-kv-cache.cpp`): the value is sized as in `put` and the pair entered in
the `WriteBatch`; `db` is the store as it will be once the batch is applied. -/
def RocksDBWrapper.batch_entry (db : DB) (kv : String × Bytes) : DB :=
  Function.update db kv.1 (some (RocksDBWrapper.put_value kv.2))

/-- Source `RocksDBWrapper::batch_put`: the `WriteBatch` holds the sized pairs
in order and `db->Write` applies them in that order. -/
def RocksDBWrapper.batch_put (db : DB) (kv_pairs : List (String × Bytes)) : DB :=
  kv_pairs.foldl RocksDBWrapper.batch_entry db

/-- Source `KeyValueCache::batch_put` -/
def batch_put (s : KeyValueCache) (kv_pairs : List (String × Bytes)) : KeyValueCache :=
  { s with db := RocksDBWrapper.batch_put s.db kv_pairs }

/-- A slab of two blocks as constructed. -/
def slab_a : Slab := Slab.init "slab_0" 0 2 0

/-- The slab `slab_a` after both blocks were allocated and then released, block
1 first and block 0 last. -/
def slab_b : Slab := (((slab_a.alloc 1).2.alloc 2).2.free 1 3).free 0 4

/-- A slab without blocks on which `free(-1)` was called. -/
def slab_neg : Slab := (Slab.init "slab_0" 0 0 0).free (-1) 1

/-- The slabs one call of `gc()` evicts, in eviction order: the slabs of the
first `gc_threshold` entries of the eviction index. -/
def gc_victims (cfg : Config) (s : KeyValueCache) : List String :=
  (s.lru.take (max (s.active_slabs.length / 2) cfg.gc_min)).map Prod.snd

/-- The state in which `put(key, …)` called from state `s` finds the engine at
the final `if` of its `manage_op` call, where `gc()` is invoked if due. -/
def put_before_gc (cfg : Config) (clk : Nat → Nat) (s : KeyValueCache) (key : String) :
    KeyValueCache :=
  manage_pools cfg (put_release clk s key)

/-- Lookup `lru.find(t)` in the eviction index: the slab stored under the key
`t`, if there is one. -/
def lru_lookup (t : Nat) (l : LruMap) : Option String :=
  (l.find? (fun e => e.1 = t)).map Prod.snd

/-- An engine of twenty slabs of one block. -/
def cfg20b : Config := ⟨20, 1, 2, 2000⟩

/-- The calls of `stale_read_trace` (after which `slab_4` is in the free pool
twice) followed by seventeen writes of new keys. On `cfg20b` they leave `slab_4`
in the active pool, with its only block in use, and once more in the free pool;
the rebalance of the next write brings it to the front of the free pool. -/
def full_slab_trace : List Op := stale_read_trace ++ puts "c" 17 [3]

/-- The calls of `stale_read_trace` followed by thirty-three writes of new
keys. On `cfg20b` the write `c17` fails to allocate in `slab_4`, which then is
in the active pool twice with one entry in the eviction index. -/
def lost_entry_trace : List Op := stale_read_trace ++ puts "c" 33 [3]

/-- The two threshold updates at the head of `manage_op`: the body of the
first `if` (both statics doubled, capped) and the body of the `else if` (both
statics times 0.9, floored). -/
inductive Update where
  | doubling
  | shrinking
deriving DecidableEq

/-- The assignments made by one threshold update to the pair
`(dynamic_low_wm, dynamic_high_wm)`. -/
def Update.apply (n : Nat) (wm : Nat × Nat) : Update → Nat × Nat
  | .doubling => (min (2 * wm.1) (n / 2), min (2 * wm.2) (n * 9 / 10))
  | .shrinking => (max (wm.1 * 9 / 10) (n / 20), max (wm.2 * 9 / 10) (n * 6 / 10))

/-- The threshold updates executed by the `if … else if …` at the head of
`manage_op`, in execution order, on the numbers it reads. -/
def fired (n free low high : Nat) : List Update :=
  if free < low ∧ low < n / 2 then [Update.doubling]
  else if free > high ∧ n < 20 * low then [Update.shrinking]
  else []

/-- The threshold updates executed by a call of `manage_op` in state `s`. -/
def manage_op_fired (cfg : Config) (s : KeyValueCache) : List Update :=
  fired cfg.total_slabs s.free_slabs.length s.dynamic_low_wm s.dynamic_high_wm

/-- Representation invariant of `std::map<time_point, std::string>`: the
entries are held in strictly increasing key order. -/
def lru_ordered (l : LruMap) : Prop :=
  l.Pairwise (fun a b => a.1 < b.1)

/-- The number of entries one collection started in state `s` pops, in the
words of the specification:
`min(|index|, max(⌊0.5 · active.size()⌋, GC_MIN_THRESHOLD))`, with
`active.size()` the size before the loop. It is compared with what `gc`
does. -/
def gc_pops (cfg : Config) (s : KeyValueCache) : Nat :=
  min s.lru.length (max (s.active_slabs.length / 2) cfg.gc_min)

/-- The ids under which the constructor enters the slabs in `slabs`, in
creation order. -/
def slab_ids (cfg : Config) : List String :=
  (List.range cfg.total_slabs).map (fun i => "slab_" ++ toString i)

/-- The slabs evicted by `gc()` in the course of the call `op` made in state
`s`: the victims of the collection if the call's `manage_op` reaches `gc()`. -/
def Op.evicted (cfg : Config) (clk : Nat → Nat) (s : KeyValueCache) : Op → List String
  | .put k _ =>
    if gc_due (put_before_gc cfg clk s k) then gc_victims cfg (put_before_gc cfg clk s k)
    else []
  | .get _ => []
  | .del _ => []
  | .trigger_gc_op =>
    if gc_due (manage_pools cfg s) then gc_victims cfg (manage_pools cfg s) else []

/-- The slabs evicted by `gc()` in the course of the calls `ops` made, in
order, from state `s`. -/
def evicted (cfg : Config) (clk : Nat → Nat) : KeyValueCache → List Op → List String
  | _, [] => []
  | s, op :: ops => op.evicted cfg clk s ++ evicted cfg clk (op.run cfg clk s) ops

/-- A state in which no slab has come back from the active pool: the free and
reserve pools hold pairwise distinct constructor-made slabs, no directory entry
names a pooled slab, and distinct keys have entries in distinct slabs. -/
def Unshared (cfg : Config) (s : KeyValueCache) : Prop :=
  (s.free_slabs ++ s.reserve_slabs).Nodup ∧
  (∀ x ∈ s.free_slabs ++ s.reserve_slabs, x ∈ slab_ids cfg) ∧
  (∀ k e, s.kv_map k = some e →
    e.1 ∈ slab_ids cfg ∧ e.1 ∉ s.free_slabs ++ s.reserve_slabs) ∧
  (∀ k1 k2 e1 e2, k1 ≠ k2 → s.kv_map k1 = some e1 → s.kv_map k2 = some e2 → e1.1 ≠ e2.1)

/-- Timestamps under a clock whose readings increase: every key of the
eviction index and the `lru` field of every constructor-made slab is a past
reading, distinct slabs carry distinct `lru` fields, and an index entry whose
key is the current `lru` field of a slab names that slab. -/
def Stamped (cfg : Config) (clk : Nat → Nat) (s : KeyValueCache) : Prop :=
  (∀ e ∈ s.lru, e.1 < clk s.ticks) ∧
  (∀ a ∈ slab_ids cfg, (s.slabs a).lru < clk s.ticks) ∧
  (∀ a ∈ slab_ids cfg, ∀ b ∈ slab_ids cfg, (s.slabs a).lru = (s.slabs b).lru → a = b) ∧
  (∀ e ∈ s.lru, ∀ a ∈ slab_ids cfg, (s.slabs a).lru = e.1 → a = e.2)

/-- Every id in the pools, the eviction index and the directory is that of a
constructor-made slab, and every constructor-made slab is in the free pool, in
the reserve, or named by an entry of the eviction index. -/
def Covered (cfg : Config) (s : KeyValueCache) : Prop :=
  (∀ x ∈ s.free_slabs ++ s.reserve_slabs, x ∈ slab_ids cfg) ∧
  (∀ e ∈ s.lru, e.2 ∈ slab_ids cfg) ∧
  (∀ k e, s.kv_map k = some e → e.1 ∈ slab_ids cfg) ∧
  (∀ a ∈ slab_ids cfg, a ∈ s.free_slabs ++ s.reserve_slabs ∨ a ∈ s.lru.map Prod.snd)

/-- Nineteen writes (the last one runs the collector, which evicts `slab_7`, the
slab of `"a3"`, among others), a read of `"a3"`, whose directory entry still
names the evicted `slab_7`, a write of `"b"`, which takes `slab_7` from the
front of the free pool, and a write of `"z"`. -/
def reuse_trace : List Op :=
  puts "a" 19 [1] ++ [Op.get "a3", Op.put "b" [2], Op.put "z" [3]]

/-- The write `put("a", v)` made `n` times in a row. -/
def same_key_writes (n : Nat) : List Op := List.replicate n (Op.put "a" [1])

/-- All timestamps coincide (every clock reading so far was 0): the keys of
the eviction index and the `lru` fields of all slabs are 0, and the index is
empty unless `"a"` has a directory entry. -/
def Coinciding (s : KeyValueCache) : Prop :=
  (∀ e ∈ s.lru, e.1 = 0) ∧ (∀ id, (s.slabs id).lru = 0) ∧ (s.kv_map "a" = none → s.lru = [])

theorem put_value_eq_pad_or_truncate (v : Bytes) :
    RocksDBWrapper.put_value v = pad_or_truncate v BLOCK_SIZE := by
  unfold RocksDBWrapper.put_value pad_or_truncate
  by_cases h1 : v.length > BLOCK_SIZE
  · have h0 : BLOCK_SIZE - v.length = 0 := by omega
    simp [h1, h0]
  · by_cases h2 : v.length < BLOCK_SIZE
    · have ht : List.take BLOCK_SIZE v = v := List.take_of_length_le (by omega)
      simp [h1, h2, ht]
    · have ht : List.take BLOCK_SIZE v = v := List.take_of_length_le (by omega)
      have h0 : BLOCK_SIZE - v.length = 0 := by omega
      simp [h1, h2, ht, h0]

theorem pad_or_truncate_length (v : Bytes) (n : Nat) : (pad_or_truncate v n).length = n := by
  unfold pad_or_truncate
  simp only [List.length_append, List.length_take, List.length_replicate]
  omega

theorem put_value_length (v : Bytes) : (RocksDBWrapper.put_value v).length = BLOCK_SIZE := by
  rw [put_value_eq_pad_or_truncate, pad_or_truncate_length]

theorem RocksDBWrapper.get_put (db : DB) (key : String) (v : Bytes) :
    RocksDBWrapper.get (RocksDBWrapper.put db key v) key = RocksDBWrapper.put_value v := by
  unfold RocksDBWrapper.get RocksDBWrapper.put
  simp [Function.update_same, put_value_length]

/-- C2: the value `RocksDBWrapper::put` hands to the store has length exactly
`BLOCK_SIZE = 4096`; it is the first 4096 bytes of `v` when `|v| ≥ 4096` and
`v` followed by `4096 - |v|` zero bytes otherwise; the record is stored under
the key, and `RocksDBWrapper::get` of it returns exactly 4096 bytes. -/
theorem C2_store_value_sizing (db : DB) (key : String) (v : Bytes) :
    BLOCK_SIZE = 4096 ∧
    (RocksDBWrapper.put_value v).length = 4096 ∧
    RocksDBWrapper.put_value v =
      (if 4096 ≤ v.length then v.take 4096
       else v ++ List.replicate (4096 - v.length) 0) ∧
    RocksDBWrapper.put db key v key = some (RocksDBWrapper.put_value v) ∧
    (RocksDBWrapper.get (RocksDBWrapper.put db key v) key).length = 4096 := by
  refine ⟨rfl, put_value_length v, ?_, ?_, ?_⟩
  · rw [put_value_eq_pad_or_truncate]
    unfold pad_or_truncate BLOCK_SIZE
    by_cases h : 4096 ≤ v.length
    · have h0 : 4096 - v.length = 0 := by omega
      simp [h, h0]
    · have ht : List.take 4096 v = v := List.take_of_length_le (by omega)
      simp [h, ht]
  · simp [RocksDBWrapper.put, Function.update_same]
  · rw [RocksDBWrapper.get_put]; exact put_value_length v

/-! ## put, get, del on one key -/

theorem put_kv_map_of_free (cfg : Config) (clk : Nat → Nat) (s : KeyValueCache)
    (k : String) (v : Bytes) (slab_id : String) (rest : List String)
    (h : (put_rebalanced cfg clk s k).free_slabs = slab_id :: rest) :
    (put cfg clk s k v).kv_map k =
        some (slab_id, (((put_rebalanced cfg clk s k).slabs slab_id).alloc
          (clk (put_rebalanced cfg clk s k).ticks)).1) ∧
    (put cfg clk s k v).db =
        RocksDBWrapper.put (put_rebalanced cfg clk s k).db
          (block_key slab_id (((put_rebalanced cfg clk s k).slabs slab_id).alloc
            (clk (put_rebalanced cfg clk s k).ticks)).1) v := by
  unfold put
  simp only [h, Function.update_same, and_self]

theorem get_after_put (cfg : Config) (clk : Nat → Nat) (s : KeyValueCache)
    (k : String) (v : Bytes) (h : (put_rebalanced cfg clk s k).free_slabs ≠ []) :
    (get clk (put cfg clk s k v) k).1 = pad_or_truncate v 4096 := by
  obtain ⟨slab_id, rest, hfree⟩ := List.exists_cons_of_ne_nil h
  obtain ⟨hkv, hdb⟩ := put_kv_map_of_free cfg clk s k v slab_id rest hfree
  unfold get
  rw [hkv]
  simp only [hdb, RocksDBWrapper.get_put]
  exact put_value_eq_pad_or_truncate v

/-- C1: for every engine state, key `k` and byte string `v`, if `put(k, v)` is
not dropped (the free pool is non-empty after the rebalance made by `put`),
then `get(k)` called immediately afterwards returns `pad_or_truncate(v, 4096)`. -/
theorem C1_put_get_round_trip (cfg : Config) (clk : Nat → Nat) (s : KeyValueCache)
    (k : String) (v : Bytes) (h : (put_rebalanced cfg clk s k).free_slabs ≠ []) :
    (get clk (put cfg clk s k v) k).1 = pad_or_truncate v 4096 :=
  get_after_put cfg clk s k v h

/-- Witness of C1: the engine `cfg8` right after construction (ticking clock),
key `"key1"` and the 9-byte value `"ShortData"` of `test_read_write_erase`. -/
theorem C1_put_get_round_trip_witness :
    (put_rebalanced cfg8 id (KeyValueCache.init cfg8 id) "key1").free_slabs ≠ [] ∧
    (get id (put cfg8 id (KeyValueCache.init cfg8 id) "key1"
      [83, 104, 111, 114, 116, 68, 97, 116, 97]) "key1").1 =
      pad_or_truncate [83, 104, 111, 114, 116, 68, 97, 116, 97] 4096 :=
  ⟨by decide, C1_put_get_round_trip _ _ _ _ _ (by decide)⟩

/-- C3: for every engine state, key `k` and value `x`, after `put(k, x)`
followed by `del(k)` the directory has no entry for `k` and `get(k)` returns
the miss result, the empty string. -/
theorem C3_delete_then_read_is_miss (cfg : Config) (clk : Nat → Nat) (s : KeyValueCache)
    (k : String) (x : Bytes) :
    (del clk (put cfg clk s k x) k).kv_map k = none ∧
    (get clk (del clk (put cfg clk s k x) k) k).1 = [] := by
  have h : (del clk (put cfg clk s k x) k).kv_map k = none := by
    unfold del
    cases hk : (put cfg clk s k x).kv_map k with
    | none => simpa using hk
    | some e => simp [Function.update_same]
  refine ⟨h, ?_⟩
  unfold get
  rw [h]

set_option maxRecDepth 100000 in
/-- C6 (the code departs from the claim): on an engine of twenty slabs with a
ticking clock, the nineteenth write runs the collector, which evicts `slab_4`
while the directory keeps `"a0" ↦ (slab_4, 1)`; `get("a0")` then enters
`slab_4`, a free slab, in the eviction index; the collector run by the last
write of `stale_read_trace` evicts `slab_4` again and appends it to the free
pool a second time. Afterwards, and after one more `manage_op`, `slab_4` occurs
twice in the pools and the three pool sizes sum to 21. -/
theorem C6_slab_twice_in_free_pool :
    (run cfg20 id (puts "a" 19 [1])).gc_invoked_count = 1 ∧
    (run cfg20 id (puts "a" 19 [1])).kv_map "a0" = some ("slab_4", 1) ∧
    (run cfg20 id (puts "a" 19 [1])).free_slabs.count "slab_4" = 1 ∧
    (run cfg20 id (puts "a" 19 [1] ++ [Op.get "a0"])).lru = [(56, "slab_2"), (57, "slab_4")] ∧
    (run cfg20 id stale_read_trace).gc_invoked_count = 2 ∧
    (run cfg20 id stale_read_trace).free_slabs.count "slab_4" = 2 ∧
    (run cfg20 id stale_read_trace).free_slabs.length
      + (run cfg20 id stale_read_trace).active_slabs.length
      + (run cfg20 id stale_read_trace).reserve_slabs.length = 21 ∧
    ((manage_op cfg20 id (run cfg20 id stale_read_trace)).free_slabs
      ++ (manage_op cfg20 id (run cfg20 id stale_read_trace)).active_slabs
      ++ (manage_op cfg20 id (run cfg20 id stale_read_trace)).reserve_slabs).count "slab_4"
      = 2 := by
  refine ⟨by decide, by decide, by decide, by decide, by decide, by decide, by decide,
    by decide⟩

/-! ## Thresholds -/

theorem adapt_low_le (n free low high : Nat) (h : low ≤ n / 2) :
    (adapt n free low high).1 ≤ n / 2 := by
  unfold adapt
  split_ifs <;> simp only <;> omega

theorem adapt_low_ge (n free low high : Nat) (h : n / 20 ≤ low) :
    n / 20 ≤ (adapt n free low high).1 := by
  unfold adapt
  split_ifs <;> simp only <;> omega

theorem wm_run_snoc (n : Nat) (frees : List Nat) (free : Nat) :
    wm_run n (frees ++ [free]) = adapt n free (wm_run n frees).1 (wm_run n frees).2 := by
  simp [wm_run, List.foldl_append]

theorem wm_run_low_le (n : Nat) (frees : List Nat) : (wm_run n frees).1 ≤ n / 2 := by
  induction frees using List.reverseRecOn with
  | nil => simp only [wm_run, List.foldl_nil]; omega
  | append_singleton l a ih => rw [wm_run_snoc]; exact adapt_low_le _ _ _ _ ih

theorem wm_run_low_ge (n : Nat) (frees : List Nat) : n / 20 ≤ (wm_run n frees).1 := by
  induction frees using List.reverseRecOn with
  | nil => simp only [wm_run, List.foldl_nil]; omega
  | append_singleton l a ih => rw [wm_run_snoc]; exact adapt_low_ge _ _ _ _ ih

/-! ## Frame of the collector and of `manage_op` -/

theorem gc_loop_frame (cfg : Config) (clk : Nat → Nat) (k : Nat) (s : KeyValueCache) :
    (gc_loop cfg clk k s).kv_map = s.kv_map ∧
    (gc_loop cfg clk k s).dynamic_low_wm = s.dynamic_low_wm ∧
    (gc_loop cfg clk k s).dynamic_high_wm = s.dynamic_high_wm ∧
    (gc_loop cfg clk k s).reserve_slabs = s.reserve_slabs ∧
    (gc_loop cfg clk k s).gc_invoked_count = s.gc_invoked_count := by
  induction k generalizing s with
  | zero => simp [gc_loop]
  | succ k ih =>
    rw [gc_loop]
    split
    · simp
    · rename_i t victim rest hl
      have := ih (gc_evict cfg clk victim { s with lru := rest })
      simpa [gc_evict] using this

theorem gc_frame (cfg : Config) (clk : Nat → Nat) (s : KeyValueCache) :
    (gc cfg clk s).kv_map = s.kv_map ∧
    (gc cfg clk s).dynamic_low_wm = s.dynamic_low_wm ∧
    (gc cfg clk s).dynamic_high_wm = s.dynamic_high_wm ∧
    (gc cfg clk s).reserve_slabs = s.reserve_slabs := by
  unfold gc
  simp only
  split_ifs
  · simp
  · obtain ⟨h1, h2, h3, h4, _⟩ := gc_loop_frame cfg clk
      (max (s.active_slabs.length / 2) cfg.gc_min)
      { s with gc_invoked_count := s.gc_invoked_count + 1 }
    exact ⟨h1, h2, h3, h4⟩

theorem gc_loop_free_length (cfg : Config) (clk : Nat → Nat) (k : Nat) (s : KeyValueCache) :
    (gc_loop cfg clk k s).free_slabs.length = s.free_slabs.length + min k s.lru.length := by
  induction k generalizing s with
  | zero => simp [gc_loop]
  | succ k ih =>
    rw [gc_loop]
    split
    · rename_i hl; simp [hl]
    · rename_i t victim rest hl
      rw [ih, hl]
      simp only [gc_evict, List.length_append, List.length_cons, List.length_nil]
      omega

theorem manage_op_low_wm (cfg : Config) (clk : Nat → Nat) (s : KeyValueCache) :
    (manage_op cfg clk s).dynamic_low_wm =
      (adapt cfg.total_slabs s.free_slabs.length s.dynamic_low_wm s.dynamic_high_wm).1 := by
  unfold manage_op
  simp only
  split_ifs
  · rw [(gc_frame cfg clk _).2.1]; rfl
  · rfl

theorem manage_op_kv_map (cfg : Config) (clk : Nat → Nat) (s : KeyValueCache) :
    (manage_op cfg clk s).kv_map = s.kv_map := by
  unfold manage_op
  simp only
  split_ifs
  · rw [(gc_frame cfg clk _).1]; rfl
  · rfl

theorem put_release_low_wm (clk : Nat → Nat) (s : KeyValueCache) (k : String) :
    (put_release clk s k).dynamic_low_wm = s.dynamic_low_wm ∧
    (put_release clk s k).dynamic_high_wm = s.dynamic_high_wm := by
  unfold put_release
  split <;> simp

theorem put_low_wm (cfg : Config) (clk : Nat → Nat) (s : KeyValueCache) (k : String) (v : Bytes) :
    (put cfg clk s k v).dynamic_low_wm =
      (adapt cfg.total_slabs (put_release clk s k).free_slabs.length
        s.dynamic_low_wm s.dynamic_high_wm).1 := by
  have h : (put cfg clk s k v).dynamic_low_wm = (put_rebalanced cfg clk s k).dynamic_low_wm := by
    unfold put
    simp only
    split <;> rfl
  rw [h, put_rebalanced, manage_op_low_wm, (put_release_low_wm clk s k).1,
    (put_release_low_wm clk s k).2]

theorem get_low_wm (clk : Nat → Nat) (s : KeyValueCache) (k : String) :
    (get clk s k).2.dynamic_low_wm = s.dynamic_low_wm := by
  unfold get
  split <;> rfl

theorem del_low_wm (clk : Nat → Nat) (s : KeyValueCache) (k : String) :
    (del clk s k).dynamic_low_wm = s.dynamic_low_wm := by
  unfold del
  split <;> rfl

theorem init_slabs_fold_low_wm (cfg : Config) (clk : Nat → Nat) (l : List Nat)
    (s : KeyValueCache) :
    (l.foldl (init_slab cfg clk) s).dynamic_low_wm = s.dynamic_low_wm := by
  induction l generalizing s with
  | nil => rfl
  | cons i l ih => rw [List.foldl_cons, ih]; rfl

theorem init_low_wm_bounds (cfg : Config) (clk : Nat → Nat) :
    cfg.total_slabs / 20 ≤ (KeyValueCache.init cfg clk).dynamic_low_wm ∧
    (KeyValueCache.init cfg clk).dynamic_low_wm ≤ cfg.total_slabs / 2 := by
  have h0 : (init_slabs cfg clk (empty_cache cfg)).dynamic_low_wm = cfg.total_slabs * 15 / 100 :=
    init_slabs_fold_low_wm cfg clk _ _
  unfold KeyValueCache.init
  rw [manage_op_low_wm]
  exact ⟨adapt_low_ge _ _ _ _ (by rw [h0]; omega), adapt_low_le _ _ _ _ (by rw [h0]; omega)⟩

theorem op_run_low_wm_bounds (cfg : Config) (clk : Nat → Nat) (s : KeyValueCache) (op : Op)
    (h : cfg.total_slabs / 20 ≤ s.dynamic_low_wm ∧ s.dynamic_low_wm ≤ cfg.total_slabs / 2) :
    cfg.total_slabs / 20 ≤ (op.run cfg clk s).dynamic_low_wm ∧
    (op.run cfg clk s).dynamic_low_wm ≤ cfg.total_slabs / 2 := by
  cases op with
  | put k v =>
    simp only [Op.run, put_low_wm]
    exact ⟨adapt_low_ge _ _ _ _ h.1, adapt_low_le _ _ _ _ h.2⟩
  | get k => simpa only [Op.run, get_low_wm] using h
  | del k => simpa only [Op.run, del_low_wm] using h
  | trigger_gc_op =>
    simp only [Op.run, trigger_gc_op, manage_op_low_wm]
    exact ⟨adapt_low_ge _ _ _ _ h.1, adapt_low_le _ _ _ _ h.2⟩

theorem run_low_wm_bounds (cfg : Config) (clk : Nat → Nat) (ops : List Op) :
    cfg.total_slabs / 20 ≤ (run cfg clk ops).dynamic_low_wm ∧
    (run cfg clk ops).dynamic_low_wm ≤ cfg.total_slabs / 2 := by
  induction ops using List.reverseRecOn with
  | nil => exact init_low_wm_bounds cfg clk
  | append_singleton l op ih =>
    have : run cfg clk (l ++ [op]) = op.run cfg clk (run cfg clk l) := by
      simp [run, List.foldl_append]
    rw [this]
    exact op_run_low_wm_bounds cfg clk _ op ih

/-- C8: for every `total_slabs ≥ 0`, after construction and any sequence of
`manage_op` calls, whatever free-pool sizes the calls find, the low watermark is
at most `total_slabs / 2` (the integer quotient of the code); the same holds in
every engine state reached from construction by `put`, `get`, `del` and
`trigger_gc_op`. -/
theorem C8_low_watermark_upper_bound (n : Nat) (frees : List Nat)
    (cfg : Config) (clk : Nat → Nat) (ops : List Op) :
    (wm_run n frees).1 ≤ n / 2 ∧
    (run cfg clk ops).dynamic_low_wm ≤ cfg.total_slabs / 2 :=
  ⟨wm_run_low_le n frees, (run_low_wm_bounds cfg clk ops).2⟩

set_option maxRecDepth 100000 in
/-- C9 as stated fails: `flash-kv-cache.cpp` has `total_slabs = 192`, so
`0.05 · total_slabs = 9.6`; after construction and eight calls of
`trigger_gc_op` the low watermark is 9. -/
theorem C9_low_watermark_below_five_percent :
    (run flash_cfg id (List.replicate 8 Op.trigger_gc_op)).dynamic_low_wm = 9 ∧
    (((run flash_cfg id (List.replicate 8 Op.trigger_gc_op)).dynamic_low_wm : ℚ)
      < 5 / 100 * (flash_cfg.total_slabs : ℚ)) := by
  have h : (run flash_cfg id (List.replicate 8 Op.trigger_gc_op)).dynamic_low_wm = 9 := by
    decide
  refine ⟨h, ?_⟩
  rw [h]
  norm_num [flash_cfg]

/-- C9, amended: for every `total_slabs`, after construction and any sequence
of `manage_op` calls the low watermark is at least `⌊0.05 · total_slabs⌋`
(`total_slabs / 20` in integer division), also in every engine state reached by
`put`, `get`, `del` and `trigger_gc_op`; for the shipped values this floor is
9, 100 and 135. -/
theorem C9_low_watermark_floor_bound (n : Nat) (frees : List Nat)
    (cfg : Config) (clk : Nat → Nat) (ops : List Op) :
    n / 20 ≤ (wm_run n frees).1 ∧
    cfg.total_slabs / 20 ≤ (run cfg clk ops).dynamic_low_wm ∧
    flash_cfg.total_slabs / 20 = 9 ∧ benchmark_cfg.total_slabs / 20 = 100 ∧
    prototype_cfg.total_slabs / 20 = 135 :=
  ⟨wm_run_low_ge n frees, (run_low_wm_bounds cfg clk ops).1, rfl, rfl, rfl⟩

/-! ## Collector liveness -/

theorem adapt_low_ge_two (n low high : Nat) (h : 2 ≤ low) : 2 ≤ (adapt n 0 low high).1 := by
  unfold adapt
  split_ifs <;> simp only <;> omega

theorem manage_pools_of_empty (cfg : Config) (s : KeyValueCache)
    (hf : s.free_slabs = []) (hr : s.reserve_slabs = []) :
    (manage_pools cfg s).free_slabs = [] ∧ (manage_pools cfg s).reserve_slabs = [] ∧
    (manage_pools cfg s).lru = s.lru ∧
    (manage_pools cfg s).dynamic_low_wm =
      (adapt cfg.total_slabs 0 s.dynamic_low_wm s.dynamic_high_wm).1 := by
  simp [manage_pools, hf, hr, drain, refill]

theorem gc_free_length (cfg : Config) (clk : Nat → Nat) (s : KeyValueCache) :
    (gc cfg clk s).free_slabs.length =
      s.free_slabs.length + min (max (s.active_slabs.length / 2) cfg.gc_min) s.lru.length := by
  unfold gc
  simp only
  split_ifs with h
  · simp [h]
  · rw [gc_loop_free_length]

set_option maxRecDepth 100000 in
/-- C10 as stated fails: on an engine of four slabs, after four writes of
distinct keys the free pool and the reserve pool are empty and the eviction
index has four entries, but the low watermark is 0, the collector is not run and
`manage_op` leaves the free pool empty. -/
theorem C10_rebalance_without_collection :
    (run cfg4 id fill4).free_slabs = [] ∧ (run cfg4 id fill4).reserve_slabs = [] ∧
    (run cfg4 id fill4).lru ≠ [] ∧
    ¬ ((run cfg4 id fill4).free_slabs.length
        < (manage_op cfg4 id (run cfg4 id fill4)).free_slabs.length) := by
  refine ⟨by decide, by decide, by decide, by decide⟩

/-- C10, amended: for every `total_slabs` and every engine state in which the
free pool and the reserve pool are both empty, the eviction index is non-empty
and the low watermark is at least 2, one call of `manage_op` (with a positive
collector floor, 2000 or 3000 in the sources) leaves `free_slabs.size()`
strictly greater than before. -/
theorem C10_gc_liveness (cfg : Config) (clk : Nat → Nat) (s : KeyValueCache)
    (hg : 0 < cfg.gc_min) (hf : s.free_slabs = []) (hr : s.reserve_slabs = [])
    (hl : s.lru ≠ []) (hlow : 2 ≤ s.dynamic_low_wm) :
    s.free_slabs.length < (manage_op cfg clk s).free_slabs.length := by
  obtain ⟨mf, mr, ml, mw⟩ := manage_pools_of_empty cfg s hf hr
  have hw : 2 ≤ (manage_pools cfg s).dynamic_low_wm := by
    rw [mw]; exact adapt_low_ge_two _ _ _ hlow
  have hdue : gc_due (manage_pools cfg s) = true := by
    simp only [gc_due, mf, mr, List.length_nil, List.isEmpty_nil, Bool.and_true,
      decide_eq_true_eq]
    omega
  have hlen : 0 < s.lru.length := List.length_pos.mpr hl
  unfold manage_op
  simp only [hdue, if_true]
  rw [gc_free_length, mf, ml, hf]
  simp only [List.length_nil, Nat.zero_add]
  omega

set_option maxRecDepth 100000 in
/-- Witness of C10: the engine of twenty slabs after `churn` under a clock
whose readings coincide. -/
theorem C10_gc_liveness_witness :
    (run cfg20 frozen_clock churn).free_slabs = [] ∧
    (run cfg20 frozen_clock churn).reserve_slabs = [] ∧
    (run cfg20 frozen_clock churn).lru ≠ [] ∧
    2 ≤ (run cfg20 frozen_clock churn).dynamic_low_wm ∧
    (run cfg20 frozen_clock churn).free_slabs.length
      < (manage_op cfg20 frozen_clock (run cfg20 frozen_clock churn)).free_slabs.length :=
  ⟨by decide, by decide, by decide, by decide,
   C10_gc_liveness cfg20 frozen_clock _ (by decide) (by decide) (by decide) (by decide)
     (by decide)⟩

/-! ## Slab names are distinct -/

theorem digitChar_value (m : Nat) (h : m < 10) : (Nat.digitChar m).toNat - 48 = m := by
  interval_cases m <;> rfl

theorem digits_value_toDigitsCore (fuel : Nat) :
    ∀ n ds, n < fuel →
      digits_value (Nat.toDigitsCore 10 fuel n ds) 0 = digits_value ds n := by
  induction fuel with
  | zero => intro n ds h; omega
  | succ fuel ih =>
    intro n ds h
    rw [Nat.toDigitsCore]
    split_ifs with h0
    · have hn : n % 10 = n := by omega
      rw [hn]
      simp [digits_value, digitChar_value n (by omega)]
    · rw [ih (n / 10) _ (by omega)]
      simp only [digits_value, List.foldl_cons,
        digitChar_value (n % 10) (Nat.mod_lt _ (by omega))]
      congr 1
      omega

theorem nat_repr_injective : Function.Injective Nat.repr := by
  intro a b h
  have hd : Nat.toDigits 10 a = Nat.toDigits 10 b := by
    have := congrArg String.data h
    simpa [Nat.repr, List.asString] using this
  have ha := digits_value_toDigitsCore (a + 1) a [] (by omega)
  have hb := digits_value_toDigitsCore (b + 1) b [] (by omega)
  unfold Nat.toDigits at hd
  rw [hd] at ha
  simpa [digits_value] using ha.symm.trans hb

theorem slab_id_injective :
    Function.Injective (fun i : Nat => "slab_" ++ toString i) := by
  intro a b h
  have h1 : ("slab_" ++ toString a).data = ("slab_" ++ toString b).data := congrArg String.data h
  rw [String.data_append, String.data_append] at h1
  have h2 := List.append_cancel_left h1
  exact nat_repr_injective (String.ext h2)

/-! ## Pools under `manage_op` -/

theorem drain_perm (low m : Nat) (f r : List String) :
    ((drain low m f r).1 ++ (drain low m f r).2).Perm (f ++ r) := by
  induction f generalizing r with
  | nil => simp [drain]
  | cons a f ih =>
    rw [drain]
    split_ifs
    · refine (ih (r ++ [a])).trans ?_
      rw [← List.append_assoc, List.cons_append]
      exact List.perm_append_singleton a (f ++ r)
    · exact List.Perm.refl _

theorem refill_perm (low : Nat) (r f : List String) :
    ((refill low r f).1 ++ (refill low r f).2).Perm (r ++ f) := by
  induction r generalizing f with
  | nil => simp [refill]
  | cons a r ih =>
    rw [refill]
    split_ifs
    · refine (ih (f ++ [a])).trans ?_
      rw [← List.append_assoc, List.cons_append]
      exact List.perm_append_singleton a (r ++ f)
    · exact List.Perm.refl _

theorem manage_pools_perm (cfg : Config) (s : KeyValueCache) :
    ((manage_pools cfg s).free_slabs ++ (manage_pools cfg s).reserve_slabs).Perm
      (s.free_slabs ++ s.reserve_slabs) := by
  simp only [manage_pools]
  refine List.perm_append_comm.trans ((refill_perm _ _ _).trans ?_)
  exact List.perm_append_comm.trans (drain_perm _ _ _ _)

theorem mem_set_insert (i x : Int) (l : List Int) : i ∈ set_insert x l ↔ i = x ∨ i ∈ l := by
  unfold set_insert
  split_ifs with h
  · constructor
    · intro hi; exact Or.inr hi
    · rintro (rfl | hi)
      · exact h
      · exact hi
  · simp

theorem gc_free_blocks_mem (clk : Nat → Nat) (victim : String) (blocks : Nat) (db : DB)
    (sl : Slab) (ticks : Nat) (i : Int) (h : i ∈ sl.free_blocks) :
    i ∈ (gc_free_blocks clk victim blocks db sl ticks).2.1.free_blocks := by
  unfold gc_free_blocks
  generalize List.range blocks = l
  have key : ∀ (acc : DB × Slab × Nat), i ∈ acc.2.1.free_blocks →
      i ∈ (l.foldl (gc_free_block clk victim) acc).2.1.free_blocks := by
    induction l with
    | nil => intro acc hacc; exact hacc
    | cons j l ih =>
      intro acc hacc
      rw [List.foldl_cons]
      apply ih
      unfold gc_free_block
      split_ifs
      · exact hacc
      · simp only [Slab.free]
        exact (mem_set_insert _ _ _).2 (Or.inr hacc)
  exact key (db, sl, ticks) h

theorem gc_evict_slabs_mem (cfg : Config) (clk : Nat → Nat) (victim : String)
    (s : KeyValueCache) (id : String) (i : Int) (h : i ∈ (s.slabs id).free_blocks) :
    i ∈ ((gc_evict cfg clk victim s).slabs id).free_blocks := by
  simp only [gc_evict]
  by_cases hid : id = victim
  · subst hid
    rw [Function.update_same]
    exact gc_free_blocks_mem _ _ _ _ _ _ _ h
  · rw [Function.update_noteq hid]
    exact h

theorem gc_loop_pools (cfg : Config) (clk : Nat → Nat) (k : Nat) (s : KeyValueCache) :
    (gc_loop cfg clk k s).free_slabs = s.free_slabs ++ (s.lru.take k).map Prod.snd ∧
    (gc_loop cfg clk k s).lru = s.lru.drop k := by
  induction k generalizing s with
  | zero => simp [gc_loop]
  | succ k ih =>
    rw [gc_loop]
    split
    · rename_i hl; simp [hl]
    · rename_i t victim rest hl
      obtain ⟨h1, h2⟩ := ih (gc_evict cfg clk victim { s with lru := rest })
      rw [h1, h2, hl]
      simp [gc_evict]

theorem gc_loop_slabs_mem (cfg : Config) (clk : Nat → Nat) (k : Nat) (s : KeyValueCache)
    (id : String) (i : Int) (h : i ∈ (s.slabs id).free_blocks) :
    i ∈ ((gc_loop cfg clk k s).slabs id).free_blocks := by
  induction k generalizing s with
  | zero => simpa [gc_loop] using h
  | succ k ih =>
    rw [gc_loop]
    split
    · exact h
    · rename_i t victim rest hl
      apply ih
      exact gc_evict_slabs_mem cfg clk victim _ id i h

theorem gc_pools (cfg : Config) (clk : Nat → Nat) (s : KeyValueCache) :
    ∃ k, (gc cfg clk s).free_slabs = s.free_slabs ++ (s.lru.take k).map Prod.snd ∧
      (gc cfg clk s).lru = s.lru.drop k := by
  unfold gc
  simp only
  split_ifs with h
  · exact ⟨0, by simp⟩
  · exact ⟨_, gc_loop_pools cfg clk _ _⟩

theorem gc_slabs_mem (cfg : Config) (clk : Nat → Nat) (s : KeyValueCache)
    (id : String) (i : Int) (h : i ∈ (s.slabs id).free_blocks) :
    i ∈ ((gc cfg clk s).slabs id).free_blocks := by
  unfold gc
  simp only
  split_ifs
  · exact h
  · exact gc_loop_slabs_mem cfg clk _ _ id i h

theorem manage_op_slabs_mem (cfg : Config) (clk : Nat → Nat) (s : KeyValueCache)
    (id : String) (i : Int) (h : i ∈ (s.slabs id).free_blocks) :
    i ∈ ((manage_op cfg clk s).slabs id).free_blocks := by
  unfold manage_op
  simp only
  split_ifs
  · exact gc_slabs_mem cfg clk _ id i h
  · exact h

theorem manage_op_free (cfg : Config) (clk : Nat → Nat) (s : KeyValueCache) :
    ∃ k, (manage_op cfg clk s).free_slabs =
        (manage_pools cfg s).free_slabs ++ (s.lru.take k).map Prod.snd ∧
      (manage_op cfg clk s).lru = s.lru.drop k ∧
      (manage_op cfg clk s).reserve_slabs = (manage_pools cfg s).reserve_slabs ∧
      (k ≠ 0 → gc_due (manage_pools cfg s) = true) := by
  unfold manage_op
  simp only
  split_ifs with h
  · obtain ⟨k, h1, h2⟩ := gc_pools cfg clk (manage_pools cfg s)
    exact ⟨k, h1, h2, (gc_frame cfg clk _).2.2.2, fun _ => h⟩
  · exact ⟨0, by simp, by simp [manage_pools], rfl, fun h0 => absurd rfl h0⟩

/-! ## The constructed engine -/

theorem init_slabs_fold (cfg : Config) (clk : Nat → Nat) (l : List Nat) (s : KeyValueCache) :
    (l.foldl (init_slab cfg clk) s).free_slabs =
        s.free_slabs ++ l.map (fun i => "slab_" ++ toString i) ∧
    (l.foldl (init_slab cfg clk) s).reserve_slabs = s.reserve_slabs ∧
    (l.foldl (init_slab cfg clk) s).active_slabs = s.active_slabs ∧
    (l.foldl (init_slab cfg clk) s).lru = s.lru ∧
    (l.foldl (init_slab cfg clk) s).kv_map = s.kv_map := by
  induction l generalizing s with
  | nil => simp
  | cons i l ih =>
    rw [List.foldl_cons]
    obtain ⟨h1, h2, h3, h4, h5⟩ := ih (init_slab cfg clk s i)
    rw [h1, h2, h3, h4, h5]
    simp [init_slab]

theorem gc_of_lru_nil (cfg : Config) (clk : Nat → Nat) (s : KeyValueCache) (h : s.lru = []) :
    gc cfg clk s = { s with gc_invoked_count := s.gc_invoked_count + 1 } := by
  unfold gc
  simp [h]

theorem manage_op_of_lru_nil (cfg : Config) (clk : Nat → Nat) (s : KeyValueCache)
    (h : s.lru = []) :
    (manage_op cfg clk s).free_slabs = (manage_pools cfg s).free_slabs ∧
    (manage_op cfg clk s).reserve_slabs = (manage_pools cfg s).reserve_slabs ∧
    (manage_op cfg clk s).active_slabs = s.active_slabs ∧
    (manage_op cfg clk s).lru = [] := by
  have hm : (manage_pools cfg s).lru = [] := by simpa [manage_pools] using h
  unfold manage_op
  simp only
  split_ifs
  · rw [gc_of_lru_nil cfg clk _ hm]
    exact ⟨rfl, rfl, rfl, hm⟩
  · exact ⟨rfl, rfl, rfl, hm⟩

theorem manage_op_fresh (cfg : Config) (clk : Nat → Nat) (s : KeyValueCache)
    (h : Fresh cfg s) : Fresh cfg (manage_op cfg clk s) := by
  obtain ⟨hnd, hlen, hact, hlru, hkv, hlow⟩ := h
  obtain ⟨hf, hr, ha, hl⟩ := manage_op_of_lru_nil cfg clk s hlru
  have hperm := manage_pools_perm cfg s
  refine ⟨?_, ?_, ?_, hl, ?_, ?_⟩
  · rw [hf, hr]; exact hperm.nodup_iff.2 hnd
  · rw [hf, hr, hperm.length_eq]; exact hlen
  · rw [ha]; exact hact
  · intro k; rw [manage_op_kv_map]; exact hkv k
  · rw [manage_op_low_wm]; exact adapt_low_le _ _ _ _ hlow

theorem init_fresh (cfg : Config) (clk : Nat → Nat) : Fresh cfg (KeyValueCache.init cfg clk) := by
  apply manage_op_fresh
  obtain ⟨h1, h2, h3, h4, h5⟩ := init_slabs_fold cfg clk (List.range cfg.total_slabs) (empty_cache cfg)
  have hw : (init_slabs cfg clk (empty_cache cfg)).dynamic_low_wm = cfg.total_slabs * 15 / 100 :=
    init_slabs_fold_low_wm cfg clk _ _
  unfold init_slabs at hw ⊢
  refine ⟨?_, ?_, ?_, ?_, ?_, ?_⟩
  · rw [h1, h2]
    simpa [empty_cache] using (List.nodup_range cfg.total_slabs).map slab_id_injective
  · rw [h1, h2]; simp [empty_cache]
  · rw [h3]; rfl
  · rw [h4]; rfl
  · intro k; rw [h5]; rfl
  · rw [hw]; omega

/-! ## Overwriting a key -/

theorem gc_due_iff (s : KeyValueCache) :
    gc_due s = true ↔ s.free_slabs.length < s.dynamic_low_wm / 2 ∧ s.reserve_slabs = [] := by
  simp [gc_due, List.isEmpty_iff]

theorem put_fields_of_free (cfg : Config) (clk : Nat → Nat) (s : KeyValueCache)
    (k : String) (v : Bytes) (slab_id : String) (rest : List String)
    (h : (put_rebalanced cfg clk s k).free_slabs = slab_id :: rest) :
    (put cfg clk s k v).free_slabs = rest ∧
    (put cfg clk s k v).reserve_slabs = (put_rebalanced cfg clk s k).reserve_slabs ∧
    (put cfg clk s k v).dynamic_low_wm = (put_rebalanced cfg clk s k).dynamic_low_wm ∧
    (put cfg clk s k v).lru =
      lru_insert (((put_rebalanced cfg clk s k).slabs slab_id).alloc
        (clk (put_rebalanced cfg clk s k).ticks)).2.lru slab_id (put_rebalanced cfg clk s k).lru ∧
    (put cfg clk s k v).slabs =
      Function.update (put_rebalanced cfg clk s k).slabs slab_id
        (((put_rebalanced cfg clk s k).slabs slab_id).alloc
          (clk (put_rebalanced cfg clk s k).ticks)).2 := by
  unfold put
  simp only [h, and_self]

theorem put_release_of_entry (clk : Nat → Nat) (s : KeyValueCache) (k slab : String) (idx : Int)
    (h : s.kv_map k = some (slab, idx)) :
    (put_release clk s k).free_slabs = s.free_slabs ∧
    (put_release clk s k).reserve_slabs = s.reserve_slabs ∧
    (put_release clk s k).lru = lru_erase (clk s.ticks) s.lru ∧
    idx ∈ ((put_release clk s k).slabs slab).free_blocks := by
  unfold put_release
  simp only [h, Function.update_same, Slab.free, true_and]
  exact (mem_set_insert _ _ _).2 (Or.inl rfl)

theorem overwrite_releases_block (cfg : Config) (clk : Nat → Nat) (s0 : KeyValueCache)
    (k : String) (v1 v2 : Bytes) (hfresh : Fresh cfg s0)
    (h1 : (put_rebalanced cfg clk s0 k).free_slabs ≠ [])
    (h2 : (put_rebalanced cfg clk (put cfg clk s0 k v1) k).free_slabs ≠ []) :
    ∃ slab idx, (put cfg clk s0 k v1).kv_map k = some (slab, idx) ∧
      idx ∈ ((put cfg clk (put cfg clk s0 k v1) k v2).slabs slab).free_blocks := by
  have hkv0 := hfresh.2.2.2.2.1
  have hrel : put_release clk s0 k = s0 := by unfold put_release; rw [hkv0 k]
  have hr1 : put_rebalanced cfg clk s0 k = manage_op cfg clk s0 := by
    rw [put_rebalanced, hrel]
  obtain ⟨hnd, hlen, _, hlru, _, hlow⟩ := manage_op_fresh cfg clk s0 hfresh
  rw [← hr1] at hnd hlen hlru hlow
  obtain ⟨A, rest, hA⟩ := List.exists_cons_of_ne_nil h1
  obtain ⟨pf, pr, pw, pl, _⟩ := put_fields_of_free cfg clk s0 k v1 A rest hA
  obtain ⟨hk1, _⟩ := put_kv_map_of_free cfg clk s0 k v1 A rest hA
  refine ⟨A, _, hk1, ?_⟩
  rw [hA, List.cons_append] at hnd hlen
  have hA_notin : A ∉ rest ++ (put_rebalanced cfg clk s0 k).reserve_slabs :=
    (List.nodup_cons.1 hnd).1
  have hl_s1 : ∀ e ∈ (put cfg clk s0 k v1).lru, e.2 = A := by
    rw [pl, hlru]; simp [lru_insert]
  -- the second write
  obtain ⟨qf, qr, ql, qmem⟩ := put_release_of_entry clk (put cfg clk s0 k v1) k A _ hk1
  have qlow : (put_release clk (put cfg clk s0 k v1) k).dynamic_low_wm ≤ cfg.total_slabs / 2 := by
    rw [(put_release_low_wm clk _ k).1, pw]; exact hlow
  have hl_p : ∀ e ∈ (put_release clk (put cfg clk s0 k v1) k).lru, e.2 = A := by
    intro e he
    rw [ql] at he
    exact hl_s1 e (List.mem_of_mem_filter he)
  obtain ⟨k2, hf2, _, _, hdue2⟩ := manage_op_free cfg clk (put_release clk (put cfg clk s0 k v1) k)
  have hperm2 := manage_pools_perm cfg (put_release clk (put cfg clk s0 k v1) k)
  rw [qf, qr, pf, pr] at hperm2
  obtain ⟨B, rest2, hB⟩ := List.exists_cons_of_ne_nil h2
  have hBA : B ≠ A := by
    intro hBA
    rw [put_rebalanced, hf2] at hB
    cases hm : (manage_pools cfg (put_release clk (put cfg clk s0 k v1) k)).free_slabs with
    | nil =>
      rw [hm] at hB hperm2
      have hk2 : k2 ≠ 0 := by
        intro h0; rw [h0] at hB; simp at hB
      obtain ⟨hlt, hres⟩ := (gc_due_iff _).1 (hdue2 hk2)
      rw [hres] at hperm2
      have hlen0 := hperm2.length_eq
      have hmlow : (manage_pools cfg (put_release clk (put cfg clk s0 k v1) k)).dynamic_low_wm
          ≤ cfg.total_slabs / 2 := adapt_low_le _ _ _ _ qlow
      simp only [List.length_cons, List.length_append, List.length_nil] at hlen hlen0 hlt
      omega
    | cons C tl =>
      rw [hm] at hB hperm2
      have hBC : B = C := by
        simp only [List.cons_append, List.cons.injEq] at hB
        exact hB.1.symm
      have hCmem : C ∈ rest ++ (put_rebalanced cfg clk s0 k).reserve_slabs :=
        hperm2.subset (by simp)
      rw [← hBC, hBA] at hCmem
      exact hA_notin hCmem
  obtain ⟨_, _, _, _, ps2⟩ :=
    put_fields_of_free cfg clk (put cfg clk s0 k v1) k v2 B rest2 hB
  rw [ps2, Function.update_noteq hBA.symm, put_rebalanced]
  exact manage_op_slabs_mem cfg clk _ A _ qmem

/-! ## Writes while `manage_op` is idle -/

theorem drain_idle (mr : Nat) (f r : List String) (h : mr ≤ r.length) :
    drain 0 mr f r = (f, r) := by
  cases f with
  | nil => rfl
  | cons a f =>
    rw [drain]
    have : ¬ (3 * 0 < 2 * (f.length + 1) ∧ r.length < mr) := by omega
    simp only [this, if_false]

theorem refill_zero (r f : List String) : refill 0 r f = (r, f) := by
  cases r <;> simp [refill]

theorem adapt_zero (n free high : Nat) : adapt n free 0 high = (0, high) := by
  simp [adapt]

theorem manage_op_idle (cfg : Config) (clk : Nat → Nat) (s : KeyValueCache)
    (h : Idle cfg s) : manage_op cfg clk s = s := by
  obtain ⟨hlow, hres⟩ := h
  have hmp : manage_pools cfg s = s := by
    cases s
    simp only at hlow hres
    subst hlow
    simp only [manage_pools, adapt_zero, drain_idle _ _ _ hres, refill_zero]
  have hdue : gc_due s = false := by simp [gc_due, hlow]
  unfold manage_op
  simp only [hmp, hdue]
  rfl

theorem put_rebalanced_idle (cfg : Config) (clk : Nat → Nat) (s : KeyValueCache) (k : String)
    (h : Idle cfg s) (hk : s.kv_map k = none) : put_rebalanced cfg clk s k = s := by
  have hrel : put_release clk s k = s := by unfold put_release; rw [hk]
  rw [put_rebalanced, hrel, manage_op_idle cfg clk s h]

theorem put_idle_nil (cfg : Config) (clk : Nat → Nat) (s : KeyValueCache) (k : String)
    (v : Bytes) (h : Idle cfg s) (hk : s.kv_map k = none) (hf : s.free_slabs = []) :
    put cfg clk s k v = s := by
  unfold put
  simp only [put_rebalanced_idle cfg clk s k h hk, hf]

theorem put_idle_cons (cfg : Config) (clk : Nat → Nat) (s : KeyValueCache) (k : String)
    (v : Bytes) (A : String) (rest : List String) (h : Idle cfg s) (hk : s.kv_map k = none)
    (hf : s.free_slabs = A :: rest) :
    (put cfg clk s k v).free_slabs = rest ∧
    (put cfg clk s k v).reserve_slabs = s.reserve_slabs ∧
    (put cfg clk s k v).active_slabs = s.active_slabs ++ [A] ∧
    (put cfg clk s k v).dynamic_low_wm = s.dynamic_low_wm ∧
    (put cfg clk s k v).kv_map =
      Function.update s.kv_map k (some (A, ((s.slabs A).alloc (clk s.ticks)).1)) ∧
    (put cfg clk s k v).db =
      RocksDBWrapper.put s.db (block_key A ((s.slabs A).alloc (clk s.ticks)).1) v ∧
    (put cfg clk s k v).slabs =
      Function.update s.slabs A ((s.slabs A).alloc (clk s.ticks)).2 := by
  unfold put
  simp only [put_rebalanced_idle cfg clk s k h hk, hf, and_self]

theorem block_key_slab_injective (a a' : String) (b : Int)
    (h : block_key a b = block_key a' b) : a = a' := by
  have h1 := congrArg String.data h
  simp only [block_key, String.data_append] at h1
  exact String.ext (List.append_cancel_right (List.append_cancel_right h1))

theorem get_of_entry (clk : Nat → Nat) (s : KeyValueCache) (k slab : String) (idx : Int)
    (v : Bytes) (hk : s.kv_map k = some (slab, idx))
    (hdb : s.db (block_key slab idx) = some (RocksDBWrapper.put_value v)) :
    (get clk s k).1 = pad_or_truncate v 4096 := by
  unfold get
  rw [hk]
  simp only [RocksDBWrapper.get, hdb, put_value_length, lt_self_iff_false, if_false]
  exact put_value_eq_pad_or_truncate v

theorem get_of_absent (clk : Nat → Nat) (s : KeyValueCache) (k : String)
    (hk : s.kv_map k = none) : (get clk s k).1 = [] := by
  unfold get
  rw [hk]

theorem idle_puts (cfg : Config) (clk : Nat → Nat) (b0 : Int) (kvs : List (String × Bytes)) :
    ∀ s : KeyValueCache, Idle cfg s → (kvs.map Prod.fst).Nodup →
      (∀ kv ∈ kvs, s.kv_map kv.1 = none) → s.free_slabs.Nodup →
      (∀ id ∈ s.free_slabs, ∀ now, ((s.slabs id).alloc now).1 = b0) →
      (∀ k, k ∉ kvs.map Prod.fst → (put_all cfg clk s kvs).kv_map k = s.kv_map k) ∧
      (∀ x, (∀ id ∈ s.free_slabs, x ≠ block_key id b0) →
        (put_all cfg clk s kvs).db x = s.db x) ∧
      (∀ kv ∈ kvs.take s.free_slabs.length, ∃ id ∈ s.free_slabs,
        (put_all cfg clk s kvs).kv_map kv.1 = some (id, b0) ∧
        (put_all cfg clk s kvs).db (block_key id b0) = some (RocksDBWrapper.put_value kv.2)) ∧
      (∀ kv ∈ kvs.drop s.free_slabs.length, (put_all cfg clk s kvs).kv_map kv.1 = none) ∧
      (put_all cfg clk s kvs).free_slabs.length + (put_all cfg clk s kvs).active_slabs.length
        + (put_all cfg clk s kvs).reserve_slabs.length
        = s.free_slabs.length + s.active_slabs.length + s.reserve_slabs.length := by
  induction kvs with
  | nil =>
    intro s _ _ _ _ _
    simp [put_all]
  | cons kv tl ih =>
    intro s hidle hnd habs hfnd halloc
    obtain ⟨k, v⟩ := kv
    have hk_notin : k ∉ tl.map Prod.fst := (List.nodup_cons.1 (by simpa using hnd)).1
    have hnd_tl : (tl.map Prod.fst).Nodup := (List.nodup_cons.1 (by simpa using hnd)).2
    have hk_abs : s.kv_map k = none := habs (k, v) (List.mem_cons_self _ _)
    have hstep : put_all cfg clk s ((k, v) :: tl) = put_all cfg clk (put cfg clk s k v) tl := by
      simp [put_all]
    rw [hstep]
    cases hf : s.free_slabs with
    | nil =>
      rw [put_idle_nil cfg clk s k v hidle hk_abs hf]
      obtain ⟨i1, i2, _, i4, i5⟩ := ih s hidle hnd_tl
        (fun kv hkv => habs kv (List.mem_cons_of_mem _ hkv)) hfnd halloc
      rw [hf] at i2 i4 i5
      refine ⟨?_, ?_, ?_, ?_, ?_⟩
      · intro k' hk'
        exact i1 k' (fun hm => hk' (by simp only [List.map_cons, List.mem_cons]; exact Or.inr hm))
      · intro x hx; exact i2 x hx
      · intro kv hkv; simp at hkv
      · intro kv hkv
        simp only [List.length_nil, List.drop_zero, List.mem_cons] at hkv i4
        rcases hkv with rfl | hkv
        · rw [i1 k hk_notin]; exact hk_abs
        · exact i4 kv hkv
      · exact i5
    | cons A rest =>
      obtain ⟨pf, pr, pa, pw, pk, pdb, ps⟩ := put_idle_cons cfg clk s k v A rest hidle hk_abs hf
      rw [hf] at hfnd halloc
      have hA_notin : A ∉ rest := (List.nodup_cons.1 hfnd).1
      have hb : ((s.slabs A).alloc (clk s.ticks)).1 = b0 :=
        halloc A (List.mem_cons_self _ _) _
      rw [hb] at pk pdb
      have hidle1 : Idle cfg (put cfg clk s k v) := by
        unfold Idle; rw [pw, pr]; exact hidle
      have habs1 : ∀ kv ∈ tl, (put cfg clk s k v).kv_map kv.1 = none := by
        intro kv hkv
        have hne : kv.1 ≠ k := by
          intro he; exact hk_notin (he ▸ List.mem_map_of_mem Prod.fst hkv)
        rw [pk, Function.update_noteq hne]
        exact habs kv (List.mem_cons_of_mem _ hkv)
      have hfnd1 : (put cfg clk s k v).free_slabs.Nodup := by
        rw [pf]; exact (List.nodup_cons.1 hfnd).2
      have halloc1 : ∀ id ∈ (put cfg clk s k v).free_slabs, ∀ now,
          (((put cfg clk s k v).slabs id).alloc now).1 = b0 := by
        intro id hid now
        rw [pf] at hid
        have hne : id ≠ A := fun he => hA_notin (he ▸ hid)
        rw [ps, Function.update_noteq hne]
        exact halloc id (List.mem_cons_of_mem _ hid) now
      obtain ⟨i1, i2, i3, i4, i5⟩ := ih (put cfg clk s k v) hidle1 hnd_tl habs1 hfnd1 halloc1
      rw [pf] at i2 i3 i4 i5
      refine ⟨?_, ?_, ?_, ?_, ?_⟩
      · intro k' hk'
        simp only [List.map_cons, List.mem_cons, not_or] at hk'
        rw [i1 k' hk'.2, pk, Function.update_noteq hk'.1]
      · intro x hx
        rw [i2 x (fun id hid => hx id (List.mem_cons_of_mem _ hid)), pdb]
        simp only [RocksDBWrapper.put]
        rw [Function.update_noteq (hx A (List.mem_cons_self _ _))]
      · intro kv hkv
        simp only [List.length_cons, List.take_succ_cons, List.mem_cons] at hkv
        rcases hkv with rfl | hkv
        · refine ⟨A, List.mem_cons_self _ _, ?_, ?_⟩
          · rw [i1 k hk_notin, pk, Function.update_same]
          · have hfr : ∀ id ∈ rest, block_key A b0 ≠ block_key id b0 := by
              intro id hid he
              exact hA_notin (block_key_slab_injective A id b0 he ▸ hid)
            rw [i2 _ hfr, pdb]
            simp [RocksDBWrapper.put]
        · obtain ⟨id, hid, h1, h2⟩ := i3 kv hkv
          exact ⟨id, List.mem_cons_of_mem _ hid, h1, h2⟩
      · intro kv hkv
        simp only [List.length_cons, List.drop_succ_cons] at hkv
        exact i4 kv hkv
      · rw [i5, pa, pr]
        simp only [List.length_append, List.length_cons, List.length_nil]
        omega

/-! ## Blocks of the constructed slabs -/

theorem init_slabs_fold_high_wm (cfg : Config) (clk : Nat → Nat) (l : List Nat)
    (s : KeyValueCache) :
    (l.foldl (init_slab cfg clk) s).dynamic_high_wm = s.dynamic_high_wm := by
  induction l generalizing s with
  | nil => rfl
  | cons i l ih => rw [List.foldl_cons, ih]; rfl

theorem init_slabs_fold_slabs (cfg : Config) (clk : Nat → Nat) (l : List Nat)
    (s : KeyValueCache) (id : String) (h : id ∈ l.map (fun i => "slab_" ++ toString i)) :
    ((l.foldl (init_slab cfg clk) s).slabs id).free_blocks
      = init_free_blocks cfg.BLOCKS_PER_SLAB := by
  induction l using List.reverseRecOn with
  | nil => simp at h
  | append_singleton l i ih =>
    rw [List.foldl_append, List.foldl_cons, List.foldl_nil]
    simp only [init_slab]
    by_cases hid : id = "slab_" ++ toString i
    · subst hid
      rw [Function.update_same]
      rfl
    · rw [Function.update_noteq hid]
      apply ih
      simp only [List.map_append, List.map_cons, List.map_nil, List.mem_append,
        List.mem_singleton] at h
      rcases h with h | h
      · exact h
      · exact absurd h hid

theorem manage_op_slabs_of_lru_nil (cfg : Config) (clk : Nat → Nat) (s : KeyValueCache)
    (h : s.lru = []) : (manage_op cfg clk s).slabs = s.slabs := by
  have hm : (manage_pools cfg s).lru = [] := by simpa [manage_pools] using h
  unfold manage_op
  simp only
  split_ifs
  · rw [gc_of_lru_nil cfg clk _ hm]; rfl
  · rfl

theorem init_free_blocks_of_pooled (cfg : Config) (clk : Nat → Nat) (id : String)
    (h : id ∈ (KeyValueCache.init cfg clk).free_slabs ++
      (KeyValueCache.init cfg clk).reserve_slabs) :
    ((KeyValueCache.init cfg clk).slabs id).free_blocks
      = init_free_blocks cfg.BLOCKS_PER_SLAB := by
  obtain ⟨h1, h2, _, h4, _⟩ :=
    init_slabs_fold cfg clk (List.range cfg.total_slabs) (empty_cache cfg)
  have hlru : (init_slabs cfg clk (empty_cache cfg)).lru = [] := by
    unfold init_slabs; rw [h4]; rfl
  obtain ⟨hf, hr, _, _⟩ := manage_op_of_lru_nil cfg clk _ hlru
  have hperm := manage_pools_perm cfg (init_slabs cfg clk (empty_cache cfg))
  unfold KeyValueCache.init at h ⊢
  rw [hf, hr] at h
  have hmem := hperm.subset h
  rw [manage_op_slabs_of_lru_nil cfg clk _ hlru]
  unfold init_slabs at hmem ⊢
  rw [h1, h2] at hmem
  apply init_slabs_fold_slabs
  simpa [empty_cache] using hmem

/-! ## Scenario C: overwrite on a fresh engine -/

theorem set_insert_nodup (x : Int) (l : List Int) (h : l.Nodup) : (set_insert x l).Nodup := by
  unfold set_insert
  split_ifs with hx
  · exact h
  · exact List.nodup_cons.2 ⟨hx, h⟩

theorem init_free_blocks_nodup (blocks : Nat) : (init_free_blocks blocks).Nodup := by
  unfold init_free_blocks
  have key : ∀ (l : List Nat) (acc : List Int), acc.Nodup →
      (l.foldl (fun acc i => set_insert (i : Int) acc) acc).Nodup := by
    intro l
    induction l with
    | nil => intro acc h; exact h
    | cons i l ih => intro acc h; exact ih _ (set_insert_nodup _ _ h)
  exact key _ [] List.nodup_nil

theorem alloc_not_mem (sl : Slab) (now : Nat) (h : sl.free_blocks.Nodup) :
    (sl.alloc now).1 ∉ (sl.alloc now).2.free_blocks := by
  unfold Slab.alloc
  cases hfb : sl.free_blocks with
  | nil => simp [hfb]
  | cons i rest =>
    rw [hfb] at h
    exact (List.nodup_cons.1 h).1

theorem first_put_allocates (cfg : Config) (clk : Nat → Nat) (s0 : KeyValueCache)
    (k : String) (v1 : Bytes) (hfresh : Fresh cfg s0)
    (hslabs : ∀ id ∈ s0.free_slabs ++ s0.reserve_slabs, (s0.slabs id).free_blocks.Nodup)
    (slab : String) (idx : Int) (hk : (put cfg clk s0 k v1).kv_map k = some (slab, idx)) :
    idx ∉ ((put cfg clk s0 k v1).slabs slab).free_blocks := by
  have hkv0 := hfresh.2.2.2.2.1
  have hrel : put_release clk s0 k = s0 := by unfold put_release; rw [hkv0 k]
  have hr1 : put_rebalanced cfg clk s0 k = manage_op cfg clk s0 := by
    rw [put_rebalanced, hrel]
  cases hfree : (put_rebalanced cfg clk s0 k).free_slabs with
  | nil =>
    have hput : put cfg clk s0 k v1 = put_rebalanced cfg clk s0 k := by
      unfold put; simp only [hfree]
    rw [hput, hr1, manage_op_kv_map, hkv0 k] at hk
    exact absurd hk (by simp)
  | cons A rest =>
    obtain ⟨hkA, _⟩ := put_kv_map_of_free cfg clk s0 k v1 A rest hfree
    obtain ⟨_, _, _, _, ps⟩ := put_fields_of_free cfg clk s0 k v1 A rest hfree
    rw [hkA] at hk
    obtain ⟨hs, hi⟩ := Prod.mk.inj (Option.some.inj hk)
    subst hs
    subst hi
    rw [ps, Function.update_same]
    apply alloc_not_mem
    obtain ⟨hf, hr, _, _⟩ := manage_op_of_lru_nil cfg clk s0 hfresh.2.2.2.1
    have hmem : A ∈ s0.free_slabs ++ s0.reserve_slabs := by
      apply (manage_pools_perm cfg s0).subset
      rw [← hf, ← hr, ← hr1, hfree]
      simp
    rw [hr1, manage_op_slabs_of_lru_nil cfg clk s0 hfresh.2.2.2.1]
    exact hslabs A hmem

theorem init_pooled_nodup (cfg : Config) (clk : Nat → Nat) :
    ∀ id ∈ (KeyValueCache.init cfg clk).free_slabs ++ (KeyValueCache.init cfg clk).reserve_slabs,
      ((KeyValueCache.init cfg clk).slabs id).free_blocks.Nodup := by
  intro id hid
  rw [init_free_blocks_of_pooled cfg clk id hid]
  exact init_free_blocks_nodup _

/-- C4: for every key `k` and values `v1`, `v2`, starting from a freshly
constructed engine, after `put(k, v1)` then `put(k, v2)` (neither dropped)
`get(k)` returns `pad_or_truncate(v2, 4096)`, and the block that the first
`put` allocated for `k` (not free after the first `put`) is a member of its
slab's `free_blocks` again. -/
theorem C4_overwrite (cfg : Config) (clk : Nat → Nat) (k : String) (v1 v2 : Bytes)
    (h1 : (put_rebalanced cfg clk (KeyValueCache.init cfg clk) k).free_slabs ≠ [])
    (h2 : (put_rebalanced cfg clk
            (put cfg clk (KeyValueCache.init cfg clk) k v1) k).free_slabs ≠ []) :
    (get clk (put cfg clk (put cfg clk (KeyValueCache.init cfg clk) k v1) k v2) k).1
      = pad_or_truncate v2 4096 ∧
    ∃ slab idx,
      (put cfg clk (KeyValueCache.init cfg clk) k v1).kv_map k = some (slab, idx) ∧
      idx ∉ ((put cfg clk (KeyValueCache.init cfg clk) k v1).slabs slab).free_blocks ∧
      idx ∈ ((put cfg clk (put cfg clk (KeyValueCache.init cfg clk) k v1) k v2).slabs
        slab).free_blocks := by
  refine ⟨get_after_put cfg clk _ k v2 h2, ?_⟩
  obtain ⟨slab, idx, hk, hmem⟩ :=
    overwrite_releases_block cfg clk _ k v1 v2 (init_fresh cfg clk) h1 h2
  exact ⟨slab, idx, hk,
    first_put_allocates cfg clk _ k v1 (init_fresh cfg clk) (init_pooled_nodup cfg clk)
      slab idx hk, hmem⟩

set_option maxRecDepth 1000000 in
/-- Witness of C4: Scenario C on the engine of `flash-kv-cache.cpp` with a
ticking clock, 4096 bytes `'A'` overwritten by 4096 bytes `'B'`. -/
theorem C4_overwrite_witness :
    (put_rebalanced flash_cfg id (KeyValueCache.init flash_cfg id) "k").free_slabs ≠ [] ∧
    (put_rebalanced flash_cfg id
      (put flash_cfg id (KeyValueCache.init flash_cfg id) "k" (List.replicate 4096 65))
      "k").free_slabs ≠ [] ∧
    ((get id (put flash_cfg id
      (put flash_cfg id (KeyValueCache.init flash_cfg id) "k" (List.replicate 4096 65))
      "k" (List.replicate 4096 66)) "k").1 = pad_or_truncate (List.replicate 4096 66) 4096 ∧
     ∃ slab idx,
      (put flash_cfg id (KeyValueCache.init flash_cfg id) "k"
        (List.replicate 4096 65)).kv_map "k" = some (slab, idx) ∧
      idx ∉ ((put flash_cfg id (KeyValueCache.init flash_cfg id) "k"
        (List.replicate 4096 65)).slabs slab).free_blocks ∧
      idx ∈ ((put flash_cfg id
        (put flash_cfg id (KeyValueCache.init flash_cfg id) "k" (List.replicate 4096 65))
        "k" (List.replicate 4096 66)).slabs slab).free_blocks) :=
  ⟨by decide, by decide,
   C4_overwrite flash_cfg id "k" (List.replicate 4096 65) (List.replicate 4096 66)
     (by decide) (by decide)⟩

/-! ## Scenario A -/

theorem drain_zero (mr : Nat) (f r : List String) :
    drain 0 mr f r =
      (f.drop (min f.length (mr - r.length)), r ++ f.take (min f.length (mr - r.length))) := by
  induction f generalizing r with
  | nil => simp [drain]
  | cons a f ih =>
    rw [drain]
    by_cases hlt : r.length < mr
    · have hc : 3 * 0 < 2 * (f.length + 1) ∧ r.length < mr := ⟨by omega, hlt⟩
      simp only [hc, and_self, if_true]
      rw [ih]
      have hj : min (a :: f).length (mr - r.length)
          = min f.length (mr - (r ++ [a]).length) + 1 := by
        simp only [List.length_append, List.length_cons, List.length_nil]
        omega
      rw [hj]
      simp
    · have hc : ¬ (3 * 0 < 2 * (f.length + 1) ∧ r.length < mr) := fun hc => hlt hc.2
      have hj : min (a :: f).length (mr - r.length) = 0 := by
        have : mr - r.length = 0 := by omega
        rw [this]; exact Nat.min_zero _
      simp only [hc, if_false, hj, List.drop_zero, List.take_zero, List.append_nil]

theorem scenarioA_init (cfg : Config) (clk : Nat → Nat) (h8 : cfg.total_slabs = 8)
    (h2 : cfg.BLOCKS_PER_SLAB = 2) :
    (KeyValueCache.init cfg clk).free_slabs.length = 7 ∧
    (KeyValueCache.init cfg clk).reserve_slabs.length = 1 ∧
    (KeyValueCache.init cfg clk).active_slabs = [] ∧
    (KeyValueCache.init cfg clk).dynamic_low_wm = 0 ∧
    (KeyValueCache.init cfg clk).free_slabs.Nodup ∧
    (∀ k, (KeyValueCache.init cfg clk).kv_map k = none) ∧
    (∀ id ∈ (KeyValueCache.init cfg clk).free_slabs, ∀ now,
      (((KeyValueCache.init cfg clk).slabs id).alloc now).1 = 1) := by
  obtain ⟨hnd, _, hact, _, hkv, _⟩ := init_fresh cfg clk
  obtain ⟨f1, f2, _, f4, _⟩ :=
    init_slabs_fold cfg clk (List.range cfg.total_slabs) (empty_cache cfg)
  have hlow0 : (init_slabs cfg clk (empty_cache cfg)).dynamic_low_wm = 1 := by
    unfold init_slabs
    rw [init_slabs_fold_low_wm]
    simp [empty_cache, h8]
  have hhigh0 : (init_slabs cfg clk (empty_cache cfg)).dynamic_high_wm = 6 := by
    unfold init_slabs
    rw [init_slabs_fold_high_wm]
    simp [empty_cache, h8]
  have hfree0 : (init_slabs cfg clk (empty_cache cfg)).free_slabs.length = 8 := by
    unfold init_slabs; rw [f1]; simp [empty_cache, h8]
  have hres0 : (init_slabs cfg clk (empty_cache cfg)).reserve_slabs = [] := by
    unfold init_slabs; rw [f2]; rfl
  have hlru0 : (init_slabs cfg clk (empty_cache cfg)).lru = [] := by
    unfold init_slabs; rw [f4]; rfl
  obtain ⟨hf, hr, _, _⟩ := manage_op_of_lru_nil cfg clk _ hlru0
  have hadapt : adapt 8 8 1 6 = (0, 5) := by decide
  have hmp : (manage_pools cfg (init_slabs cfg clk (empty_cache cfg))).free_slabs.length = 7 ∧
      (manage_pools cfg (init_slabs cfg clk (empty_cache cfg))).reserve_slabs.length = 1 := by
    simp only [manage_pools, hlow0, hhigh0, hfree0, hres0, h8, hadapt, drain_zero, refill_zero]
    simp [hfree0]
  have hlow : (KeyValueCache.init cfg clk).dynamic_low_wm = 0 := by
    unfold KeyValueCache.init
    rw [manage_op_low_wm, hlow0, hhigh0, hfree0, h8, hadapt]
  refine ⟨?_, ?_, hact, hlow, hnd.of_append_left, hkv, ?_⟩
  · unfold KeyValueCache.init; rw [hf]; exact hmp.1
  · unfold KeyValueCache.init; rw [hr]; exact hmp.2
  · intro id hid now
    have hfb := init_free_blocks_of_pooled cfg clk id (List.mem_append_left _ hid)
    have h2b : init_free_blocks 2 = [1, 0] := by decide
    rw [h2, h2b] at hfb
    simp only [Slab.alloc, hfb]

set_option maxRecDepth 100000 in
/-- C7 as stated fails: on the engine of Scenario A (ticking clock, collector
floor 2000) the eighth of sixteen writes of distinct keys finds the free pool
empty and is dropped, and afterwards `get` of its key is a miss, not the padded
value. -/
theorem C7_eighth_key_is_a_miss :
    (put_rebalanced cfg8 id (run cfg8 id (puts "key_" 7 [120]))
      "key_7").free_slabs = [] ∧
    (get id (run cfg8 id (puts "key_" 16 [120])) "key_7").1 = [] ∧
    (get id (run cfg8 id (puts "key_" 16 [120])) "key_7").1
      ≠ pad_or_truncate [120] 4096 := by
  refine ⟨by decide, by decide, ?_⟩
  have h : (get id (run cfg8 id (puts "key_" 16 [120])) "key_7").1 = [] := by decide
  rw [h]
  intro he
  have := congrArg List.length he
  rw [pad_or_truncate_length] at this
  simp at this

/-- C7, amended: on an engine built with `total_slabs = 8` and
`BLOCKS_PER_SLAB = 2` (any clock, channel count and collector floor), after
inserting 16 distinct keys one after another (values of any length, 1-byte
values among them), `get` of each of the first 7 keys returns its value padded
to block size, `get` of each of the other 9 keys is a miss, and
`free.size() + active.size() + reserve.size() = 8`. -/
theorem C7_scenario_A (cfg : Config) (clk : Nat → Nat) (kvs : List (String × Bytes))
    (h8 : cfg.total_slabs = 8) (h2 : cfg.BLOCKS_PER_SLAB = 2)
    (hlen : kvs.length = 16) (hnd : (kvs.map Prod.fst).Nodup) :
    (∀ kv ∈ kvs.take 7,
      (get clk (put_all cfg clk (KeyValueCache.init cfg clk) kvs) kv.1).1
        = pad_or_truncate kv.2 4096) ∧
    (∀ kv ∈ kvs.drop 7,
      (get clk (put_all cfg clk (KeyValueCache.init cfg clk) kvs) kv.1).1 = []) ∧
    (kvs.take 7).length = 7 ∧ (kvs.drop 7).length = 9 ∧
    (put_all cfg clk (KeyValueCache.init cfg clk) kvs).free_slabs.length
      + (put_all cfg clk (KeyValueCache.init cfg clk) kvs).active_slabs.length
      + (put_all cfg clk (KeyValueCache.init cfg clk) kvs).reserve_slabs.length = 8 := by
  obtain ⟨hf, hr, ha, hw, hfnd, hkv, halloc⟩ := scenarioA_init cfg clk h8 h2
  have hidle : Idle cfg (KeyValueCache.init cfg clk) := by
    unfold Idle; rw [hw, hr, h8]; exact ⟨rfl, by decide⟩
  obtain ⟨_, _, i3, i4, i5⟩ := idle_puts cfg clk 1 kvs _ hidle hnd
    (fun kv _ => hkv kv.1) hfnd halloc
  rw [hf] at i3 i4
  rw [hf, hr, ha] at i5
  refine ⟨?_, ?_, ?_, ?_, ?_⟩
  · intro kv hmem
    obtain ⟨id, _, h1, h2⟩ := i3 kv hmem
    exact get_of_entry clk _ kv.1 id 1 kv.2 h1 h2
  · intro kv hmem
    exact get_of_absent clk _ kv.1 (i4 kv hmem)
  · rw [List.length_take]; omega
  · rw [List.length_drop]; omega
  · rw [i5]; rfl

set_option maxRecDepth 100000 in
/-- Witness of C7: `cfg8`, a ticking clock, the keys `key_0 … key_15` and the
one-byte value `"x"`. -/
theorem C7_scenario_A_witness :
    cfg8.total_slabs = 8 ∧ cfg8.BLOCKS_PER_SLAB = 2 ∧
    pairs16.length = 16 ∧ (pairs16.map Prod.fst).Nodup ∧
    ((∀ kv ∈ pairs16.take 7,
      (get id (put_all cfg8 id (KeyValueCache.init cfg8 id) pairs16) kv.1).1
        = pad_or_truncate kv.2 4096) ∧
    (∀ kv ∈ pairs16.drop 7,
      (get id (put_all cfg8 id (KeyValueCache.init cfg8 id) pairs16) kv.1).1 = []) ∧
    (pairs16.take 7).length = 7 ∧ (pairs16.drop 7).length = 9 ∧
    (put_all cfg8 id (KeyValueCache.init cfg8 id) pairs16).free_slabs.length
      + (put_all cfg8 id (KeyValueCache.init cfg8 id) pairs16).active_slabs.length
      + (put_all cfg8 id (KeyValueCache.init cfg8 id) pairs16).reserve_slabs.length = 8) :=
  ⟨by decide, by decide, by decide, by decide,
   C7_scenario_A cfg8 id pairs16 (by decide) (by decide) (by decide) (by decide)⟩

/-! ## Absent keys -/

/-- C14: for every engine state and every key `k` with no directory entry,
`get(k)` returns the empty string and `del(k)` returns, and each call leaves
the whole engine state (directory, pools, every slab's `free_blocks` and `lru`,
the eviction index and the store) unchanged. -/
theorem C14_absent_key_no_side_effect (clk : Nat → Nat) (s : KeyValueCache) (k : String)
    (h : s.kv_map k = none) :
    get clk s k = ([], s) ∧ del clk s k = s := by
  constructor
  · unfold get; rw [h]
  · unfold del; rw [h]

/-- Witness of C14: the engine `cfg8` right after construction and the key
`"x"`. -/
theorem C14_absent_key_no_side_effect_witness :
    (KeyValueCache.init cfg8 id).kv_map "x" = none ∧
    (get id (KeyValueCache.init cfg8 id) "x" = ([], KeyValueCache.init cfg8 id) ∧
     del id (KeyValueCache.init cfg8 id) "x" = KeyValueCache.init cfg8 id) :=
  ⟨by decide, C14_absent_key_no_side_effect id _ "x" (by decide)⟩

/-! ## Stale eviction entries -/

/-- C16 (the code departs from the claim): on the engine `cfg8` with a ticking
clock, after `put("k", …)` the key lives in `slab_1`, whose `lru` is 8, and the
eviction index holds `(8, slab_1)`. The overwrite `put("k", …)` releases block 1
of `slab_1`, but `Slab::free` has set `slab_1`'s `lru` to 9 before
`lru.erase(slabs[slab]->lru)` runs, so the erase finds nothing and the old entry
`(8, slab_1)` is still in the eviction index afterwards. -/
theorem C16_overwrite_keeps_old_entry :
    (run cfg8 id write_k).kv_map "k" = some ("slab_1", 1) ∧
    ((run cfg8 id write_k).slabs "slab_1").lru = 8 ∧
    (run cfg8 id write_k).lru = [(8, "slab_1")] ∧
    (1 : Int) ∈ ((run cfg8 id overwrite_k).slabs "slab_1").free_blocks ∧
    ((run cfg8 id overwrite_k).slabs "slab_1").lru = 9 ∧
    (8, "slab_1") ∈ (run cfg8 id overwrite_k).lru ∧
    (run cfg8 id overwrite_k).lru = [(8, "slab_1"), (10, "slab_2")] := by
  refine ⟨by decide, by decide, by decide, by decide, by decide, by decide, by decide⟩

/-! ## Bulk load -/

theorem batch_put_db_of_not_mem (kvs : List (String × Bytes)) (db : DB) (k : String)
    (h : k ∉ kvs.map Prod.fst) : RocksDBWrapper.batch_put db kvs k = db k := by
  unfold RocksDBWrapper.batch_put
  induction kvs generalizing db with
  | nil => rfl
  | cons kv tl ih =>
    simp only [List.map_cons, List.mem_cons, not_or] at h
    rw [List.foldl_cons, ih _ h.2]
    simp only [RocksDBWrapper.batch_entry]
    rw [Function.update_noteq h.1]

theorem batch_put_db_of_last (pre post : List (String × Bytes)) (db : DB) (k : String)
    (v : Bytes) (h : k ∉ post.map Prod.fst) :
    RocksDBWrapper.batch_put db (pre ++ (k, v) :: post) k
      = some (pad_or_truncate v 4096) := by
  have hsplit : RocksDBWrapper.batch_put db (pre ++ (k, v) :: post)
      = RocksDBWrapper.batch_put
          (RocksDBWrapper.batch_entry (RocksDBWrapper.batch_put db pre) (k, v)) post := by
    simp [RocksDBWrapper.batch_put, List.foldl_append]
  rw [hsplit, batch_put_db_of_not_mem post _ k h]
  simp only [RocksDBWrapper.batch_entry, Function.update_same]
  rw [put_value_eq_pad_or_truncate]; rfl

/-- C17: for every engine state and every list of (key, value) pairs,
`batch_put` leaves the directory, the three pools, every slab and the eviction
index unchanged; the store afterwards holds, under each raw key of the list,
`pad_or_truncate(value, 4096)` for the value of the last pair with that key, and
is unchanged at every other key; hence `get` of a key that has no directory
entry is a miss (the empty string) also after the key was written by
`batch_put`. -/
theorem C17_bulk_load_bypasses_engine (clk : Nat → Nat) (s : KeyValueCache)
    (kvs : List (String × Bytes)) :
    (batch_put s kvs).kv_map = s.kv_map ∧
    (batch_put s kvs).free_slabs = s.free_slabs ∧
    (batch_put s kvs).active_slabs = s.active_slabs ∧
    (batch_put s kvs).reserve_slabs = s.reserve_slabs ∧
    (batch_put s kvs).slabs = s.slabs ∧
    (batch_put s kvs).lru = s.lru ∧
    (∀ pre post k v, kvs = pre ++ (k, v) :: post → k ∉ post.map Prod.fst →
      (batch_put s kvs).db k = some (pad_or_truncate v 4096)) ∧
    (∀ k, k ∉ kvs.map Prod.fst → (batch_put s kvs).db k = s.db k) ∧
    (∀ k, s.kv_map k = none → (get clk (batch_put s kvs) k).1 = []) := by
  refine ⟨rfl, rfl, rfl, rfl, rfl, rfl, ?_, ?_, ?_⟩
  · intro pre post k v hk hpost
    subst hk
    exact batch_put_db_of_last pre post s.db k v hpost
  · intro k hk
    exact batch_put_db_of_not_mem kvs s.db k hk
  · intro k hk
    exact get_of_absent clk _ k hk

/-- Witness of C17: the engine `cfg8` right after construction and a batch
that writes `"key_1"` twice; the store holds the second value, padded, and
`get("key_1")` is a miss. -/
theorem C17_bulk_load_bypasses_engine_witness :
    (batch_put (KeyValueCache.init cfg8 id) [("key_1", [1]), ("key_1", [2])]).db "key_1"
      = some (pad_or_truncate [2] 4096) ∧
    (get id (batch_put (KeyValueCache.init cfg8 id) [("key_1", [1]), ("key_1", [2])])
      "key_1").1 = [] :=
  ⟨(C17_bulk_load_bypasses_engine id (KeyValueCache.init cfg8 id)
      [("key_1", [1]), ("key_1", [2])]).2.2.2.2.2.2.1 [("key_1", [1])] [] "key_1" [2] rfl
      (by decide),
   (C17_bulk_load_bypasses_engine id (KeyValueCache.init cfg8 id)
      [("key_1", [1]), ("key_1", [2])]).2.2.2.2.2.2.2.2 "key_1" (by decide)⟩

/-! ## Slab allocation -/

/-- C19 as stated fails: a slab of two blocks as constructed has both 0 and 1
in `free_blocks`, and `alloc()` returns 1; and `slab_b` has the same members
in `free_blocks` as `slab_a` but `alloc()` returns 0 on it. The first write on
the engine `cfg8` accordingly gets block 1 of its slab. -/
theorem C19_alloc_not_lowest :
    slab_a.free_blocks = [1, 0] ∧ (slab_a.alloc 5).1 = 1 ∧
    slab_b.free_blocks = [0, 1] ∧ (slab_b.alloc 5).1 = 0 ∧
    (∀ i : Int, i ∈ slab_a.free_blocks ↔ i ∈ slab_b.free_blocks) ∧
    (slab_a.alloc 5).1 ≠ (slab_b.alloc 5).1 ∧
    (run cfg8 id write_k).kv_map "k" = some ("slab_1", 1) := by
  have ha : slab_a.free_blocks = [1, 0] := by decide
  have hb : slab_b.free_blocks = [0, 1] := by decide
  refine ⟨ha, by decide, hb, by decide, ?_, by decide, by decide⟩
  intro i
  rw [ha, hb]
  simp only [List.mem_cons, List.mem_singleton, List.not_mem_nil, or_false]
  exact Or.comm

/-- C19, amended: for every slab whose `free_blocks` is non-empty, `alloc()`
returns the element at `begin()` of `free_blocks`, a member of `free_blocks`
(not necessarily the smallest); two slabs whose `free_blocks` have the same
iteration order allocate the same index. -/
theorem C19_alloc_takes_first (s : Slab) (now : Nat) (h : s.free_blocks ≠ []) :
    s.free_blocks.head? = some (s.alloc now).1 ∧
    (s.alloc now).1 ∈ s.free_blocks ∧
    (∀ (s' : Slab) (now' : Nat), s'.free_blocks = s.free_blocks →
      (s'.alloc now').1 = (s.alloc now).1) := by
  obtain ⟨i, rest, hfb⟩ := List.exists_cons_of_ne_nil h
  refine ⟨?_, ?_, ?_⟩
  · simp [Slab.alloc, hfb]
  · simp [Slab.alloc, hfb]
  · intro s' now' hs'
    simp [Slab.alloc, hs', hfb]

/-- Witness of C19: the slab `slab_a`. -/
theorem C19_alloc_takes_first_witness :
    slab_a.free_blocks ≠ [] ∧
    (slab_a.free_blocks.head? = some (slab_a.alloc 5).1 ∧
     (slab_a.alloc 5).1 ∈ slab_a.free_blocks ∧
     (∀ (s' : Slab) (now' : Nat), s'.free_blocks = slab_a.free_blocks →
       (s'.alloc now').1 = (slab_a.alloc 5).1)) :=
  ⟨by decide, C19_alloc_takes_first slab_a 5 (by decide)⟩

/-- C20 as stated fails: after `free(-1)` on a slab without blocks,
`free_blocks` is `{-1}`, not empty, yet `alloc()` returns -1, and it changes
`free_blocks` and `lru`. -/
theorem C20_alloc_minus_one_on_nonempty :
    slab_neg.free_blocks = [-1] ∧ slab_neg.free_blocks ≠ [] ∧
    (slab_neg.alloc 5).1 = -1 ∧
    (slab_neg.alloc 5).2.free_blocks = [] ∧
    slab_neg.lru = 1 ∧ (slab_neg.alloc 5).2.lru = 5 := by
  refine ⟨by decide, by decide, by decide, by decide, by decide, by decide⟩

/-- C20, amended: for every slab whose `free_blocks` is a set that does not
contain -1, `alloc()` returns -1 if and only if `free_blocks` is empty, and
then leaves the slab (`free_blocks` and `lru`) unchanged; otherwise it returns
an index `i` that was in `free_blocks`, the new `free_blocks` is the old one
minus exactly `i`, and a following `free(i)` restores the original
`free_blocks`. -/
theorem C20_alloc_result (s : Slab) (now now' : Nat) (hset : s.free_blocks.Nodup)
    (hneg : (-1 : Int) ∉ s.free_blocks) :
    ((s.alloc now).1 = -1 ↔ s.free_blocks = []) ∧
    (s.free_blocks = [] → (s.alloc now).2 = s) ∧
    (s.free_blocks ≠ [] →
      (s.alloc now).1 ∈ s.free_blocks ∧
      (∀ j, j ∈ (s.alloc now).2.free_blocks ↔ (j ∈ s.free_blocks ∧ j ≠ (s.alloc now).1)) ∧
      (∀ j, j ∈ ((s.alloc now).2.free (s.alloc now).1 now').free_blocks ↔
        j ∈ s.free_blocks)) := by
  cases hfb : s.free_blocks with
  | nil =>
    refine ⟨?_, ?_, ?_⟩
    · simp [Slab.alloc, hfb]
    · intro _; simp [Slab.alloc, hfb]
    · intro h; exact absurd rfl h
  | cons i rest =>
    rw [hfb] at hset hneg
    have hi : i ∉ rest := (List.nodup_cons.1 hset).1
    have hne : i ≠ -1 := fun h => hneg (h ▸ List.mem_cons_self _ _)
    refine ⟨?_, ?_, ?_⟩
    · simp [Slab.alloc, hfb, hne]
    · intro h; exact absurd h (by simp)
    · intro _
      refine ⟨by simp [Slab.alloc, hfb], ?_, ?_⟩
      · intro j
        simp only [Slab.alloc, hfb, List.mem_cons]
        constructor
        · intro hj; exact ⟨Or.inr hj, fun h => hi (h ▸ hj)⟩
        · rintro ⟨hj | hj, hne'⟩
          · exact absurd hj hne'
          · exact hj
      · intro j
        simp only [Slab.alloc, hfb, Slab.free, mem_set_insert, List.mem_cons]

/-- Witness of C20: the slab `slab_a`. -/
theorem C20_alloc_result_witness :
    slab_a.free_blocks.Nodup ∧ (-1 : Int) ∉ slab_a.free_blocks ∧
    (((slab_a.alloc 5).1 = -1 ↔ slab_a.free_blocks = []) ∧
     (slab_a.free_blocks = [] → (slab_a.alloc 5).2 = slab_a) ∧
     (slab_a.free_blocks ≠ [] →
      (slab_a.alloc 5).1 ∈ slab_a.free_blocks ∧
      (∀ j, j ∈ (slab_a.alloc 5).2.free_blocks ↔
        (j ∈ slab_a.free_blocks ∧ j ≠ (slab_a.alloc 5).1)) ∧
      (∀ j, j ∈ ((slab_a.alloc 5).2.free (slab_a.alloc 5).1 6).free_blocks ↔
        j ∈ slab_a.free_blocks))) :=
  ⟨by decide, by decide, C20_alloc_result slab_a 5 6 (by decide) (by decide)⟩

/-! ## Eviction of a slab that the directory still names -/

theorem gc_free_block_db_none (clk : Nat → Nat) (victim : String) (acc : DB × Slab × Nat)
    (i : Nat) (x : String) (h : acc.1 x = none) :
    (gc_free_block clk victim acc i).1 x = none := by
  unfold gc_free_block
  split_ifs
  · exact h
  · simp only [RocksDBWrapper.del]
    by_cases hx : x = block_key victim i
    · rw [hx, Function.update_same]
    · rw [Function.update_noteq hx]; exact h

theorem gc_free_block_mem (clk : Nat → Nat) (victim : String) (acc : DB × Slab × Nat)
    (i : Nat) (b : Int) (h : b ∈ acc.2.1.free_blocks) :
    b ∈ (gc_free_block clk victim acc i).2.1.free_blocks := by
  unfold gc_free_block
  split_ifs
  · exact h
  · simp only [Slab.free]
    exact (mem_set_insert _ _ _).2 (Or.inr h)

theorem gc_free_fold_keeps (clk : Nat → Nat) (victim : String) (l : List Nat)
    (acc : DB × Slab × Nat) :
    (∀ x, acc.1 x = none → (l.foldl (gc_free_block clk victim) acc).1 x = none) ∧
    (∀ b, b ∈ acc.2.1.free_blocks →
      b ∈ (l.foldl (gc_free_block clk victim) acc).2.1.free_blocks) := by
  induction l generalizing acc with
  | nil => exact ⟨fun _ h => h, fun _ h => h⟩
  | cons i l ih =>
    simp only [List.foldl_cons]
    exact ⟨fun x h => (ih _).1 x (gc_free_block_db_none clk victim acc i x h),
      fun b h => (ih _).2 b (gc_free_block_mem clk victim acc i b h)⟩

theorem gc_free_fold_frees (clk : Nat → Nat) (victim : String) (l : List Nat) (j : Nat)
    (hj : j ∈ l) (acc : DB × Slab × Nat) :
    (j : Int) ∈ (l.foldl (gc_free_block clk victim) acc).2.1.free_blocks ∧
    ((j : Int) ∉ acc.2.1.free_blocks →
      (l.foldl (gc_free_block clk victim) acc).1 (block_key victim j) = none) := by
  induction l generalizing acc with
  | nil => simp at hj
  | cons i l ih =>
    simp only [List.foldl_cons]
    by_cases hij : i = j
    · subst hij
      constructor
      · apply (gc_free_fold_keeps clk victim l _).2
        unfold gc_free_block
        split_ifs with hmem
        · exact hmem
        · simp only [Slab.free]
          exact (mem_set_insert _ _ _).2 (Or.inl rfl)
      · intro hnot
        apply (gc_free_fold_keeps clk victim l _).1
        unfold gc_free_block
        simp only [hnot, if_false, RocksDBWrapper.del, Function.update_same]
    · have hjl : j ∈ l := by
        rcases List.mem_cons.1 hj with h | h
        · exact absurd h.symm hij
        · exact h
      obtain ⟨h1, h2⟩ := ih hjl (gc_free_block clk victim acc i)
      refine ⟨h1, fun hnot => h2 ?_⟩
      unfold gc_free_block
      split_ifs
      · exact hnot
      · simp only [Slab.free]
        intro hmem
        rcases (mem_set_insert _ _ _).1 hmem with h | h
        · exact hij (Int.ofNat_inj.1 h.symm)
        · exact hnot h

theorem gc_evict_victim (cfg : Config) (clk : Nat → Nat) (victim : String)
    (st : KeyValueCache) (j : Nat) (hj : j < cfg.BLOCKS_PER_SLAB)
    (hb : (j : Int) ∉ (st.slabs victim).free_blocks) :
    (j : Int) ∈ ((gc_evict cfg clk victim st).slabs victim).free_blocks ∧
    (gc_evict cfg clk victim st).db (block_key victim j) = none := by
  obtain ⟨h1, h2⟩ := gc_free_fold_frees clk victim (List.range cfg.BLOCKS_PER_SLAB) j
    (List.mem_range.2 hj) (st.db, st.slabs victim, st.ticks)
  simp only [gc_evict, gc_free_blocks, Function.update_same]
  exact ⟨h1, h2 hb⟩

theorem gc_evict_db_none (cfg : Config) (clk : Nat → Nat) (victim : String)
    (st : KeyValueCache) (x : String) (h : st.db x = none) :
    (gc_evict cfg clk victim st).db x = none := by
  simp only [gc_evict, gc_free_blocks]
  exact (gc_free_fold_keeps clk victim _ (st.db, st.slabs victim, st.ticks)).1 x h

theorem gc_loop_db_none (cfg : Config) (clk : Nat → Nat) (n : Nat) (st : KeyValueCache)
    (x : String) (h : st.db x = none) : (gc_loop cfg clk n st).db x = none := by
  induction n generalizing st with
  | zero => simpa [gc_loop] using h
  | succ n ih =>
    rw [gc_loop]
    split
    · exact h
    · rename_i t victim rest hl
      exact ih _ (gc_evict_db_none cfg clk victim _ x h)

theorem gc_loop_evicts (cfg : Config) (clk : Nat → Nat) (n : Nat) (st : KeyValueCache)
    (s : String) (j : Nat) (hj : j < cfg.BLOCKS_PER_SLAB)
    (hb : (j : Int) ∉ (st.slabs s).free_blocks)
    (hev : s ∈ (st.lru.take n).map Prod.snd) :
    (j : Int) ∈ ((gc_loop cfg clk n st).slabs s).free_blocks ∧
    (gc_loop cfg clk n st).db (block_key s j) = none := by
  induction n generalizing st with
  | zero => simp at hev
  | succ n ih =>
    rw [gc_loop]
    split
    · rename_i hl; rw [hl] at hev; simp at hev
    · rename_i t victim rest hl
      rw [hl] at hev
      simp only [List.take_succ_cons, List.map_cons, List.mem_cons] at hev
      by_cases hsv : s = victim
      · subst hsv
        obtain ⟨h1, h2⟩ := gc_evict_victim cfg clk s { st with lru := rest } j hj hb
        exact ⟨gc_loop_slabs_mem cfg clk n _ s _ h1, gc_loop_db_none cfg clk n _ _ h2⟩
      · have hev' : s ∈ (rest.take n).map Prod.snd := by
          rcases hev with h | h
          · exact absurd h hsv
          · exact h
        apply ih
        · simp only [gc_evict]
          rw [Function.update_noteq hsv]
          exact hb
        · simpa [gc_evict] using hev'

theorem gc_free_slabs (cfg : Config) (clk : Nat → Nat) (st : KeyValueCache) :
    (gc cfg clk st).free_slabs = st.free_slabs ++ gc_victims cfg st := by
  unfold gc gc_victims
  simp only
  split_ifs with h
  · simp [h]
  · rw [(gc_loop_pools cfg clk _ _).1]

/-- C12: `gc` never changes the directory; for every state in which key `k` has
a directory entry `(s, b)` whose block `b` (an index in
`[0, BLOCKS_PER_SLAB)`) is not free, if `gc` evicts slab `s`, then right
afterwards `k` still has the entry `(s, b)`, `b` is in `s`'s `free_blocks`, the
store holds no record under the composite key `"s:b"`, and `get(k)` returns the
empty string. -/
theorem C12_stale_entry_after_gc (cfg : Config) (clk : Nat → Nat) (st : KeyValueCache)
    (k s : String) (b : Int) (hk : st.kv_map k = some (s, b))
    (hb0 : 0 ≤ b) (hbB : b < cfg.BLOCKS_PER_SLAB) (hb : b ∉ (st.slabs s).free_blocks)
    (hev : s ∈ gc_victims cfg st) :
    (gc cfg clk st).kv_map = st.kv_map ∧
    (gc cfg clk st).free_slabs = st.free_slabs ++ gc_victims cfg st ∧
    (gc cfg clk st).kv_map k = some (s, b) ∧
    b ∈ ((gc cfg clk st).slabs s).free_blocks ∧
    (gc cfg clk st).db (block_key s b) = none ∧
    (get clk (gc cfg clk st) k).1 = [] := by
  obtain ⟨j, rfl⟩ := Int.eq_ofNat_of_zero_le hb0
  have hj : j < cfg.BLOCKS_PER_SLAB := by exact_mod_cast hbB
  have hkv : (gc cfg clk st).kv_map = st.kv_map := (gc_frame cfg clk st).1
  have hk' : (gc cfg clk st).kv_map k = some (s, (j : Int)) := by rw [hkv]; exact hk
  have hlru : st.lru ≠ [] := by
    intro h; simp [gc_victims, h] at hev
  have key : (j : Int) ∈ ((gc cfg clk st).slabs s).free_blocks ∧
      (gc cfg clk st).db (block_key s j) = none := by
    unfold gc
    simp only [hlru, if_false]
    exact gc_loop_evicts cfg clk _ _ s j hj hb hev
  refine ⟨hkv, gc_free_slabs cfg clk st, hk', key.1, key.2, ?_⟩
  unfold get
  rw [hk']
  simp only [RocksDBWrapper.get, key.2]

set_option maxRecDepth 1000000 in
/-- Witness of C12: the engine `cfg20` (ticking clock) after eighteen writes, at
the point where the nineteenth write invokes `gc()`: the key `"a0"` lives in
block 1 of `slab_4`, which the collector evicts. -/
theorem C12_stale_entry_after_gc_witness :
    (put_before_gc cfg20 id (run cfg20 id (puts "a" 18 [1])) "a18").kv_map "a0"
      = some ("slab_4", 1) ∧
    (1 : Int) ∉ ((put_before_gc cfg20 id (run cfg20 id (puts "a" 18 [1])) "a18").slabs
      "slab_4").free_blocks ∧
    "slab_4" ∈ gc_victims cfg20 (put_before_gc cfg20 id (run cfg20 id (puts "a" 18 [1])) "a18") ∧
    gc_due (put_before_gc cfg20 id (run cfg20 id (puts "a" 18 [1])) "a18") = true ∧
    (get id (gc cfg20 id (put_before_gc cfg20 id (run cfg20 id (puts "a" 18 [1])) "a18"))
      "a0").1 = [] :=
  ⟨by decide, by decide, by decide, by decide,
   (C12_stale_entry_after_gc cfg20 id _ "a0" "slab_4" 1 (by decide) (by decide) (by decide)
     (by decide) (by decide)).2.2.2.2.2⟩

/-! ## Postcondition of a write -/

theorem lru_lookup_insert (t : Nat) (v : String) (l : LruMap) :
    lru_lookup t (lru_insert t v l) = some v := by
  induction l with
  | nil => simp [lru_lookup, lru_insert]
  | cons e l ih =>
    obtain ⟨t', v'⟩ := e
    rw [lru_insert]
    split_ifs with h1 h2
    · simp [lru_lookup]
    · simp [lru_lookup]
    · have hne : ¬ t' = t := fun h => h2 h.symm
      unfold lru_lookup at ih ⊢
      rw [List.find?_cons_of_neg _ (by simpa using hne)]
      exact ih

/-- Postcondition of a `put` that finds a free block: for every engine state
in which the free pool is non-empty after the rebalance of `put(k, v)` and the
slab `s` at its front has a free block (`free_blocks` being a set), the free
pool loses its front element, `s` is appended to the active pool, the directory
maps `k` to `(s, b)` for a block `b` that was in `s`'s `free_blocks` and no
longer is, the store maps `"s:b"` to `pad_or_truncate(v, 4096)`, and the
eviction index maps `s`'s refreshed `lru` to `s`. -/
theorem put_postcondition_of_free_block (cfg : Config) (clk : Nat → Nat) (st : KeyValueCache)
    (k : String) (v : Bytes) (s : String) (rest : List String)
    (hfree : (put_rebalanced cfg clk st k).free_slabs = s :: rest)
    (hne : ((put_rebalanced cfg clk st k).slabs s).free_blocks ≠ [])
    (hset : ((put_rebalanced cfg clk st k).slabs s).free_blocks.Nodup) :
    (put cfg clk st k v).free_slabs = rest ∧
    (put cfg clk st k v).active_slabs = (put_rebalanced cfg clk st k).active_slabs ++ [s] ∧
    (∃ b, (put cfg clk st k v).kv_map k = some (s, b) ∧
      b ∈ ((put_rebalanced cfg clk st k).slabs s).free_blocks ∧
      b ∉ ((put cfg clk st k v).slabs s).free_blocks ∧
      (put cfg clk st k v).db (block_key s b) = some (pad_or_truncate v 4096)) ∧
    ((put cfg clk st k v).slabs s).lru = clk (put_rebalanced cfg clk st k).ticks ∧
    lru_lookup ((put cfg clk st k v).slabs s).lru (put cfg clk st k v).lru = some s := by
  obtain ⟨i, tl, hfb⟩ := List.exists_cons_of_ne_nil hne
  rw [hfb] at hset
  have hi : i ∉ tl := (List.nodup_cons.1 hset).1
  obtain ⟨pf, _, _, pl, ps⟩ := put_fields_of_free cfg clk st k v s rest hfree
  obtain ⟨pk, pdb⟩ := put_kv_map_of_free cfg clk st k v s rest hfree
  have ha1 : (((put_rebalanced cfg clk st k).slabs s).alloc
      (clk (put_rebalanced cfg clk st k).ticks)).1 = i := by
    simp [Slab.alloc, hfb]
  have ha2 : (((put_rebalanced cfg clk st k).slabs s).alloc
      (clk (put_rebalanced cfg clk st k).ticks)).2.free_blocks = tl := by
    simp [Slab.alloc, hfb]
  have ha3 : (((put_rebalanced cfg clk st k).slabs s).alloc
      (clk (put_rebalanced cfg clk st k).ticks)).2.lru
        = clk (put_rebalanced cfg clk st k).ticks := by
    simp [Slab.alloc, hfb]
  have hact : (put cfg clk st k v).active_slabs
      = (put_rebalanced cfg clk st k).active_slabs ++ [s] := by
    unfold put
    simp only [hfree]
  have hlru : ((put cfg clk st k v).slabs s).lru = clk (put_rebalanced cfg clk st k).ticks := by
    rw [ps, Function.update_same, ha3]
  refine ⟨pf, hact, ⟨i, ?_, ?_, ?_, ?_⟩, hlru, ?_⟩
  · rw [pk, ha1]
  · rw [hfb]; exact List.mem_cons_self _ _
  · rw [ps, Function.update_same, ha2]; exact hi
  · rw [pdb, ha1]
    simp only [RocksDBWrapper.put, Function.update_same]
    rw [put_value_eq_pad_or_truncate]; rfl
  · rw [hlru, pl, ha3]
    exact lru_lookup_insert _ _ _

/-- A `put` that pops a slab without a free block: `alloc()` returns -1, which
`put` does not test; the directory records block index -1, the slab (its `lru`
included) is left as it was, and the eviction index gets or keeps an entry under
the slab's old `lru`. -/
theorem put_of_full_slab (cfg : Config) (clk : Nat → Nat) (st : KeyValueCache)
    (k : String) (v : Bytes) (s : String) (rest : List String)
    (hfree : (put_rebalanced cfg clk st k).free_slabs = s :: rest)
    (hfull : ((put_rebalanced cfg clk st k).slabs s).free_blocks = []) :
    (put cfg clk st k v).kv_map k = some (s, -1) ∧
    (put cfg clk st k v).slabs s = (put_rebalanced cfg clk st k).slabs s ∧
    (put cfg clk st k v).db (block_key s (-1)) = some (RocksDBWrapper.put_value v) ∧
    (put cfg clk st k v).active_slabs = (put_rebalanced cfg clk st k).active_slabs ++ [s] := by
  unfold put
  simp only [hfree, Slab.alloc, hfull, Function.update_same, RocksDBWrapper.put, and_self]

set_option maxRecDepth 1000000 in
/-- C15 (the code departs from the claim): on the engine `cfg20b` (ticking
clock, every call a `put` or a `get`) after `full_slab_trace`, the rebalance of
`put("c17", …)` leaves `slab_4` at the front of a non-empty free pool while its
block is in use (`slab_4` got into the free pool twice). `alloc()` returns -1,
which `put` does not test: the directory maps `"c17"` to `(slab_4, -1)`, where
-1 was not in `slab_4`'s `free_blocks`, the value is stored under
`"slab_4:-1"`, and `slab_4`'s `lru` is not refreshed. -/
theorem C15_put_records_minus_one :
    (put_rebalanced cfg20b id (run cfg20b id full_slab_trace) "c17").free_slabs.head?
      = some "slab_4" ∧
    ((put_rebalanced cfg20b id (run cfg20b id full_slab_trace) "c17").slabs
      "slab_4").free_blocks = [] ∧
    (put cfg20b id (run cfg20b id full_slab_trace) "c17" [3]).kv_map "c17"
      = some ("slab_4", -1) ∧
    (-1 : Int) ∉ ((put_rebalanced cfg20b id (run cfg20b id full_slab_trace) "c17").slabs
      "slab_4").free_blocks ∧
    ((put cfg20b id (run cfg20b id full_slab_trace) "c17" [3]).slabs "slab_4").lru
      = ((put_rebalanced cfg20b id (run cfg20b id full_slab_trace) "c17").slabs "slab_4").lru ∧
    (put cfg20b id (run cfg20b id full_slab_trace) "c17" [3]).db (block_key "slab_4" (-1))
      = some (RocksDBWrapper.put_value [3]) := by
  have hfree : (put_rebalanced cfg20b id (run cfg20b id full_slab_trace) "c17").free_slabs
      = "slab_4" :: (put_rebalanced cfg20b id (run cfg20b id full_slab_trace)
          "c17").free_slabs.tail := by decide
  have hfull : ((put_rebalanced cfg20b id (run cfg20b id full_slab_trace) "c17").slabs
      "slab_4").free_blocks = [] := by decide
  obtain ⟨h1, h2, h3, _⟩ := put_of_full_slab cfg20b id (run cfg20b id full_slab_trace)
    "c17" [3] "slab_4" _ hfree hfull
  refine ⟨by decide, hfull, h1, by rw [hfull]; simp, by rw [h2], h3⟩

/-! ## Slabs freed by one collection -/

set_option maxRecDepth 1000000 in
/-- C18 (the code departs from the claim): on the engine `cfg20b` (ticking
clock, every call a `put` or a `get`) after `lost_entry_trace`, the write
`put("c33", …)` invokes `gc()` in a state whose eviction index has 16 entries
and whose active pool holds `slab_4` twice; the pass pops all 16 entries, which
is fewer than the floor 2000, and leaves `slab_4` in the active pool. -/
theorem C18_gc_leaves_active_slab :
    gc_due (put_before_gc cfg20b id (run cfg20b id lost_entry_trace) "c33") = true ∧
    (put_before_gc cfg20b id (run cfg20b id lost_entry_trace) "c33").lru.length = 16 ∧
    (put_before_gc cfg20b id (run cfg20b id lost_entry_trace) "c33").active_slabs.count
      "slab_4" = 2 ∧
    (gc_victims cfg20b
      (put_before_gc cfg20b id (run cfg20b id lost_entry_trace) "c33")).length = 16 ∧
    (gc cfg20b id
      (put_before_gc cfg20b id (run cfg20b id lost_entry_trace) "c33")).lru = [] ∧
    (gc cfg20b id
      (put_before_gc cfg20b id (run cfg20b id lost_entry_trace) "c33")).active_slabs
      = ["slab_4"] ∧
    (run cfg20b id full_slab_trace).active_slabs.count "slab_4" = 1 ∧
    (run cfg20b id (full_slab_trace ++ [Op.put "c17" [3]])).kv_map "c17"
      = some ("slab_4", -1) := by
  refine ⟨by decide, by decide, by decide, by decide, by decide, by decide, by decide,
    by decide⟩

/-! ## One call of `manage_op` -/

theorem adapt_eq_fired (n free low high : Nat) :
    adapt n free low high = (fired n free low high).foldl (Update.apply n) (low, high) := by
  unfold adapt fired
  split_ifs <;> rfl

theorem manage_op_high_wm (cfg : Config) (clk : Nat → Nat) (s : KeyValueCache) :
    (manage_op cfg clk s).dynamic_high_wm =
      (adapt cfg.total_slabs s.free_slabs.length s.dynamic_low_wm s.dynamic_high_wm).2 := by
  unfold manage_op
  simp only
  split_ifs
  · rw [(gc_frame cfg clk _).2.2.1]; rfl
  · rfl

set_option maxRecDepth 100000 in
/-- C22 as stated fails: on the engine of `flash-kv-cache.cpp` (192 slabs,
ticking clock) after construction and eight calls of `trigger_gc_op`, the free
pool holds 154 slabs and the statics are 9 and 115; the next call of `manage_op`
executes neither threshold update (154 is not below 9, and 9 is not above
`0.05 · 192 = 9.6`), and leaves both statics as they were. -/
theorem C22_neither_update_fires :
    manage_op_fired flash_cfg (run flash_cfg id (List.replicate 8 Op.trigger_gc_op)) = [] ∧
    (run flash_cfg id (List.replicate 8 Op.trigger_gc_op)).free_slabs.length = 154 ∧
    (run flash_cfg id (List.replicate 8 Op.trigger_gc_op)).dynamic_low_wm = 9 ∧
    (run flash_cfg id (List.replicate 8 Op.trigger_gc_op)).dynamic_high_wm = 115 ∧
    (run flash_cfg id (List.replicate 9 Op.trigger_gc_op)).dynamic_low_wm = 9 ∧
    (run flash_cfg id (List.replicate 9 Op.trigger_gc_op)).dynamic_high_wm = 115 := by
  refine ⟨by decide, by decide, by decide, by decide, by decide, by decide⟩

/-- C22, amended: for every engine state, a call of `manage_op` executes at
most one of the two threshold updates, never both: the doubling update exactly
when `free_slabs.size() < dynamic_low_wm` and `dynamic_low_wm < total_slabs / 2`,
otherwise the 0.9-shrink update exactly when `free_slabs.size() > dynamic_high_wm`
and `dynamic_low_wm > 0.05 · total_slabs`, and otherwise neither, in which case
both statics keep their values; the statics after the call are the old ones
with the executed updates applied. -/
theorem C22_at_most_one_update (cfg : Config) (clk : Nat → Nat) (s : KeyValueCache) :
    (manage_op_fired cfg s).length ≤ 1 ∧
    (manage_op_fired cfg s = [Update.doubling] ↔
      (s.free_slabs.length < s.dynamic_low_wm ∧ s.dynamic_low_wm < cfg.total_slabs / 2)) ∧
    (manage_op_fired cfg s = [Update.shrinking] ↔
      (¬ (s.free_slabs.length < s.dynamic_low_wm ∧ s.dynamic_low_wm < cfg.total_slabs / 2) ∧
        s.free_slabs.length > s.dynamic_high_wm ∧
        cfg.total_slabs < 20 * s.dynamic_low_wm)) ∧
    (manage_op_fired cfg s = [] →
      (manage_op cfg clk s).dynamic_low_wm = s.dynamic_low_wm ∧
      (manage_op cfg clk s).dynamic_high_wm = s.dynamic_high_wm) ∧
    ((manage_op cfg clk s).dynamic_low_wm, (manage_op cfg clk s).dynamic_high_wm)
      = (manage_op_fired cfg s).foldl (Update.apply cfg.total_slabs)
          (s.dynamic_low_wm, s.dynamic_high_wm) := by
  have hwm : ((manage_op cfg clk s).dynamic_low_wm, (manage_op cfg clk s).dynamic_high_wm)
      = (manage_op_fired cfg s).foldl (Update.apply cfg.total_slabs)
          (s.dynamic_low_wm, s.dynamic_high_wm) := by
    rw [manage_op_low_wm, manage_op_high_wm, manage_op_fired, ← adapt_eq_fired]
  refine ⟨?_, ?_, ?_, ?_, hwm⟩
  · unfold manage_op_fired fired
    split_ifs <;> simp
  · unfold manage_op_fired fired
    split_ifs with h1 h2 <;> simp [h1]
  · unfold manage_op_fired fired
    split_ifs with h1 h2
    · simp [h1]
    · simp only [true_iff]
      exact ⟨h1, h2.1, h2.2⟩
    · simp only [false_iff, reduceCtorEq, not_and]
      intro _ hf hn
      exact h2 ⟨hf, hn⟩
  · intro h0
    rw [h0] at hwm
    simp only [List.foldl_nil, Prod.mk.injEq] at hwm
    exact hwm

/-! ## The two `while` loops of `manage_op` -/

theorem drain_split (low m : Nat) (f r : List String) :
    ∃ a, f = a ++ (drain low m f r).1 ∧ (drain low m f r).2 = r ++ a := by
  induction f generalizing r with
  | nil => exact ⟨[], by simp [drain]⟩
  | cons x f ih =>
    rw [drain]
    split_ifs
    · obtain ⟨a, h1, h2⟩ := ih (r ++ [x])
      refine ⟨x :: a, ?_, ?_⟩
      · rw [List.cons_append, ← h1]
      · rw [h2]; simp
    · exact ⟨[], by simp⟩

theorem refill_split (low : Nat) (r f : List String) :
    ∃ c, r = c ++ (refill low r f).1 ∧ (refill low r f).2 = f ++ c := by
  induction r generalizing f with
  | nil => exact ⟨[], by simp [refill]⟩
  | cons x r ih =>
    rw [refill]
    split_ifs
    · obtain ⟨c, h1, h2⟩ := ih (f ++ [x])
      refine ⟨x :: c, ?_, ?_⟩
      · rw [List.cons_append, ← h1]
      · rw [h2]; simp
    · exact ⟨[], by simp⟩

theorem drain_length_ge (low m : Nat) (f r : List String)
    (h : 3 * low < 2 * (f.length + 1)) : low ≤ (drain low m f r).1.length := by
  induction f generalizing r with
  | nil =>
    simp only [drain, List.length_nil] at h ⊢
    omega
  | cons x f ih =>
    rw [drain]
    split_ifs with hc
    · exact ih (r ++ [x]) hc.1
    · simp only [List.length_cons] at h ⊢
      omega

theorem drain_moved_length_ge (low m : Nat) (f r : List String)
    (h : (drain low m f r).1 ≠ f) : low ≤ (drain low m f r).1.length := by
  cases f with
  | nil => simp [drain] at h
  | cons x f =>
    rw [drain] at h ⊢
    split_ifs at h ⊢ with hc
    · exact drain_length_ge low m f _ hc.1
    · exact absurd rfl h

theorem refill_of_le (low : Nat) (r f : List String) (h : low ≤ f.length) :
    refill low r f = (r, f) := by
  cases r with
  | nil => rfl
  | cons x r =>
    rw [refill]
    rw [if_neg (by omega)]

/-- C23: for every engine state, a call of `manage_op` that does not reach
`gc()` leaves the active pool, the directory, every slab, the eviction index and
the store unchanged; the slab ids in free together with reserve are a
permutation of those before; and the pools change only by a prefix `a` of the
free pool moving, in order, to the back of the reserve, followed by a prefix `c`
of that reserve moving, in order, to the back of the free pool. -/
theorem C23_rebalance_without_gc_frame (cfg : Config) (clk : Nat → Nat) (s : KeyValueCache)
    (h : gc_due (manage_pools cfg s) = false) :
    (manage_op cfg clk s).active_slabs = s.active_slabs ∧
    (manage_op cfg clk s).kv_map = s.kv_map ∧
    (manage_op cfg clk s).slabs = s.slabs ∧
    (manage_op cfg clk s).lru = s.lru ∧
    (manage_op cfg clk s).db = s.db ∧
    ((manage_op cfg clk s).free_slabs ++ (manage_op cfg clk s).reserve_slabs).Perm
      (s.free_slabs ++ s.reserve_slabs) ∧
    ∃ a f1 c, s.free_slabs = a ++ f1 ∧
      s.reserve_slabs ++ a = c ++ (manage_op cfg clk s).reserve_slabs ∧
      (manage_op cfg clk s).free_slabs = f1 ++ c := by
  have hm : manage_op cfg clk s = manage_pools cfg s := by
    unfold manage_op
    simp only [h, Bool.false_eq_true, if_false]
  rw [hm]
  refine ⟨rfl, rfl, rfl, rfl, rfl, manage_pools_perm cfg s, ?_⟩
  simp only [manage_pools]
  obtain ⟨a, ha1, ha2⟩ := drain_split
    (adapt cfg.total_slabs s.free_slabs.length s.dynamic_low_wm s.dynamic_high_wm).1
    (cfg.total_slabs * 20 / 100) s.free_slabs s.reserve_slabs
  obtain ⟨c, hc1, hc2⟩ := refill_split
    (adapt cfg.total_slabs s.free_slabs.length s.dynamic_low_wm s.dynamic_high_wm).1
    (drain (adapt cfg.total_slabs s.free_slabs.length s.dynamic_low_wm s.dynamic_high_wm).1
      (cfg.total_slabs * 20 / 100) s.free_slabs s.reserve_slabs).2
    (drain (adapt cfg.total_slabs s.free_slabs.length s.dynamic_low_wm s.dynamic_high_wm).1
      (cfg.total_slabs * 20 / 100) s.free_slabs s.reserve_slabs).1
  refine ⟨a, _, c, ha1, ?_, hc2⟩
  rw [← ha2]
  exact hc1

set_option maxRecDepth 100000 in
/-- Witness of C23: the call of `manage_op` made by `trigger_gc_op` on the
engine `cfg20` (ticking clock) after three writes. -/
theorem C23_rebalance_without_gc_frame_witness :
    gc_due (manage_pools cfg20 (run cfg20 id (puts "a" 3 [1]))) = false ∧
    (manage_op cfg20 id (run cfg20 id (puts "a" 3 [1]))).lru
      = (run cfg20 id (puts "a" 3 [1])).lru ∧
    ((manage_op cfg20 id (run cfg20 id (puts "a" 3 [1]))).free_slabs ++
      (manage_op cfg20 id (run cfg20 id (puts "a" 3 [1]))).reserve_slabs).Perm
      ((run cfg20 id (puts "a" 3 [1])).free_slabs ++
        (run cfg20 id (puts "a" 3 [1])).reserve_slabs) :=
  ⟨by decide,
   (C23_rebalance_without_gc_frame cfg20 id (run cfg20 id (puts "a" 3 [1])) (by decide)).2.2.2.1,
   (C23_rebalance_without_gc_frame cfg20 id (run cfg20 id (puts "a" 3 [1]))
     (by decide)).2.2.2.2.2.1⟩

/-- C26: for every engine state and every low watermark `low ≥ 0`, if the
first `while` loop of `manage_op` (run with `low` and the reserve cap of the
code) moves at least one slab from free to reserve, the second `while` loop
moves none: it returns both pools as the first loop left them. With `low` the
adapted low watermark, these are the pools at the end of the call's two
loops. -/
theorem C26_no_thrash (cfg : Config) (s : KeyValueCache) (low : Nat)
    (h : (drain low (cfg.total_slabs * 20 / 100) s.free_slabs s.reserve_slabs).1
      ≠ s.free_slabs) :
    refill low (drain low (cfg.total_slabs * 20 / 100) s.free_slabs s.reserve_slabs).2
        (drain low (cfg.total_slabs * 20 / 100) s.free_slabs s.reserve_slabs).1
      = ((drain low (cfg.total_slabs * 20 / 100) s.free_slabs s.reserve_slabs).2,
         (drain low (cfg.total_slabs * 20 / 100) s.free_slabs s.reserve_slabs).1) ∧
    (low = (adapt cfg.total_slabs s.free_slabs.length s.dynamic_low_wm s.dynamic_high_wm).1 →
      (manage_pools cfg s).free_slabs
        = (drain low (cfg.total_slabs * 20 / 100) s.free_slabs s.reserve_slabs).1 ∧
      (manage_pools cfg s).reserve_slabs
        = (drain low (cfg.total_slabs * 20 / 100) s.free_slabs s.reserve_slabs).2) := by
  have hr := refill_of_le low
    (drain low (cfg.total_slabs * 20 / 100) s.free_slabs s.reserve_slabs).2
    (drain low (cfg.total_slabs * 20 / 100) s.free_slabs s.reserve_slabs).1
    (drain_moved_length_ge low _ _ _ h)
  refine ⟨hr, ?_⟩
  intro hlow
  subst hlow
  simp only [manage_pools]
  rw [hr]
  exact ⟨rfl, rfl⟩

set_option maxRecDepth 100000 in
/-- Witness of C26: the call of `manage_op` made by the constructor of the
engine `cfg20`, which finds twenty free slabs, adapts the low watermark to 2
and moves four slabs to the reserve. -/
theorem C26_no_thrash_witness :
    (drain 2 (cfg20.total_slabs * 20 / 100) (init_slabs cfg20 id (empty_cache cfg20)).free_slabs
      (init_slabs cfg20 id (empty_cache cfg20)).reserve_slabs).1
      ≠ (init_slabs cfg20 id (empty_cache cfg20)).free_slabs ∧
    (2 = (adapt cfg20.total_slabs (init_slabs cfg20 id (empty_cache cfg20)).free_slabs.length
        (init_slabs cfg20 id (empty_cache cfg20)).dynamic_low_wm
        (init_slabs cfg20 id (empty_cache cfg20)).dynamic_high_wm).1 →
      (manage_pools cfg20 (init_slabs cfg20 id (empty_cache cfg20))).free_slabs
        = (drain 2 (cfg20.total_slabs * 20 / 100)
            (init_slabs cfg20 id (empty_cache cfg20)).free_slabs
            (init_slabs cfg20 id (empty_cache cfg20)).reserve_slabs).1 ∧
      (manage_pools cfg20 (init_slabs cfg20 id (empty_cache cfg20))).reserve_slabs
        = (drain 2 (cfg20.total_slabs * 20 / 100)
            (init_slabs cfg20 id (empty_cache cfg20)).free_slabs
            (init_slabs cfg20 id (empty_cache cfg20)).reserve_slabs).2) :=
  ⟨by decide, (C26_no_thrash cfg20 (init_slabs cfg20 id (empty_cache cfg20)) 2 (by decide)).2⟩

/-! ## Order of the two watermarks -/

theorem adapt_ordered (n free low high : Nat) (h : low ≤ high)
    (h6 : n * 6 / 10 ≤ high) (h9 : high ≤ n * 9 / 10) :
    (adapt n free low high).1 ≤ (adapt n free low high).2 ∧
    n * 6 / 10 ≤ (adapt n free low high).2 ∧ (adapt n free low high).2 ≤ n * 9 / 10 := by
  unfold adapt
  split_ifs <;> simp only <;> omega

theorem wm_run_ordered (n : Nat) (frees : List Nat) :
    (wm_run n frees).1 ≤ (wm_run n frees).2 ∧
    n * 6 / 10 ≤ (wm_run n frees).2 ∧ (wm_run n frees).2 ≤ n * 9 / 10 := by
  induction frees using List.reverseRecOn with
  | nil => simp only [wm_run, List.foldl_nil]; omega
  | append_singleton l a ih =>
    rw [wm_run_snoc]
    exact adapt_ordered _ _ _ _ ih.1 ih.2.1 ih.2.2

theorem op_run_wm (cfg : Config) (clk : Nat → Nat) (s : KeyValueCache) (op : Op) :
    ((op.run cfg clk s).dynamic_low_wm, (op.run cfg clk s).dynamic_high_wm)
        = (s.dynamic_low_wm, s.dynamic_high_wm) ∨
    ∃ free, ((op.run cfg clk s).dynamic_low_wm, (op.run cfg clk s).dynamic_high_wm)
        = adapt cfg.total_slabs free s.dynamic_low_wm s.dynamic_high_wm := by
  cases op with
  | put k v =>
    right
    refine ⟨(put_release clk s k).free_slabs.length, ?_⟩
    have h : (put cfg clk s k v).dynamic_low_wm = (put_rebalanced cfg clk s k).dynamic_low_wm ∧
        (put cfg clk s k v).dynamic_high_wm = (put_rebalanced cfg clk s k).dynamic_high_wm := by
      unfold put
      simp only
      split <;> exact ⟨rfl, rfl⟩
    simp only [Op.run]
    rw [h.1, h.2, put_rebalanced, manage_op_low_wm, manage_op_high_wm,
      (put_release_low_wm clk s k).1, (put_release_low_wm clk s k).2]
  | get k =>
    left
    simp only [Op.run]
    unfold get
    split <;> rfl
  | del k =>
    left
    simp only [Op.run]
    unfold del
    split <;> rfl
  | trigger_gc_op =>
    right
    refine ⟨s.free_slabs.length, ?_⟩
    simp only [Op.run, trigger_gc_op]
    rw [manage_op_low_wm, manage_op_high_wm]

theorem run_wm_eq_wm_run (cfg : Config) (clk : Nat → Nat) (ops : List Op) :
    ∃ frees, ((run cfg clk ops).dynamic_low_wm, (run cfg clk ops).dynamic_high_wm)
      = wm_run cfg.total_slabs frees := by
  induction ops using List.reverseRecOn with
  | nil =>
    refine ⟨[(init_slabs cfg clk (empty_cache cfg)).free_slabs.length], ?_⟩
    have h1 : (init_slabs cfg clk (empty_cache cfg)).dynamic_low_wm
        = cfg.total_slabs * 15 / 100 := init_slabs_fold_low_wm cfg clk _ _
    have h2 : (init_slabs cfg clk (empty_cache cfg)).dynamic_high_wm
        = cfg.total_slabs * 75 / 100 := init_slabs_fold_high_wm cfg clk _ _
    simp only [run, List.foldl_nil, KeyValueCache.init, wm_run, List.foldl_cons]
    rw [manage_op_low_wm, manage_op_high_wm, h1, h2]
  | append_singleton l op ih =>
    have hrun : run cfg clk (l ++ [op]) = op.run cfg clk (run cfg clk l) := by
      simp [run, List.foldl_append]
    obtain ⟨frees, hf⟩ := ih
    rw [hrun]
    rcases op_run_wm cfg clk (run cfg clk l) op with h | ⟨free, h⟩
    · exact ⟨frees, by rw [h, hf]⟩
    · refine ⟨frees ++ [free], ?_⟩
      rw [h, wm_run_snoc]
      have h1 := congrArg Prod.fst hf
      have h2 := congrArg Prod.snd hf
      simp only at h1 h2
      rw [h1, h2]

/-- C25: for every `total_slabs ≥ 0`, after construction and any sequence of
`manage_op` calls, whatever free-pool sizes the calls find, the low watermark is
at most the high watermark and the high watermark lies between
`⌊0.6 · total_slabs⌋` and `⌊0.9 · total_slabs⌋`; these bounds hold from the
initial values on, hence also once a threshold update has fired. The same holds
in every engine state reached from construction by `put`, `get`, `del` and
`trigger_gc_op`. -/
theorem C25_watermarks_ordered (n : Nat) (frees : List Nat)
    (cfg : Config) (clk : Nat → Nat) (ops : List Op) :
    ((wm_run n frees).1 ≤ (wm_run n frees).2 ∧
      n * 6 / 10 ≤ (wm_run n frees).2 ∧ (wm_run n frees).2 ≤ n * 9 / 10) ∧
    ((run cfg clk ops).dynamic_low_wm ≤ (run cfg clk ops).dynamic_high_wm ∧
      cfg.total_slabs * 6 / 10 ≤ (run cfg clk ops).dynamic_high_wm ∧
      (run cfg clk ops).dynamic_high_wm ≤ cfg.total_slabs * 9 / 10) := by
  refine ⟨wm_run_ordered n frees, ?_⟩
  obtain ⟨fs, hf⟩ := run_wm_eq_wm_run cfg clk ops
  have h1 := congrArg Prod.fst hf
  have h2 := congrArg Prod.snd hf
  simp only at h1 h2
  rw [h1, h2]
  exact wm_run_ordered cfg.total_slabs fs

/-! ## Size of the reserve -/

theorem drain_reserve_le (low m : Nat) (f r : List String) (h : r.length ≤ m) :
    (drain low m f r).2.length ≤ m := by
  induction f generalizing r with
  | nil => simpa [drain] using h
  | cons x f ih =>
    rw [drain]
    split_ifs with hc
    · apply ih
      simp only [List.length_append, List.length_singleton]
      omega
    · exact h

theorem refill_reserve_le (low : Nat) (r f : List String) :
    (refill low r f).1.length ≤ r.length := by
  induction r generalizing f with
  | nil => simp [refill]
  | cons x r ih =>
    rw [refill]
    split_ifs
    · exact Nat.le_trans (ih (f ++ [x])) (by simp)
    · exact Nat.le_refl _

theorem manage_pools_reserve_le (cfg : Config) (s : KeyValueCache)
    (h : s.reserve_slabs.length ≤ cfg.total_slabs * 20 / 100) :
    (manage_pools cfg s).reserve_slabs.length ≤ cfg.total_slabs * 20 / 100 := by
  simp only [manage_pools]
  exact Nat.le_trans (refill_reserve_le _ _ _) (drain_reserve_le _ _ _ _ h)

theorem manage_op_reserve (cfg : Config) (clk : Nat → Nat) (s : KeyValueCache) :
    (manage_op cfg clk s).reserve_slabs = (manage_pools cfg s).reserve_slabs := by
  unfold manage_op
  simp only
  split_ifs
  · exact (gc_frame cfg clk _).2.2.2
  · rfl

theorem op_run_reserve_le (cfg : Config) (clk : Nat → Nat) (s : KeyValueCache) (op : Op)
    (h : s.reserve_slabs.length ≤ cfg.total_slabs * 20 / 100) :
    (op.run cfg clk s).reserve_slabs.length ≤ cfg.total_slabs * 20 / 100 := by
  cases op with
  | put k v =>
    have hp : (put cfg clk s k v).reserve_slabs = (put_rebalanced cfg clk s k).reserve_slabs := by
      unfold put
      simp only
      split <;> rfl
    have hr : (put_release clk s k).reserve_slabs = s.reserve_slabs := by
      unfold put_release
      split <;> rfl
    simp only [Op.run]
    rw [hp, put_rebalanced, manage_op_reserve]
    exact manage_pools_reserve_le cfg _ (by rw [hr]; exact h)
  | get k =>
    simp only [Op.run]
    unfold get
    split <;> exact h
  | del k =>
    simp only [Op.run]
    unfold del
    split <;> exact h
  | trigger_gc_op =>
    simp only [Op.run, trigger_gc_op]
    rw [manage_op_reserve]
    exact manage_pools_reserve_le cfg _ h

theorem drain_full (low m : Nat) (f r : List String) (hr : r.length ≤ m)
    (hf : m - r.length ≤ f.length) (hlow : 3 * low < 2 * (f.length - (m - r.length)) + 2) :
    (drain low m f r).2.length = m ∧
    (drain low m f r).1.length = f.length - (m - r.length) := by
  induction f generalizing r with
  | nil =>
    simp only [drain, List.length_nil] at hf ⊢
    omega
  | cons x f ih =>
    rw [drain]
    simp only [List.length_cons] at hf hlow
    split_ifs with hc
    · have h := ih (r ++ [x])
        (by simp only [List.length_append, List.length_singleton]; omega)
        (by simp only [List.length_append, List.length_singleton]; omega)
        (by simp only [List.length_append, List.length_singleton]; omega)
      simp only [List.length_append, List.length_singleton] at h
      simp only [List.length_cons]
      constructor
      · exact h.1
      · rw [h.2]; omega
    · simp only [List.length_cons]
      have : ¬ r.length < m := fun hlt => hc ⟨by omega, hlt⟩
      omega

theorem init_reserve_length (cfg : Config) (clk : Nat → Nat) :
    (KeyValueCache.init cfg clk).reserve_slabs.length = cfg.total_slabs * 20 / 100 := by
  obtain ⟨h1, h2, _, _, _⟩ :=
    init_slabs_fold cfg clk (List.range cfg.total_slabs) (empty_cache cfg)
  have hw : (init_slabs cfg clk (empty_cache cfg)).dynamic_low_wm = cfg.total_slabs * 15 / 100 :=
    init_slabs_fold_low_wm cfg clk _ _
  have hfl : (init_slabs cfg clk (empty_cache cfg)).free_slabs.length = cfg.total_slabs := by
    unfold init_slabs
    rw [h1]
    simp [empty_cache]
  have hrl : (init_slabs cfg clk (empty_cache cfg)).reserve_slabs = [] := by
    unfold init_slabs
    rw [h2]
    rfl
  unfold KeyValueCache.init
  rw [manage_op_reserve]
  simp only [manage_pools]
  rw [hfl, hw, hrl]
  have hlow : (adapt cfg.total_slabs cfg.total_slabs (cfg.total_slabs * 15 / 100)
      (init_slabs cfg clk (empty_cache cfg)).dynamic_high_wm).1 ≤ cfg.total_slabs * 15 / 100 := by
    unfold adapt
    split_ifs <;> simp only <;> omega
  obtain ⟨d2, d1⟩ := drain_full
    (adapt cfg.total_slabs cfg.total_slabs (cfg.total_slabs * 15 / 100)
      (init_slabs cfg clk (empty_cache cfg)).dynamic_high_wm).1
    (cfg.total_slabs * 20 / 100) (init_slabs cfg clk (empty_cache cfg)).free_slabs []
    (by simp) (by rw [hfl]; simp only [List.length_nil]; omega)
    (by rw [hfl]; simp only [List.length_nil]; omega)
  rw [refill_of_le _ _ _ (by rw [d1, hfl]; simp only [List.length_nil]; omega)]
  exact d2

/-- C24: in every state reached from construction by `put`, `get`, `del` and
`trigger_gc_op`, `reserve_slabs.size() ≤ ⌊0.20 · total_slabs⌋`; and right after
construction the reserve holds exactly `⌊0.20 · total_slabs⌋` slabs, the active
pool is empty and `free_slabs.size() + reserve_slabs.size() = total_slabs`. -/
theorem C24_reserve_cap (cfg : Config) (clk : Nat → Nat) (ops : List Op) :
    (run cfg clk ops).reserve_slabs.length ≤ cfg.total_slabs * 20 / 100 ∧
    (KeyValueCache.init cfg clk).reserve_slabs.length = cfg.total_slabs * 20 / 100 ∧
    (KeyValueCache.init cfg clk).active_slabs = [] ∧
    (KeyValueCache.init cfg clk).free_slabs.length
      + (KeyValueCache.init cfg clk).reserve_slabs.length = cfg.total_slabs := by
  obtain ⟨_, hlen, hact, _, _, _⟩ := init_fresh cfg clk
  refine ⟨?_, init_reserve_length cfg clk, hact, ?_⟩
  · induction ops using List.reverseRecOn with
    | nil =>
      simp only [run, List.foldl_nil]
      exact Nat.le_of_eq (init_reserve_length cfg clk)
    | append_singleton l op ih =>
      have hrun : run cfg clk (l ++ [op]) = op.run cfg clk (run cfg clk l) := by
        simp [run, List.foldl_append]
      rw [hrun]
      exact op_run_reserve_le cfg clk _ op ih
  · rw [← hlen, List.length_append]

/-! ## Order of the eviction index and victims of one collection -/

theorem mem_lru_insert (t : Nat) (v : String) (l : LruMap) (e : Nat × String)
    (h : e ∈ lru_insert t v l) : e = (t, v) ∨ e ∈ l := by
  induction l with
  | nil =>
    simp only [lru_insert, List.mem_singleton] at h
    exact Or.inl h
  | cons x l ih =>
    obtain ⟨t', v'⟩ := x
    rw [lru_insert] at h
    split_ifs at h with h1 h2
    · rcases List.mem_cons.1 h with h | h
      · exact Or.inl h
      · exact Or.inr h
    · rcases List.mem_cons.1 h with h | h
      · exact Or.inl h
      · exact Or.inr (List.mem_cons_of_mem _ h)
    · rcases List.mem_cons.1 h with h | h
      · exact Or.inr (h ▸ List.mem_cons_self _ _)
      · rcases ih h with h | h
        · exact Or.inl h
        · exact Or.inr (List.mem_cons_of_mem _ h)

theorem lru_insert_ordered (t : Nat) (v : String) (l : LruMap) (h : lru_ordered l) :
    lru_ordered (lru_insert t v l) := by
  unfold lru_ordered at h ⊢
  induction l with
  | nil => simp [lru_insert]
  | cons x l ih =>
    obtain ⟨t', v'⟩ := x
    obtain ⟨hx, hl⟩ := List.pairwise_cons.1 h
    rw [lru_insert]
    split_ifs with h1 h2
    · refine List.pairwise_cons.2 ⟨?_, h⟩
      intro b hb
      rcases List.mem_cons.1 hb with hb | hb
      · rw [hb]; exact h1
      · exact Nat.lt_trans h1 (hx b hb)
    · refine List.pairwise_cons.2 ⟨?_, hl⟩
      intro b hb
      rw [h2]
      exact hx b hb
    · refine List.pairwise_cons.2 ⟨?_, ih hl⟩
      intro b hb
      rcases mem_lru_insert t v l b hb with hb | hb
      · rw [hb]
        show t' < t
        omega
      · exact hx b hb

theorem lru_erase_ordered (t : Nat) (l : LruMap) (h : lru_ordered l) :
    lru_ordered (lru_erase t l) :=
  List.Pairwise.sublist (List.filter_sublist l) h

theorem manage_op_lru_ordered (cfg : Config) (clk : Nat → Nat) (s : KeyValueCache)
    (h : lru_ordered s.lru) : lru_ordered (manage_op cfg clk s).lru := by
  obtain ⟨k, _, hl, _, _⟩ := manage_op_free cfg clk s
  rw [hl]
  exact List.Pairwise.sublist (List.drop_sublist k s.lru) h

theorem op_run_lru_ordered (cfg : Config) (clk : Nat → Nat) (s : KeyValueCache) (op : Op)
    (h : lru_ordered s.lru) : lru_ordered (op.run cfg clk s).lru := by
  cases op with
  | put k v =>
    have hr : lru_ordered (put_release clk s k).lru := by
      unfold put_release
      split
      · exact h
      · exact lru_erase_ordered _ _ h
    have hm : lru_ordered (put_rebalanced cfg clk s k).lru :=
      manage_op_lru_ordered cfg clk _ hr
    simp only [Op.run]
    unfold put
    simp only
    split
    · exact hm
    · exact lru_insert_ordered _ _ _ hm
  | get k =>
    simp only [Op.run]
    unfold get
    split
    · exact h
    · exact lru_insert_ordered _ _ _ (lru_erase_ordered _ _ h)
  | del k =>
    simp only [Op.run]
    unfold del
    split
    · exact h
    · exact lru_erase_ordered _ _ h
  | trigger_gc_op =>
    exact manage_op_lru_ordered cfg clk s h

theorem run_lru_ordered (cfg : Config) (clk : Nat → Nat) (ops : List Op) :
    lru_ordered (run cfg clk ops).lru := by
  induction ops using List.reverseRecOn with
  | nil =>
    simp only [run, List.foldl_nil]
    rw [(init_fresh cfg clk).2.2.2.1]
    exact List.Pairwise.nil
  | append_singleton l op ih =>
    have hrun : run cfg clk (l ++ [op]) = op.run cfg clk (run cfg clk l) := by
      simp [run, List.foldl_append]
    rw [hrun]
    exact op_run_lru_ordered cfg clk _ op ih

theorem take_min_length (l : LruMap) (k : Nat) : l.take (min l.length k) = l.take k := by
  rcases Nat.le_total l.length k with h | h
  · rw [Nat.min_eq_left h, List.take_of_length_le (Nat.le_refl _), List.take_of_length_le h]
  · rw [Nat.min_eq_right h]

theorem drop_min_length (l : LruMap) (k : Nat) : l.drop (min l.length k) = l.drop k := by
  rcases Nat.le_total l.length k with h | h
  · rw [Nat.min_eq_left h, List.drop_of_length_le (Nat.le_refl _), List.drop_of_length_le h]
  · rw [Nat.min_eq_right h]

/-- C21: for every engine state whose eviction index is non-empty (and, being a
`std::map`, in increasing key order), `gc()` pops exactly
`n = min(|index|, max(⌊0.5 · active_slabs.size()⌋, GC_MIN_THRESHOLD))` entries,
`active_slabs.size()` being the size before the loop: the index afterwards is
the old one without its first `n` entries, these `n` entries are in increasing
timestamp order and each of them is older than every entry left; the victims
are appended to the back of the free pool in that order; and each victim ends
with every block index in `[0, BLOCKS_PER_SLAB)` in its `free_blocks` and with no
store record under `"victim:j"` for each block `j` that was in use. -/
theorem C21_gc_victim_selection (cfg : Config) (clk : Nat → Nat) (st : KeyValueCache)
    (hne : st.lru ≠ []) (hord : lru_ordered st.lru) :
    (gc cfg clk st).lru = st.lru.drop (gc_pops cfg st) ∧
    (gc cfg clk st).lru.length + gc_pops cfg st = st.lru.length ∧
    lru_ordered (st.lru.take (gc_pops cfg st)) ∧
    (∀ e ∈ st.lru.take (gc_pops cfg st), ∀ e' ∈ (gc cfg clk st).lru, e.1 < e'.1) ∧
    gc_victims cfg st = (st.lru.take (gc_pops cfg st)).map Prod.snd ∧
    (gc cfg clk st).free_slabs = st.free_slabs ++ (st.lru.take (gc_pops cfg st)).map Prod.snd ∧
    (∀ v ∈ (st.lru.take (gc_pops cfg st)).map Prod.snd, ∀ j, j < cfg.BLOCKS_PER_SLAB →
      ((j : Int) ∈ ((gc cfg clk st).slabs v).free_blocks ∧
       ((j : Int) ∉ (st.slabs v).free_blocks →
          (gc cfg clk st).db (block_key v j) = none))) := by
  have htake : st.lru.take (gc_pops cfg st)
      = st.lru.take (max (st.active_slabs.length / 2) cfg.gc_min) := take_min_length _ _
  have hdrop : st.lru.drop (gc_pops cfg st)
      = st.lru.drop (max (st.active_slabs.length / 2) cfg.gc_min) := drop_min_length _ _
  have hgc : gc cfg clk st = gc_loop cfg clk (max (st.active_slabs.length / 2) cfg.gc_min)
      { st with gc_invoked_count := st.gc_invoked_count + 1 } := by
    unfold gc
    simp only [hne, if_false]
  have hlru : (gc cfg clk st).lru = st.lru.drop (gc_pops cfg st) := by
    rw [hgc, (gc_loop_pools cfg clk _ _).2, hdrop]
  have happ : lru_ordered (st.lru.take (gc_pops cfg st) ++ st.lru.drop (gc_pops cfg st)) := by
    rw [List.take_append_drop]; exact hord
  obtain ⟨ho1, _, ho3⟩ := List.pairwise_append.1 happ
  refine ⟨hlru, ?_, ho1, ?_, ?_, ?_, ?_⟩
  · rw [hlru, List.length_drop]
    unfold gc_pops
    omega
  · intro e he e' he'
    rw [hlru] at he'
    exact ho3 e he e' he'
  · rw [htake]; rfl
  · rw [htake]; exact gc_free_slabs cfg clk st
  · intro v hv j hj
    rw [htake] at hv
    by_cases hb : (j : Int) ∈ (st.slabs v).free_blocks
    · exact ⟨gc_slabs_mem cfg clk st v _ hb, fun h => absurd hb h⟩
    · rw [hgc]
      have h := gc_loop_evicts cfg clk (max (st.active_slabs.length / 2) cfg.gc_min)
        { st with gc_invoked_count := st.gc_invoked_count + 1 } v j hj hb hv
      exact ⟨h.1, fun _ => h.2⟩

set_option maxRecDepth 1000000 in
/-- Witness of C21: the engine `cfg20` (ticking clock) after eighteen writes, at
the point where the nineteenth write invokes `gc()`; the index holds eighteen
entries, all of which are popped. -/
theorem C21_gc_victim_selection_witness :
    (put_before_gc cfg20 id (run cfg20 id (puts "a" 18 [1])) "a18").lru ≠ [] ∧
    lru_ordered (put_before_gc cfg20 id (run cfg20 id (puts "a" 18 [1])) "a18").lru ∧
    gc_pops cfg20 (put_before_gc cfg20 id (run cfg20 id (puts "a" 18 [1])) "a18") = 18 ∧
    (gc cfg20 id (put_before_gc cfg20 id (run cfg20 id (puts "a" 18 [1])) "a18")).lru
      = (put_before_gc cfg20 id (run cfg20 id (puts "a" 18 [1])) "a18").lru.drop
          (gc_pops cfg20 (put_before_gc cfg20 id (run cfg20 id (puts "a" 18 [1])) "a18")) :=
  ⟨by decide, by unfold lru_ordered; decide, by decide,
   (C21_gc_victim_selection cfg20 id
     (put_before_gc cfg20 id (run cfg20 id (puts "a" 18 [1])) "a18")
     (by decide) (by unfold lru_ordered; decide)).1⟩

/-! ## Slabs in the pools -/

set_option maxRecDepth 1000000 in
/-- C29 (the code departs from the claim): on the engine `cfg20b` (twenty slabs
of one block, ticking clock, every call a `put` or a `get`) after
`full_slab_trace`, `slab_4` is in the free pool while its block 0 is in use
(`slab_4` is also in the active pool); the next write `put("c17", …)` pops
`slab_4`, `alloc()` returns -1 and the directory records `(slab_4, -1)`. With
two blocks per slab (`cfg20`) the same calls leave `slab_4` in the free pool
with block 1 in use. -/
theorem C29_pooled_slab_in_use :
    "slab_4" ∈ (run cfg20b id full_slab_trace).free_slabs ∧
    (0 : Int) ∉ ((run cfg20b id full_slab_trace).slabs "slab_4").free_blocks ∧
    "slab_4" ∈ (run cfg20b id full_slab_trace).active_slabs ∧
    ((put_rebalanced cfg20b id (run cfg20b id full_slab_trace) "c17").slabs "slab_4").alloc
      (put_rebalanced cfg20b id (run cfg20b id full_slab_trace) "c17").ticks
      = (-1, (put_rebalanced cfg20b id (run cfg20b id full_slab_trace) "c17").slabs "slab_4") ∧
    (run cfg20b id (full_slab_trace ++ [Op.put "c17" [3]])).kv_map "c17"
      = some ("slab_4", -1) ∧
    "slab_4" ∈ (run cfg20 id full_slab_trace).free_slabs ∧
    (1 : Int) ∉ ((run cfg20 id full_slab_trace).slabs "slab_4").free_blocks := by
  refine ⟨by decide, by decide, by decide, ?_, by decide, by decide, by decide⟩
  have h : ((put_rebalanced cfg20b id (run cfg20b id full_slab_trace) "c17").slabs
      "slab_4").free_blocks = [] := by decide
  simp only [Slab.alloc, h]

/-! ## Keys of distinct slabs -/

theorem gc_of_no_victims (cfg : Config) (clk : Nat → Nat) (s : KeyValueCache)
    (h : gc_victims cfg s = []) :
    gc cfg clk s = { s with gc_invoked_count := s.gc_invoked_count + 1 } := by
  unfold gc
  simp only
  split_ifs with hl
  · rfl
  · unfold gc_victims at h
    have h0 : max (s.active_slabs.length / 2) cfg.gc_min = 0 := by
      rcases List.take_eq_nil_iff.1 (List.map_eq_nil_iff.1 h) with h | h
      · exact h
      · exact absurd h hl
    rw [h0]
    rfl

theorem manage_op_quiet (cfg : Config) (clk : Nat → Nat) (s : KeyValueCache)
    (h : gc_due (manage_pools cfg s) = true → gc_victims cfg (manage_pools cfg s) = []) :
    (manage_op cfg clk s).free_slabs = (manage_pools cfg s).free_slabs ∧
    (manage_op cfg clk s).reserve_slabs = (manage_pools cfg s).reserve_slabs ∧
    (manage_op cfg clk s).kv_map = s.kv_map ∧
    (manage_op cfg clk s).db = s.db := by
  unfold manage_op
  simp only
  split_ifs with hd
  · rw [gc_of_no_victims cfg clk _ (h hd)]
    exact ⟨rfl, rfl, rfl, rfl⟩
  · exact ⟨rfl, rfl, rfl, rfl⟩

theorem unshared_of_perm (cfg : Config) (s s' : KeyValueCache)
    (hp : (s'.free_slabs ++ s'.reserve_slabs).Perm (s.free_slabs ++ s.reserve_slabs))
    (hk : s'.kv_map = s.kv_map) (h : Unshared cfg s) : Unshared cfg s' := by
  obtain ⟨h1, h2, h3, h4⟩ := h
  refine ⟨hp.nodup_iff.2 h1, fun x hx => h2 x (hp.mem_iff.1 hx), ?_, ?_⟩
  · intro k e he
    rw [hk] at he
    exact ⟨(h3 k e he).1, fun hx => (h3 k e he).2 (hp.mem_iff.1 hx)⟩
  · intro k1 k2 e1 e2 hne he1 he2
    rw [hk] at he1 he2
    exact h4 k1 k2 e1 e2 hne he1 he2

theorem manage_op_quiet_unshared (cfg : Config) (clk : Nat → Nat) (s : KeyValueCache)
    (h : gc_due (manage_pools cfg s) = true → gc_victims cfg (manage_pools cfg s) = [])
    (hu : Unshared cfg s) : Unshared cfg (manage_op cfg clk s) := by
  obtain ⟨hf, hr, hk, _⟩ := manage_op_quiet cfg clk s h
  refine unshared_of_perm cfg s _ ?_ hk hu
  rw [hf, hr]
  exact manage_pools_perm cfg s

theorem put_release_frame (clk : Nat → Nat) (s : KeyValueCache) (k : String) :
    (put_release clk s k).free_slabs = s.free_slabs ∧
    (put_release clk s k).reserve_slabs = s.reserve_slabs ∧
    (put_release clk s k).kv_map = s.kv_map ∧
    (put_release clk s k).db = s.db := by
  unfold put_release
  split <;> exact ⟨rfl, rfl, rfl, rfl⟩

theorem put_of_nil (cfg : Config) (clk : Nat → Nat) (s : KeyValueCache) (k : String)
    (v : Bytes) (h : (put_rebalanced cfg clk s k).free_slabs = []) :
    put cfg clk s k v = put_rebalanced cfg clk s k := by
  unfold put
  simp only [h]

theorem put_of_free (cfg : Config) (clk : Nat → Nat) (s : KeyValueCache)
    (k : String) (v : Bytes) (slab_id : String) (rest : List String)
    (h : (put_rebalanced cfg clk s k).free_slabs = slab_id :: rest) :
    (put cfg clk s k v).free_slabs = rest ∧
    (put cfg clk s k v).reserve_slabs = (put_rebalanced cfg clk s k).reserve_slabs ∧
    (∃ b, (put cfg clk s k v).kv_map
        = Function.update (put_rebalanced cfg clk s k).kv_map k (some (slab_id, b)) ∧
      (put cfg clk s k v).db
        = RocksDBWrapper.put (put_rebalanced cfg clk s k).db (block_key slab_id b) v) := by
  unfold put
  simp only [h]
  exact ⟨trivial, trivial, _, rfl, rfl⟩

theorem unshared_init (cfg : Config) (clk : Nat → Nat) :
    Unshared cfg (KeyValueCache.init cfg clk) := by
  obtain ⟨hnd, _, _, _, hkv, _⟩ := init_fresh cfg clk
  obtain ⟨h1, h2, _, h4, _⟩ :=
    init_slabs_fold cfg clk (List.range cfg.total_slabs) (empty_cache cfg)
  have hl : (init_slabs cfg clk (empty_cache cfg)).lru = [] := by
    unfold init_slabs; rw [h4]; rfl
  obtain ⟨hf, hr, _, _⟩ := manage_op_of_lru_nil cfg clk _ hl
  have hperm := manage_pools_perm cfg (init_slabs cfg clk (empty_cache cfg))
  refine ⟨hnd, ?_, ?_, ?_⟩
  · intro x hx
    unfold KeyValueCache.init at hx
    rw [hf, hr] at hx
    have hx' := hperm.mem_iff.1 hx
    unfold init_slabs at hx'
    rw [h1, h2] at hx'
    simpa [empty_cache, slab_ids] using hx'
  · intro k e he
    rw [hkv k] at he
    exact absurd he (by simp)
  · intro k1 k2 e1 e2 _ he1
    rw [hkv k1] at he1
    exact absurd he1 (by simp)

theorem put_rebalanced_quiet (cfg : Config) (clk : Nat → Nat) (s : KeyValueCache) (k : String)
    (hq : gc_due (put_before_gc cfg clk s k) = true →
      gc_victims cfg (put_before_gc cfg clk s k) = []) :
    ((put_rebalanced cfg clk s k).free_slabs ++ (put_rebalanced cfg clk s k).reserve_slabs).Perm
      (s.free_slabs ++ s.reserve_slabs) ∧
    (put_rebalanced cfg clk s k).kv_map = s.kv_map ∧
    (put_rebalanced cfg clk s k).db = s.db := by
  obtain ⟨hf, hr, hk, hd⟩ := manage_op_quiet cfg clk (put_release clk s k) hq
  obtain ⟨rf, rr, rk, rd⟩ := put_release_frame clk s k
  unfold put_rebalanced
  refine ⟨?_, hk.trans rk, hd.trans rd⟩
  rw [hf, hr]
  have hp := manage_pools_perm cfg (put_release clk s k)
  rwa [rf, rr] at hp

theorem put_unshared (cfg : Config) (clk : Nat → Nat) (s : KeyValueCache) (k : String)
    (v : Bytes)
    (hq : gc_due (put_before_gc cfg clk s k) = true →
      gc_victims cfg (put_before_gc cfg clk s k) = [])
    (hu : Unshared cfg s) : Unshared cfg (put cfg clk s k v) := by
  obtain ⟨hp, hk, _⟩ := put_rebalanced_quiet cfg clk s k hq
  have hu' : Unshared cfg (put_rebalanced cfg clk s k) := unshared_of_perm cfg s _ hp hk hu
  cases hfree : (put_rebalanced cfg clk s k).free_slabs with
  | nil => rw [put_of_nil cfg clk s k v hfree]; exact hu'
  | cons slab_id rest =>
    obtain ⟨pf, pr, b, pk, _⟩ := put_of_free cfg clk s k v slab_id rest hfree
    obtain ⟨h1, h2, h3, h4⟩ := hu'
    rw [hfree] at h1 h2 h3
    simp only [List.cons_append] at h1 h2 h3
    have hnd := List.nodup_cons.1 h1
    have hold : ∀ k' e, k' ≠ k → (put cfg clk s k v).kv_map k' = some e →
        (put_rebalanced cfg clk s k).kv_map k' = some e := by
      intro k' e hk' he
      rw [pk, Function.update_noteq hk'] at he
      exact he
    have hnew : ∀ e, (put cfg clk s k v).kv_map k = some e → e.1 = slab_id := by
      intro e he
      rw [pk, Function.update_same] at he
      cases he
      rfl
    refine ⟨?_, ?_, ?_, ?_⟩
    · rw [pf, pr]; exact hnd.2
    · intro x hx
      rw [pf, pr] at hx
      exact h2 x (List.mem_cons_of_mem _ hx)
    · intro k' e he
      rw [pf, pr]
      by_cases hkk : k' = k
      · subst hkk
        rw [hnew e he]
        exact ⟨h2 slab_id (List.mem_cons_self _ _), hnd.1⟩
      · have ho := h3 k' e (hold k' e hkk he)
        exact ⟨ho.1, fun hx => ho.2 (List.mem_cons_of_mem _ hx)⟩
    · intro k1 k2 e1 e2 hne he1 he2
      by_cases hk1 : k1 = k
      · subst hk1
        have hk2 : k2 ≠ k1 := fun h => hne h.symm
        have ho := h3 k2 e2 (hold k2 e2 hk2 he2)
        rw [hnew e1 he1]
        intro heq
        exact ho.2 (heq ▸ List.mem_cons_self _ _)
      · by_cases hk2 : k2 = k
        · subst hk2
          have ho := h3 k1 e1 (hold k1 e1 hk1 he1)
          rw [hnew e2 he2]
          intro heq
          exact ho.2 (heq ▸ List.mem_cons_self _ _)
        · exact h4 k1 k2 e1 e2 hne (hold k1 e1 hk1 he1) (hold k2 e2 hk2 he2)

theorem del_frame (clk : Nat → Nat) (s : KeyValueCache) (k : String) :
    (del clk s k).free_slabs = s.free_slabs ∧
    (del clk s k).reserve_slabs = s.reserve_slabs ∧
    (∀ k', k' ≠ k → (del clk s k).kv_map k' = s.kv_map k') ∧
    (del clk s k).kv_map k = none := by
  unfold del
  split
  · rename_i h
    exact ⟨rfl, rfl, fun _ _ => rfl, h⟩
  · refine ⟨rfl, rfl, fun k' hk' => ?_, ?_⟩
    · simp only [Function.update_noteq hk']
    · simp only [Function.update_same]

theorem del_unshared (cfg : Config) (clk : Nat → Nat) (s : KeyValueCache) (k : String)
    (hu : Unshared cfg s) : Unshared cfg (del clk s k) := by
  obtain ⟨df, dr, dk, dn⟩ := del_frame clk s k
  obtain ⟨h1, h2, h3, h4⟩ := hu
  have hold : ∀ k' e, (del clk s k).kv_map k' = some e → k' ≠ k ∧ s.kv_map k' = some e := by
    intro k' e he
    have hk' : k' ≠ k := by
      intro h
      rw [h, dn] at he
      exact absurd he (by simp)
    exact ⟨hk', by rw [← dk k' hk']; exact he⟩
  refine ⟨by rw [df, dr]; exact h1, by rw [df, dr]; exact h2, ?_, ?_⟩
  · intro k' e he
    rw [df, dr]
    exact h3 k' e (hold k' e he).2
  · intro k1 k2 e1 e2 hne he1 he2
    exact h4 k1 k2 e1 e2 hne (hold k1 e1 he1).2 (hold k2 e2 he2).2

theorem get_frame (clk : Nat → Nat) (s : KeyValueCache) (k : String) :
    (get clk s k).2.free_slabs = s.free_slabs ∧
    (get clk s k).2.reserve_slabs = s.reserve_slabs ∧
    (get clk s k).2.kv_map = s.kv_map ∧
    (get clk s k).2.db = s.db := by
  unfold get
  split <;> exact ⟨rfl, rfl, rfl, rfl⟩

theorem op_run_unshared (cfg : Config) (clk : Nat → Nat) (s : KeyValueCache) (op : Op)
    (hq : op.evicted cfg clk s = []) (hu : Unshared cfg s) :
    Unshared cfg (op.run cfg clk s) := by
  cases op with
  | put k v =>
    apply put_unshared cfg clk s k v _ hu
    intro hd
    simpa only [Op.evicted, hd, if_true] using hq
  | get k =>
    obtain ⟨gf, gr, gk, _⟩ := get_frame clk s k
    refine unshared_of_perm cfg s _ ?_ gk hu
    simp only [Op.run]
    rw [gf, gr]
  | del k => exact del_unshared cfg clk s k hu
  | trigger_gc_op =>
    apply manage_op_quiet_unshared cfg clk s _ hu
    intro hd
    simpa only [Op.evicted, hd, if_true] using hq

theorem foldl_unshared (cfg : Config) (clk : Nat → Nat) (ops : List Op) :
    ∀ s, Unshared cfg s → evicted cfg clk s ops = [] →
      Unshared cfg (ops.foldl (Op.run cfg clk) s) := by
  induction ops with
  | nil => intro s hu _; exact hu
  | cons op ops ih =>
    intro s hu hq
    rw [evicted] at hq
    obtain ⟨hq1, hq2⟩ := List.append_eq_nil.1 hq
    rw [List.foldl_cons]
    exact ih _ (op_run_unshared cfg clk s op hq1 hu) hq2

theorem digitChar_ne_colon (m : Nat) (h : m < 10) : Nat.digitChar m ≠ ':' := by
  interval_cases m <;> decide

theorem toDigitsCore_ne_colon (fuel : Nat) :
    ∀ n ds, (∀ c ∈ ds, c ≠ ':') → ∀ c ∈ Nat.toDigitsCore 10 fuel n ds, c ≠ ':' := by
  induction fuel with
  | zero => intro n ds h c hc; exact h c (by simpa [Nat.toDigitsCore] using hc)
  | succ fuel ih =>
    intro n ds h c hc
    rw [Nat.toDigitsCore] at hc
    have hd : ∀ c ∈ Nat.digitChar (n % 10) :: ds, c ≠ ':' := by
      intro c hc
      rcases List.mem_cons.1 hc with hc | hc
      · rw [hc]; exact digitChar_ne_colon _ (Nat.mod_lt _ (by omega))
      · exact h c hc
    split_ifs at hc with h0
    · exact hd c hc
    · exact ih _ _ hd c hc

theorem append_sep_cancel (c : Char) :
    ∀ (l1 l2 x y : List Char), c ∉ l1 → c ∉ l2 → l1 ++ c :: x = l2 ++ c :: y → l1 = l2 := by
  intro l1
  induction l1 with
  | nil =>
    intro l2 x y _ h2 h
    cases l2 with
    | nil => rfl
    | cons d l2 =>
      simp only [List.nil_append, List.cons_append, List.cons.injEq] at h
      exact absurd (h.1 ▸ List.mem_cons_self _ _) h2
  | cons a l1 ih =>
    intro l2 x y h1 h2 h
    cases l2 with
    | nil =>
      simp only [List.nil_append, List.cons_append, List.cons.injEq] at h
      exact absurd (h.1 ▸ List.mem_cons_self _ _) h1
    | cons d l2 =>
      simp only [List.cons_append, List.cons.injEq] at h
      rw [h.1, ih l2 x y (fun hc => h1 (List.mem_cons_of_mem _ hc))
        (fun hc => h2 (List.mem_cons_of_mem _ hc)) h.2]

theorem block_key_ne (cfg : Config) (a b : String) (i j : Int)
    (ha : a ∈ slab_ids cfg) (hb : b ∈ slab_ids cfg) (h : a ≠ b) :
    block_key a i ≠ block_key b j := by
  obtain ⟨m, _, rfl⟩ := List.mem_map.1 ha
  obtain ⟨n, _, rfl⟩ := List.mem_map.1 hb
  intro heq
  apply h
  have h1 := congrArg String.data heq
  simp only [block_key, String.data_append, List.append_assoc] at h1
  have h2 := List.append_cancel_left h1
  have hm : ∀ k : Nat, ':' ∉ (toString k).data := by
    intro k hk
    have hk' : ':' ∈ Nat.toDigits 10 k := by
      simpa [toString, Nat.repr, List.asString] using hk
    exact toDigitsCore_ne_colon _ _ _ (by simp) _ hk' rfl
  have h3 := append_sep_cancel ':' (toString m).data (toString n).data _ _ (hm m) (hm n) h2
  have h4 : m = n := nat_repr_injective (String.ext h3)
  rw [h4]

theorem get_value (clk : Nat → Nat) (s : KeyValueCache) (k : String) (e : String × Int)
    (h : s.kv_map k = some e) :
    (get clk s k).1 = RocksDBWrapper.get s.db (block_key e.1 e.2) := by
  obtain ⟨slab, idx⟩ := e
  unfold get
  rw [h]

theorem RocksDBWrapper.get_congr (db db' : DB) (key : String) (h : db' key = db key) :
    RocksDBWrapper.get db' key = RocksDBWrapper.get db key := by
  unfold RocksDBWrapper.get
  rw [h]

/-- C28: in every state reached from construction by calls (`put`, `get`,
`del`, also `trigger_gc_op`) during which `gc()` evicted no slab, for all
distinct keys `k1`, `k2` where `k1` has a directory entry `e`: a `put(k2, v)`
whose `manage_op` does not reach `gc()` leaves `k1`'s entry and the value
returned by `get(k1)` unchanged, and so does `del(k2)`; and if `k2` has an
entry too, the two entries differ in their (slab, block) pair and in their
composite store key `"slab:index"`. -/
theorem C28_keys_do_not_interfere (cfg : Config) (clk : Nat → Nat) (ops : List Op)
    (k1 k2 : String) (e : String × Int) (v : Bytes)
    (hq : evicted cfg clk (KeyValueCache.init cfg clk) ops = [])
    (hne : k1 ≠ k2) (hk : (run cfg clk ops).kv_map k1 = some e) :
    (gc_due (put_before_gc cfg clk (run cfg clk ops) k2) = false →
      (put cfg clk (run cfg clk ops) k2 v).kv_map k1 = some e ∧
      (get clk (put cfg clk (run cfg clk ops) k2 v) k1).1 = (get clk (run cfg clk ops) k1).1) ∧
    ((del clk (run cfg clk ops) k2).kv_map k1 = some e ∧
      (get clk (del clk (run cfg clk ops) k2) k1).1 = (get clk (run cfg clk ops) k1).1) ∧
    (∀ e2, (run cfg clk ops).kv_map k2 = some e2 →
      e ≠ e2 ∧ block_key e.1 e.2 ≠ block_key e2.1 e2.2) := by
  have hu : Unshared cfg (run cfg clk ops) :=
    foldl_unshared cfg clk ops _ (unshared_init cfg clk) hq
  obtain ⟨h1, h2, h3, h4⟩ := hu
  have hentries : ∀ e2, (run cfg clk ops).kv_map k2 = some e2 →
      e ≠ e2 ∧ block_key e.1 e.2 ≠ block_key e2.1 e2.2 := by
    intro e2 he2
    have hs := h4 k1 k2 e e2 hne hk he2
    exact ⟨fun h => hs (congrArg Prod.fst h),
      block_key_ne cfg _ _ _ _ (h3 k1 e hk).1 (h3 k2 e2 he2).1 hs⟩
  refine ⟨?_, ?_, hentries⟩
  · intro hd
    obtain ⟨hp, hkv, hdb⟩ := put_rebalanced_quiet cfg clk (run cfg clk ops) k2
      (fun h => absurd h (by rw [hd]; simp))
    cases hfree : (put_rebalanced cfg clk (run cfg clk ops) k2).free_slabs with
    | nil =>
      rw [put_of_nil cfg clk _ k2 v hfree]
      have hk' : (put_rebalanced cfg clk (run cfg clk ops) k2).kv_map k1 = some e := by
        rw [hkv]; exact hk
      refine ⟨hk', ?_⟩
      rw [get_value clk _ k1 e hk', get_value clk _ k1 e hk, hdb]
    | cons slab_id rest =>
      obtain ⟨_, _, b, pk, pdb⟩ := put_of_free cfg clk _ k2 v slab_id rest hfree
      have hk' : (put cfg clk (run cfg clk ops) k2 v).kv_map k1 = some e := by
        rw [pk, Function.update_noteq hne, hkv]; exact hk
      refine ⟨hk', ?_⟩
      rw [get_value clk _ k1 e hk', get_value clk _ k1 e hk]
      apply RocksDBWrapper.get_congr
      have hmem : slab_id ∈ (run cfg clk ops).free_slabs ++ (run cfg clk ops).reserve_slabs := by
        apply hp.mem_iff.1
        rw [hfree]
        exact List.mem_append_left _ (List.mem_cons_self _ _)
      have hslab : e.1 ≠ slab_id := fun h => (h3 k1 e hk).2 (h ▸ hmem)
      rw [pdb, hdb]
      simp only [RocksDBWrapper.put]
      exact Function.update_noteq (block_key_ne cfg _ _ _ _ (h3 k1 e hk).1 (h2 _ hmem) hslab) _ _
  · obtain ⟨_, _, dk, _⟩ := del_frame clk (run cfg clk ops) k2
    have hk' : (del clk (run cfg clk ops) k2).kv_map k1 = some e := by
      rw [dk k1 hne]; exact hk
    refine ⟨hk', ?_⟩
    rw [get_value clk _ k1 e hk', get_value clk _ k1 e hk]
    apply RocksDBWrapper.get_congr
    unfold del
    split
    · rfl
    · rename_i slab idx he2
      simp only [RocksDBWrapper.del]
      exact Function.update_noteq (hentries (slab, idx) he2).2 _ _

set_option maxRecDepth 1000000 in
/-- Witness of C28: the engine `cfg8` (ticking clock) after the writes of `"a"`
and `"b"`, with `k1 = "a"` and `k2 = "b"`. -/
theorem C28_keys_do_not_interfere_witness :
    evicted cfg8 id (KeyValueCache.init cfg8 id) [Op.put "a" [1], Op.put "b" [2]] = [] ∧
    "a" ≠ "b" ∧
    (run cfg8 id [Op.put "a" [1], Op.put "b" [2]]).kv_map "a" = some ("slab_1", 1) ∧
    gc_due (put_before_gc cfg8 id (run cfg8 id [Op.put "a" [1], Op.put "b" [2]]) "b") = false ∧
    (put cfg8 id (run cfg8 id [Op.put "a" [1], Op.put "b" [2]]) "b" [3]).kv_map "a"
      = some ("slab_1", 1) ∧
    (get id (del id (run cfg8 id [Op.put "a" [1], Op.put "b" [2]]) "b") "a").1
      = (get id (run cfg8 id [Op.put "a" [1], Op.put "b" [2]]) "a").1 :=
  ⟨by decide, by decide, by decide, by decide,
   ((C28_keys_do_not_interfere cfg8 id [Op.put "a" [1], Op.put "b" [2]] "a" "b"
      ("slab_1", 1) [3] (by decide) (by decide) (by decide)).1 (by decide)).1,
   (C28_keys_do_not_interfere cfg8 id [Op.put "a" [1], Op.put "b" [2]] "a" "b"
      ("slab_1", 1) [3] (by decide) (by decide) (by decide)).2.1.2⟩

/-! ## Timestamps under a strictly increasing clock -/

theorem lru_insert_mem (t : Nat) (v : String) (l : LruMap) : (t, v) ∈ lru_insert t v l := by
  induction l with
  | nil => simp [lru_insert]
  | cons x l ih =>
    obtain ⟨t', v'⟩ := x
    rw [lru_insert]
    split_ifs
    · exact List.mem_cons_self _ _
    · exact List.mem_cons_self _ _
    · exact List.mem_cons_of_mem _ ih

theorem mem_lru_insert_of_ne (t : Nat) (v : String) (l : LruMap) (e : Nat × String)
    (he : e ∈ l) (hne : e.1 ≠ t) : e ∈ lru_insert t v l := by
  induction l with
  | nil => simp at he
  | cons x l ih =>
    obtain ⟨t', v'⟩ := x
    rw [lru_insert]
    split_ifs with h1 h2
    · exact List.mem_cons_of_mem _ he
    · rcases List.mem_cons.1 he with h | h
      · rw [h] at hne
        exact absurd h2.symm hne
      · exact List.mem_cons_of_mem _ h
    · rcases List.mem_cons.1 he with h | h
      · rw [h]; exact List.mem_cons_self _ _
      · exact List.mem_cons_of_mem _ (ih h)

theorem mem_lru_erase (t : Nat) (l : LruMap) (e : Nat × String) :
    e ∈ lru_erase t l ↔ e ∈ l ∧ e.1 ≠ t := by
  simp [lru_erase]

theorem stamped_congr (cfg : Config) (clk : Nat → Nat) (s s' : KeyValueCache)
    (h1 : s'.slabs = s.slabs) (h2 : s'.lru = s.lru) (h3 : s'.ticks = s.ticks)
    (hs : Stamped cfg clk s) : Stamped cfg clk s' := by
  unfold Stamped at hs ⊢
  rw [h1, h2, h3]
  exact hs

theorem stamped_step (cfg : Config) (clk : Nat → Nat) (hclk : StrictMono clk)
    (s s' : KeyValueCache) (a : String) (sl : Slab) (hs : Stamped cfg clk s)
    (hslabs : s'.slabs = Function.update s.slabs a sl) (hticks : s.ticks ≤ s'.ticks)
    (hsl : sl.lru = (s.slabs a).lru ∨ (clk s.ticks ≤ sl.lru ∧ sl.lru < clk s'.ticks))
    (hlru : ∀ e ∈ s'.lru, e ∈ s.lru ∨ (e = (sl.lru, a) ∧ a ∈ slab_ids cfg)) :
    Stamped cfg clk s' := by
  obtain ⟨hb, hf, he, hc⟩ := hs
  have hmono : clk s.ticks ≤ clk s'.ticks := hclk.monotone hticks
  have hoth : ∀ x, x ≠ a → (s'.slabs x).lru = (s.slabs x).lru := by
    intro x hx
    rw [hslabs, Function.update_noteq hx]
  have hself : (s'.slabs a).lru = sl.lru := by rw [hslabs, Function.update_same]
  have hfa : a ∈ slab_ids cfg → sl.lru < clk s'.ticks := by
    intro ha
    rcases hsl with h | h
    · rw [h]; exact Nat.lt_of_lt_of_le (hf a ha) hmono
    · exact h.2
  have hcol : ∀ x ∈ slab_ids cfg, a ∈ slab_ids cfg → x ≠ a → (s.slabs x).lru ≠ sl.lru := by
    intro x hx ha hxa heq
    rcases hsl with h | h
    · exact hxa (he x hx a ha (heq.trans h))
    · have := hf x hx
      omega
  refine ⟨?_, ?_, ?_, ?_⟩
  · intro e hel
    rcases hlru e hel with h | ⟨h, ha⟩
    · exact Nat.lt_of_lt_of_le (hb e h) hmono
    · rw [h]; exact hfa ha
  · intro x hx
    by_cases hxa : x = a
    · rw [hxa, hself]; exact hfa (hxa ▸ hx)
    · rw [hoth x hxa]; exact Nat.lt_of_lt_of_le (hf x hx) hmono
  · intro x hx y hy hxy
    by_cases hxa : x = a
    · by_cases hya : y = a
      · rw [hxa, hya]
      · rw [hxa, hself, hoth y hya] at hxy
        exact absurd hxy.symm (hcol y hy (hxa ▸ hx) hya)
    · by_cases hya : y = a
      · rw [hya, hself, hoth x hxa] at hxy
        exact absurd hxy (hcol x hx (hya ▸ hy) hxa)
      · rw [hoth x hxa, hoth y hya] at hxy
        exact he x hx y hy hxy
  · intro e hel x hx hxe
    rcases hlru e hel with h | ⟨h, ha⟩
    · by_cases hxa : x = a
      · rw [hxa, hself] at hxe
        rcases hsl with h' | h'
        · rw [hxa]
          exact hc e h a (hxa ▸ hx) (h'.symm.trans hxe)
        · have := hb e h
          omega
      · rw [hoth x hxa] at hxe
        exact hc e h x hx hxe
    · rw [h] at hxe ⊢
      by_contra hxa
      rw [hoth x hxa] at hxe
      exact hcol x hx ha hxa hxe

theorem gc_free_fold_stamp (clk : Nat → Nat) (hclk : StrictMono clk) (victim : String)
    (l : List Nat) (acc : DB × Slab × Nat) :
    acc.2.2 ≤ (l.foldl (gc_free_block clk victim) acc).2.2 ∧
    ((l.foldl (gc_free_block clk victim) acc).2.1.lru = acc.2.1.lru ∨
      (clk acc.2.2 ≤ (l.foldl (gc_free_block clk victim) acc).2.1.lru ∧
        (l.foldl (gc_free_block clk victim) acc).2.1.lru
          < clk (l.foldl (gc_free_block clk victim) acc).2.2)) := by
  induction l generalizing acc with
  | nil => exact ⟨Nat.le_refl _, Or.inl rfl⟩
  | cons i l ih =>
    rw [List.foldl_cons]
    obtain ⟨h1, h2⟩ := ih (gc_free_block clk victim acc i)
    by_cases hmem : (i : Int) ∈ acc.2.1.free_blocks
    · have hstep : gc_free_block clk victim acc i = acc := by
        simp only [gc_free_block, hmem, if_true]
      rw [hstep] at h1 h2 ⊢
      exact ⟨h1, h2⟩
    · have ht : (gc_free_block clk victim acc i).2.2 = acc.2.2 + 1 := by
        simp only [gc_free_block, hmem, if_false]
      have hl : (gc_free_block clk victim acc i).2.1.lru = clk acc.2.2 := by
        simp only [gc_free_block, hmem, if_false, Slab.free]
      rw [ht] at h1 h2
      rw [hl] at h2
      have hlt : clk acc.2.2 < clk (acc.2.2 + 1) := hclk (Nat.lt_succ_self _)
      have hle : clk (acc.2.2 + 1) ≤ clk (l.foldl (gc_free_block clk victim)
          (gc_free_block clk victim acc i)).2.2 := hclk.monotone h1
      refine ⟨by omega, Or.inr ?_⟩
      rcases h2 with h | h
      · rw [h]; exact ⟨Nat.le_refl _, by omega⟩
      · exact ⟨by omega, h.2⟩

theorem gc_loop_stamped (cfg : Config) (clk : Nat → Nat) (hclk : StrictMono clk) (k : Nat) :
    ∀ s, Stamped cfg clk s → Stamped cfg clk (gc_loop cfg clk k s) := by
  induction k with
  | zero => intro s hs; simpa [gc_loop] using hs
  | succ k ih =>
    intro s hs
    rw [gc_loop]
    split
    · exact hs
    · rename_i t victim rest hl
      apply ih
      obtain ⟨h1, h2⟩ := gc_free_fold_stamp clk hclk victim (List.range cfg.BLOCKS_PER_SLAB)
        (s.db, s.slabs victim, s.ticks)
      refine stamped_step cfg clk hclk s _ victim
        (gc_free_blocks clk victim cfg.BLOCKS_PER_SLAB s.db (s.slabs victim) s.ticks).2.1
        hs rfl h1 h2 ?_
      intro e he
      left
      rw [hl]
      exact List.mem_cons_of_mem _ he

theorem manage_op_stamped (cfg : Config) (clk : Nat → Nat) (hclk : StrictMono clk)
    (s : KeyValueCache) (hs : Stamped cfg clk s) : Stamped cfg clk (manage_op cfg clk s) := by
  have hm : Stamped cfg clk (manage_pools cfg s) := stamped_congr cfg clk s _ rfl rfl rfl hs
  unfold manage_op
  simp only
  split_ifs
  · unfold gc
    simp only
    split_ifs
    · exact stamped_congr cfg clk (manage_pools cfg s) _ rfl rfl rfl hm
    · exact gc_loop_stamped cfg clk hclk _ _
        (stamped_congr cfg clk (manage_pools cfg s) _ rfl rfl rfl hm)
  · exact hm

theorem manage_op_covered (cfg : Config) (clk : Nat → Nat) (s : KeyValueCache)
    (hc : Covered cfg s) : Covered cfg (manage_op cfg clk s) := by
  obtain ⟨c1, c2, c3, c4⟩ := hc
  obtain ⟨k, hfree, hlru, hres, _⟩ := manage_op_free cfg clk s
  have hperm := manage_pools_perm cfg s
  have hvict : ∀ x ∈ (s.lru.take k).map Prod.snd, x ∈ slab_ids cfg := by
    intro x hx
    obtain ⟨e, he, rfl⟩ := List.mem_map.1 hx
    exact c2 e (List.mem_of_mem_take he)
  refine ⟨?_, ?_, ?_, ?_⟩
  · intro x hx
    rw [hfree, hres] at hx
    simp only [List.mem_append] at hx
    rcases hx with (hx | hx) | hx
    · exact c1 x (hperm.mem_iff.1 (List.mem_append_left _ hx))
    · exact hvict x hx
    · exact c1 x (hperm.mem_iff.1 (List.mem_append_right _ hx))
  · intro e he
    rw [hlru] at he
    exact c2 e (List.mem_of_mem_drop he)
  · intro key e he
    rw [manage_op_kv_map] at he
    exact c3 key e he
  · intro a ha
    rw [hfree, hres, hlru]
    rcases c4 a ha with h | h
    · left
      have h' := hperm.mem_iff.2 h
      simp only [List.mem_append] at h' ⊢
      rcases h' with h' | h'
      · exact Or.inl (Or.inl h')
      · exact Or.inr h'
    · rw [← List.take_append_drop k s.lru, List.map_append, List.mem_append] at h
      rcases h with h | h
      · left
        simp only [List.mem_append]
        exact Or.inl (Or.inr h)
      · exact Or.inr h

theorem lru_erase_fresh (t : Nat) (l : LruMap) (h : ∀ e ∈ l, e.1 < t) : lru_erase t l = l := by
  unfold lru_erase
  apply List.filter_eq_self.2
  intro e he
  have := h e he
  simp only [ne_eq, decide_eq_true_eq]
  omega

theorem put_release_tracked (cfg : Config) (clk : Nat → Nat) (hclk : StrictMono clk)
    (s : KeyValueCache) (k : String) (hs : Stamped cfg clk s) (hc : Covered cfg s) :
    Stamped cfg clk (put_release clk s k) ∧ Covered cfg (put_release clk s k) := by
  unfold put_release
  split
  · exact ⟨hs, hc⟩
  · rename_i slab idx hk
    constructor
    · refine stamped_step cfg clk hclk s _ slab ((s.slabs slab).free idx (clk s.ticks)) hs rfl
        (Nat.le_succ _) (Or.inr ⟨Nat.le_refl _, hclk (Nat.lt_succ_self _)⟩) ?_
      intro e he
      exact Or.inl ((mem_lru_erase _ _ _).1 he).1
    · have hl : lru_erase ((s.slabs slab).free idx (clk s.ticks)).lru s.lru = s.lru :=
        lru_erase_fresh _ _ hs.1
      simp only [hl]
      exact hc

theorem del_tracked (cfg : Config) (clk : Nat → Nat) (hclk : StrictMono clk)
    (s : KeyValueCache) (k : String) (hs : Stamped cfg clk s) (hc : Covered cfg s) :
    Stamped cfg clk (del clk s k) ∧ Covered cfg (del clk s k) := by
  unfold del
  split
  · exact ⟨hs, hc⟩
  · rename_i slab idx hk
    constructor
    · refine stamped_step cfg clk hclk s _ slab ((s.slabs slab).free idx (clk s.ticks)) hs rfl
        (Nat.le_succ _) (Or.inr ⟨Nat.le_refl _, hclk (Nat.lt_succ_self _)⟩) ?_
      intro e he
      exact Or.inl ((mem_lru_erase _ _ _).1 he).1
    · have hl : lru_erase ((s.slabs slab).free idx (clk s.ticks)).lru s.lru = s.lru :=
        lru_erase_fresh _ _ hs.1
      obtain ⟨c1, c2, c3, c4⟩ := hc
      simp only [hl]
      refine ⟨c1, c2, ?_, c4⟩
      intro k' e he
      by_cases hkk : k' = k
      · rw [hkk] at he
        simp only [Function.update_same] at he
        exact absurd he (by simp)
      · simp only [Function.update_noteq hkk] at he
        exact c3 k' e he

theorem get_tracked (cfg : Config) (clk : Nat → Nat) (hclk : StrictMono clk)
    (s : KeyValueCache) (k : String) (hs : Stamped cfg clk s) (hc : Covered cfg s) :
    Stamped cfg clk (get clk s k).2 ∧ Covered cfg (get clk s k).2 := by
  unfold get
  split
  · exact ⟨hs, hc⟩
  · rename_i slab idx hk
    obtain ⟨c1, c2, c3, c4⟩ := hc
    have hslab : slab ∈ slab_ids cfg := c3 k (slab, idx) hk
    constructor
    · refine stamped_step cfg clk hclk s _ slab { s.slabs slab with lru := clk s.ticks } hs rfl
        (Nat.le_succ _) (Or.inr ⟨Nat.le_refl _, hclk (Nat.lt_succ_self _)⟩) ?_
      intro e he
      rcases mem_lru_insert _ _ _ e he with h | h
      · exact Or.inr ⟨h, hslab⟩
      · exact Or.inl ((mem_lru_erase _ _ _).1 h).1
    · refine ⟨c1, ?_, c3, ?_⟩
      · intro e he
        rcases mem_lru_insert _ _ _ e he with h | h
        · rw [h]; exact hslab
        · exact c2 e ((mem_lru_erase _ _ _).1 h).1
      · intro a ha
        rcases c4 a ha with h | h
        · exact Or.inl h
        · right
          by_cases has : a = slab
          · rw [has]
            exact List.mem_map.2 ⟨(clk s.ticks, slab), lru_insert_mem _ _ _, rfl⟩
          · obtain ⟨e, he, hea⟩ := List.mem_map.1 h
            refine List.mem_map.2 ⟨e, ?_, hea⟩
            apply mem_lru_insert_of_ne
            · apply (mem_lru_erase _ _ _).2
              refine ⟨he, ?_⟩
              intro heq
              have := hs.2.2.2 e he slab hslab heq.symm
              exact has (hea.symm.trans this.symm)
            · have := hs.1 e he
              omega

theorem put_tail (cfg : Config) (clk : Nat → Nat) (s : KeyValueCache)
    (k : String) (v : Bytes) (slab_id : String) (rest : List String)
    (h : (put_rebalanced cfg clk s k).free_slabs = slab_id :: rest) :
    (put cfg clk s k v).slabs = Function.update (put_rebalanced cfg clk s k).slabs slab_id
      (((put_rebalanced cfg clk s k).slabs slab_id).alloc
        (clk (put_rebalanced cfg clk s k).ticks)).2 ∧
    (put cfg clk s k v).ticks =
      (if ((put_rebalanced cfg clk s k).slabs slab_id).free_blocks = []
        then (put_rebalanced cfg clk s k).ticks else (put_rebalanced cfg clk s k).ticks + 1) ∧
    (put cfg clk s k v).lru = lru_insert
      (((put_rebalanced cfg clk s k).slabs slab_id).alloc
        (clk (put_rebalanced cfg clk s k).ticks)).2.lru slab_id
      (put_rebalanced cfg clk s k).lru := by
  unfold put
  simp only [h, and_self]

theorem alloc_stamp (clk : Nat → Nat) (hclk : StrictMono clk) (sl : Slab) (t : Nat) :
    t ≤ (if sl.free_blocks = [] then t else t + 1) ∧
    ((sl.alloc (clk t)).2.lru = sl.lru ∨
      (clk t ≤ (sl.alloc (clk t)).2.lru ∧
        (sl.alloc (clk t)).2.lru < clk (if sl.free_blocks = [] then t else t + 1))) := by
  cases hfb : sl.free_blocks with
  | nil =>
    simp only [Slab.alloc, hfb, if_true]
    exact ⟨Nat.le_refl _, Or.inl trivial⟩
  | cons i tl =>
    simp only [Slab.alloc, hfb, reduceCtorEq, if_false]
    exact ⟨Nat.le_succ _, Or.inr ⟨Nat.le_refl _, hclk (Nat.lt_succ_self _)⟩⟩

theorem put_tracked (cfg : Config) (clk : Nat → Nat) (hclk : StrictMono clk)
    (s : KeyValueCache) (k : String) (v : Bytes) (hs : Stamped cfg clk s) (hc : Covered cfg s) :
    Stamped cfg clk (put cfg clk s k v) ∧ Covered cfg (put cfg clk s k v) := by
  obtain ⟨hs1, hc1⟩ := put_release_tracked cfg clk hclk s k hs hc
  have hs2 : Stamped cfg clk (put_rebalanced cfg clk s k) := manage_op_stamped cfg clk hclk _ hs1
  have hc2 : Covered cfg (put_rebalanced cfg clk s k) := manage_op_covered cfg clk _ hc1
  cases hfree : (put_rebalanced cfg clk s k).free_slabs with
  | nil => rw [put_of_nil cfg clk s k v hfree]; exact ⟨hs2, hc2⟩
  | cons slab_id rest =>
    obtain ⟨pslabs, pticks, plru⟩ := put_tail cfg clk s k v slab_id rest hfree
    obtain ⟨pf, pr, b, pk, _⟩ := put_of_free cfg clk s k v slab_id rest hfree
    obtain ⟨c1, c2, c3, c4⟩ := hc2
    have hslab : slab_id ∈ slab_ids cfg := by
      apply c1
      rw [hfree]
      exact List.mem_append_left _ (List.mem_cons_self _ _)
    obtain ⟨a1, a2⟩ := alloc_stamp clk hclk ((put_rebalanced cfg clk s k).slabs slab_id)
      (put_rebalanced cfg clk s k).ticks
    constructor
    · refine stamped_step cfg clk hclk (put_rebalanced cfg clk s k) _ slab_id _ hs2 pslabs
        (by rw [pticks]; exact a1) (by rw [pticks]; exact a2) ?_
      intro e he
      rw [plru] at he
      rcases mem_lru_insert _ _ _ e he with h | h
      · exact Or.inr ⟨h, hslab⟩
      · exact Or.inl h
    · refine ⟨?_, ?_, ?_, ?_⟩
      · intro x hx
        rw [pf, pr] at hx
        apply c1
        rw [hfree]
        simp only [List.mem_append, List.mem_cons] at hx ⊢
        rcases hx with hx | hx
        · exact Or.inl (Or.inr hx)
        · exact Or.inr hx
      · intro e he
        rw [plru] at he
        rcases mem_lru_insert _ _ _ e he with h | h
        · rw [h]; exact hslab
        · exact c2 e h
      · intro k' e he
        rw [pk] at he
        by_cases hkk : k' = k
        · rw [hkk, Function.update_same] at he
          cases he
          exact hslab
        · rw [Function.update_noteq hkk] at he
          exact c3 k' e he
      · intro a ha
        rw [pf, pr, plru]
        by_cases has : a = slab_id
        · right
          rw [has]
          exact List.mem_map.2 ⟨_, lru_insert_mem _ _ _, rfl⟩
        · rcases c4 a ha with h | h
          · left
            rw [hfree] at h
            simp only [List.mem_append, List.mem_cons] at h ⊢
            rcases h with (h | h) | h
            · exact absurd h has
            · exact Or.inl h
            · exact Or.inr h
          · right
            obtain ⟨e, he, hea⟩ := List.mem_map.1 h
            refine List.mem_map.2 ⟨e, ?_, hea⟩
            apply mem_lru_insert_of_ne _ _ _ _ he
            intro heq
            rcases a2 with h' | h'
            · have := hs2.2.2.2 e he slab_id hslab (h'.symm.trans heq.symm)
              exact has (hea.symm.trans this.symm)
            · have := hs2.1 e he
              omega

theorem init_range_stamps (cfg : Config) (clk : Nat → Nat) (s : KeyValueCache) (n : Nat) :
    ((List.range n).foldl (init_slab cfg clk) s).ticks = s.ticks + n ∧
    ∀ i, i < n →
      (((List.range n).foldl (init_slab cfg clk) s).slabs ("slab_" ++ toString i)).lru
        = clk (s.ticks + i) := by
  induction n with
  | zero => exact ⟨rfl, fun i hi => absurd hi (Nat.not_lt_zero i)⟩
  | succ n ih =>
    obtain ⟨ih1, ih2⟩ := ih
    rw [List.range_succ, List.foldl_append, List.foldl_cons, List.foldl_nil]
    simp only [init_slab]
    refine ⟨by rw [ih1]; omega, ?_⟩
    intro i hi
    by_cases hin : i = n
    · rw [hin, Function.update_same, ih1]
      rfl
    · have hne : "slab_" ++ toString i ≠ "slab_" ++ toString n :=
        fun h => hin (slab_id_injective h)
      rw [Function.update_noteq hne]
      exact ih2 i (by omega)

theorem mem_slab_ids (cfg : Config) (a : String) :
    a ∈ slab_ids cfg ↔ ∃ i, i < cfg.total_slabs ∧ a = "slab_" ++ toString i := by
  unfold slab_ids
  constructor
  · intro h
    obtain ⟨i, hi, rfl⟩ := List.mem_map.1 h
    exact ⟨i, List.mem_range.1 hi, rfl⟩
  · rintro ⟨i, hi, rfl⟩
    exact List.mem_map.2 ⟨i, List.mem_range.2 hi, rfl⟩

theorem init_tracked (cfg : Config) (clk : Nat → Nat) (hclk : StrictMono clk) :
    Stamped cfg clk (KeyValueCache.init cfg clk) ∧ Covered cfg (KeyValueCache.init cfg clk) := by
  obtain ⟨h1, h2, _, h4, h5⟩ :=
    init_slabs_fold cfg clk (List.range cfg.total_slabs) (empty_cache cfg)
  obtain ⟨t1, t2⟩ := init_range_stamps cfg clk (empty_cache cfg) cfg.total_slabs
  have hs : Stamped cfg clk (init_slabs cfg clk (empty_cache cfg)) := by
    unfold init_slabs
    refine ⟨?_, ?_, ?_, ?_⟩
    · intro e he
      rw [h4] at he
      exact absurd he (by simp [empty_cache])
    · intro a ha
      obtain ⟨i, hi, rfl⟩ := (mem_slab_ids cfg a).1 ha
      rw [t2 i hi, t1]
      exact hclk (by omega)
    · intro a ha b hb hab
      obtain ⟨i, hi, rfl⟩ := (mem_slab_ids cfg a).1 ha
      obtain ⟨j, hj, rfl⟩ := (mem_slab_ids cfg b).1 hb
      rw [t2 i hi, t2 j hj] at hab
      have hij : i = j := by
        have := hclk.injective hab
        omega
      rw [hij]
    · intro e he
      rw [h4] at he
      exact absurd he (by simp [empty_cache])
  have hc : Covered cfg (init_slabs cfg clk (empty_cache cfg)) := by
    unfold init_slabs
    have hpools : (List.foldl (init_slab cfg clk) (empty_cache cfg)
          (List.range cfg.total_slabs)).free_slabs ++
        (List.foldl (init_slab cfg clk) (empty_cache cfg)
          (List.range cfg.total_slabs)).reserve_slabs = slab_ids cfg := by
      rw [h1, h2]
      simp [empty_cache, slab_ids]
    refine ⟨?_, ?_, ?_, ?_⟩
    · intro x hx
      rw [hpools] at hx
      exact hx
    · intro e he
      rw [h4] at he
      exact absurd he (by simp [empty_cache])
    · intro k e he
      rw [h5] at he
      exact absurd he (by simp [empty_cache])
    · intro a ha
      left
      rw [hpools]
      exact ha
  exact ⟨manage_op_stamped cfg clk hclk _ hs, manage_op_covered cfg clk _ hc⟩

theorem run_tracked (cfg : Config) (clk : Nat → Nat) (hclk : StrictMono clk) (ops : List Op) :
    Stamped cfg clk (run cfg clk ops) ∧ Covered cfg (run cfg clk ops) := by
  induction ops using List.reverseRecOn with
  | nil => exact init_tracked cfg clk hclk
  | append_singleton l op ih =>
    have hrun : run cfg clk (l ++ [op]) = op.run cfg clk (run cfg clk l) := by
      simp [run, List.foldl_append]
    rw [hrun]
    obtain ⟨hs, hc⟩ := ih
    cases op with
    | put k v => exact put_tracked cfg clk hclk _ k v hs hc
    | get k => exact get_tracked cfg clk hclk _ k hs hc
    | del k => exact del_tracked cfg clk hclk _ k hs hc
    | trigger_gc_op =>
      exact ⟨manage_op_stamped cfg clk hclk _ hs, manage_op_covered cfg clk _ hc⟩

theorem refill_post (low : Nat) (r f : List String) :
    (refill low r f).1 = [] ∨ low ≤ (refill low r f).2.length := by
  induction r generalizing f with
  | nil => left; simp [refill]
  | cons x r ih =>
    rw [refill]
    split_ifs with h
    · exact ih (f ++ [x])
    · right
      simp only
      omega

theorem slab_ids_length_le (cfg : Config) (l : List String)
    (h : ∀ a ∈ slab_ids cfg, a ∈ l) : cfg.total_slabs ≤ l.length := by
  have hnd : (slab_ids cfg).Nodup := (List.nodup_range cfg.total_slabs).map slab_id_injective
  have hlen : (slab_ids cfg).length = cfg.total_slabs := by simp [slab_ids]
  rw [← hlen]
  exact (List.subperm_of_subset hnd h).length_le

theorem manage_op_free_ne_nil (cfg : Config) (clk : Nat → Nat) (s : KeyValueCache)
    (hc : Covered cfg s) (hg : 1 ≤ cfg.gc_min) (hn : 40 ≤ cfg.total_slabs)
    (h20 : cfg.total_slabs / 20 ≤ s.dynamic_low_wm)
    (h2 : s.dynamic_low_wm ≤ cfg.total_slabs / 2) :
    (manage_op cfg clk s).free_slabs ≠ [] := by
  have hlo : cfg.total_slabs / 20 ≤ (manage_pools cfg s).dynamic_low_wm :=
    adapt_low_ge _ _ _ _ h20
  have hhi : (manage_pools cfg s).dynamic_low_wm ≤ cfg.total_slabs / 2 :=
    adapt_low_le _ _ _ _ h2
  have hpos : ∀ l : List String, 0 < l.length → l ≠ [] := by
    intro l hl h
    rw [h] at hl
    exact absurd hl (by simp)
  unfold manage_op
  simp only
  split_ifs with hd
  · obtain ⟨hlt, hres⟩ := (gc_due_iff _).1 hd
    have hlru : (manage_pools cfg s).lru ≠ [] := by
      intro hnil
      have hnil' : s.lru = [] := hnil
      have hsub : ∀ a ∈ slab_ids cfg,
          a ∈ (manage_pools cfg s).free_slabs ++ (manage_pools cfg s).reserve_slabs := by
        intro a ha
        rcases hc.2.2.2 a ha with h | h
        · exact (manage_pools_perm cfg s).mem_iff.2 h
        · rw [hnil'] at h
          exact absurd h (by simp)
      have hle := slab_ids_length_le cfg _ hsub
      rw [hres, List.append_nil] at hle
      omega
    apply hpos
    rw [gc_free_length]
    have : 0 < (manage_pools cfg s).lru.length := List.length_pos.mpr hlru
    omega
  · apply hpos
    have hnd : ¬ ((manage_pools cfg s).free_slabs.length < (manage_pools cfg s).dynamic_low_wm / 2
        ∧ (manage_pools cfg s).reserve_slabs = []) := fun h => hd ((gc_due_iff _).2 h)
    have hpost : (manage_pools cfg s).reserve_slabs = [] ∨
        (manage_pools cfg s).dynamic_low_wm ≤ (manage_pools cfg s).free_slabs.length := by
      simp only [manage_pools]
      exact refill_post _ _ _
    rcases hpost with h | h
    · have : ¬ (manage_pools cfg s).free_slabs.length
          < (manage_pools cfg s).dynamic_low_wm / 2 := fun hlt => hnd ⟨hlt, h⟩
      omega
    · omega

theorem put_not_dropped (cfg : Config) (clk : Nat → Nat) (hclk : StrictMono clk)
    (hg : 1 ≤ cfg.gc_min) (hn : 40 ≤ cfg.total_slabs) (ops : List Op) (k : String) (v : Bytes) :
    (put_rebalanced cfg clk (run cfg clk ops) k).free_slabs ≠ [] ∧
    ∃ e, (put cfg clk (run cfg clk ops) k v).kv_map k = some e ∧
      (put_rebalanced cfg clk (run cfg clk ops) k).free_slabs.head? = some e.1 := by
  obtain ⟨hs, hc⟩ := run_tracked cfg clk hclk ops
  obtain ⟨_, hc1⟩ := put_release_tracked cfg clk hclk _ k hs hc
  obtain ⟨hl20, hl2⟩ := run_low_wm_bounds cfg clk ops
  obtain ⟨rl, _⟩ := put_release_low_wm clk (run cfg clk ops) k
  have hne : (put_rebalanced cfg clk (run cfg clk ops) k).free_slabs ≠ [] := by
    unfold put_rebalanced
    exact manage_op_free_ne_nil cfg clk _ hc1 hg hn (by rw [rl]; exact hl20)
      (by rw [rl]; exact hl2)
  refine ⟨hne, ?_⟩
  cases hfree : (put_rebalanced cfg clk (run cfg clk ops) k).free_slabs with
  | nil => exact absurd hfree hne
  | cons slab_id rest =>
    obtain ⟨_, _, b, pk, _⟩ := put_of_free cfg clk _ k v slab_id rest hfree
    refine ⟨(slab_id, b), ?_, rfl⟩
    rw [pk, Function.update_same]

/-- C27: with the constants of `benchmark.cpp` (2000 slabs, collector floor
3000), of `flash-kv-cache.cpp` (192, 2000) or of `prototype.cpp` (2700, 2000),
and a clock whose readings strictly increase, in every state reached from
construction by `put`, `get` and `del` (also `trigger_gc_op`), a call
`put(k, v)` is not dropped: the free pool is non-empty after the call's
`manage_op`, and when `put` returns `k` has a directory entry, which names the
slab that was at the front of the free pool. -/
theorem C27_put_never_dropped (cfg : Config) (clk : Nat → Nat) (ops : List Op)
    (k : String) (v : Bytes)
    (hcfg : cfg = benchmark_cfg ∨ cfg = flash_cfg ∨ cfg = prototype_cfg)
    (hclk : StrictMono clk) :
    (put_rebalanced cfg clk (run cfg clk ops) k).free_slabs ≠ [] ∧
    ∃ e, (put cfg clk (run cfg clk ops) k v).kv_map k = some e ∧
      (put_rebalanced cfg clk (run cfg clk ops) k).free_slabs.head? = some e.1 := by
  have h : 1 ≤ cfg.gc_min ∧ 40 ≤ cfg.total_slabs := by
    rcases hcfg with h | h | h <;> rw [h] <;> decide
  exact put_not_dropped cfg clk hclk h.1 h.2 ops k v

/-- Witness of C27: the engine of `benchmark.cpp` with the ticking clock after
a write, a read, a delete and an overwrite. -/
theorem C27_put_never_dropped_witness :
    (benchmark_cfg = benchmark_cfg ∨ benchmark_cfg = flash_cfg ∨ benchmark_cfg = prototype_cfg) ∧
    StrictMono (id : Nat → Nat) ∧
    (put_rebalanced benchmark_cfg id
      (run benchmark_cfg id [Op.put "a" [1], Op.get "a", Op.del "a", Op.put "b" [2],
        Op.put "b" [3]]) "c").free_slabs ≠ [] :=
  ⟨Or.inl rfl, strictMono_id,
   (C27_put_never_dropped benchmark_cfg id
     [Op.put "a" [1], Op.get "a", Op.del "a", Op.put "b" [2], Op.put "b" [3]] "c" [4]
     (Or.inl rfl) strictMono_id).1⟩

/-! ## A hit in a slab that was re-indexed while free -/

set_option maxRecDepth 1000000 in
/-- C13 (the code departs from the claim): on the engine `cfg20` with a ticking
clock (every call a `put` or a `get`, no write dropped), the nineteenth write
runs the collector, which evicts `slab_7` and leaves the directory entry
`"a3" ↦ (slab_7, 1)`; `get("a3")` enters `(57, slab_7)` in the eviction index
while `slab_7` is in the free pool; `put("b", …)` takes `slab_7` and adds
`(58, slab_7)`; `put("z", …)` takes `slab_8` and adds `(59, slab_8)`. Then
`get("b")` is a hit in `slab_7` (it returns the stored block): it replaces
`(58, slab_7)` by `(60, slab_7)`, but `(57, slab_7)` stays, older than
`slab_8`'s entry, and a collection started right after evicts `slab_7` before
`slab_8`. -/
theorem C13_hit_leaves_older_entry :
    (run cfg20 id (puts "a" 19 [1])).gc_invoked_count = 1 ∧
    (run cfg20 id (puts "a" 19 [1])).kv_map "a3" = some ("slab_7", 1) ∧
    "slab_7" ∈ (run cfg20 id (puts "a" 19 [1])).free_slabs ∧
    (run cfg20 id reuse_trace).kv_map "b" = some ("slab_7", 1) ∧
    (run cfg20 id reuse_trace).lru
      = [(56, "slab_2"), (57, "slab_7"), (58, "slab_7"), (59, "slab_8")] ∧
    (get id (run cfg20 id reuse_trace) "b").1 = RocksDBWrapper.put_value [2] ∧
    (get id (run cfg20 id reuse_trace) "b").2.lru
      = [(56, "slab_2"), (57, "slab_7"), (59, "slab_8"), (60, "slab_7")] ∧
    gc_victims cfg20 (get id (run cfg20 id reuse_trace) "b").2
      = ["slab_2", "slab_7", "slab_8", "slab_7"] ∧
    (gc cfg20 id (get id (run cfg20 id reuse_trace) "b").2).free_slabs
      = (get id (run cfg20 id reuse_trace) "b").2.free_slabs
        ++ ["slab_2", "slab_7", "slab_8", "slab_7"] := by
  refine ⟨by decide, by decide, by decide, by decide, by decide, ?_, by decide, by decide,
    by decide⟩
  have h : (run cfg20 id reuse_trace).kv_map "b" = some ("slab_7", 1) := by decide
  have hdb : (run cfg20 id reuse_trace).db (block_key "slab_7" 1)
      = some (RocksDBWrapper.put_value [2]) := by rfl
  unfold get
  rw [h]
  simp only [RocksDBWrapper.get, hdb, put_value_length]
  simp

/-! ## A dropped write -/

theorem dropped_put_keeps_directory (cfg : Config) (clk : Nat → Nat) (s : KeyValueCache)
    (k : String) (v : Bytes) (h : (put_rebalanced cfg clk s k).free_slabs = []) :
    (put cfg clk s k v).kv_map = s.kv_map := by
  rw [put_of_nil cfg clk s k v h, put_rebalanced, manage_op_kv_map]
  exact (put_release_frame clk s k).2.2.1

theorem lru_erase_all (t : Nat) (l : LruMap) (h : ∀ e ∈ l, e.1 = t) : lru_erase t l = [] := by
  unfold lru_erase
  apply List.filter_eq_nil_iff.2
  intro e he
  simp [h e he]

theorem init_slabs_fold_lru_frozen (cfg : Config) (l : List Nat) :
    ∀ s : KeyValueCache, (∀ id, (s.slabs id).lru = 0) →
      ∀ id, ((l.foldl (init_slab cfg frozen_clock) s).slabs id).lru = 0 := by
  induction l with
  | nil => intro s h; exact h
  | cons i l ih =>
    intro s h
    rw [List.foldl_cons]
    apply ih
    intro id
    simp only [init_slab]
    by_cases hid : id = "slab_" ++ toString i
    · rw [hid, Function.update_same]
      rfl
    · rw [Function.update_noteq hid]
      exact h id

theorem init_coinciding (cfg : Config) : Coinciding (KeyValueCache.init cfg frozen_clock) := by
  obtain ⟨_, _, _, hl, hkv, _⟩ := init_fresh cfg frozen_clock
  obtain ⟨_, _, _, h4, _⟩ :=
    init_slabs_fold cfg frozen_clock (List.range cfg.total_slabs) (empty_cache cfg)
  have hl0 : (init_slabs cfg frozen_clock (empty_cache cfg)).lru = [] := by
    unfold init_slabs; rw [h4]; rfl
  refine ⟨?_, ?_, fun _ => hl⟩
  · intro e he
    rw [hl] at he
    exact absurd he (by simp)
  · intro id
    unfold KeyValueCache.init
    rw [manage_op_slabs_of_lru_nil cfg frozen_clock _ hl0]
    exact init_slabs_fold_lru_frozen cfg _ _ (fun _ => rfl) id

theorem manage_pools_free_ne_nil (cfg : Config) (s : KeyValueCache)
    (hlow : 1 ≤ (manage_pools cfg s).dynamic_low_wm)
    (hp : s.free_slabs ++ s.reserve_slabs ≠ []) : (manage_pools cfg s).free_slabs ≠ [] := by
  intro hnil
  have hlen := (manage_pools_perm cfg s).length_eq
  have hpos : 0 < (s.free_slabs ++ s.reserve_slabs).length := List.length_pos.mpr hp
  have hpost : (manage_pools cfg s).reserve_slabs = [] ∨
      (manage_pools cfg s).dynamic_low_wm ≤ (manage_pools cfg s).free_slabs.length := by
    simp only [manage_pools]
    exact refill_post _ _ _
  rcases hpost with h | h
  · rw [hnil, h] at hlen
    simp only [List.append_nil, List.length_nil] at hlen
    omega
  · rw [hnil] at h
    simp only [List.length_nil] at h
    omega

theorem coinciding_put (cfg : Config) (s : KeyValueCache) (v : Bytes) (hc : Coinciding s)
    (h20 : cfg.total_slabs / 20 ≤ s.dynamic_low_wm) (hn : 20 ≤ cfg.total_slabs) :
    Coinciding (put cfg frozen_clock s "a" v) ∧
    (s.free_slabs ++ s.reserve_slabs ≠ [] →
      ((put cfg frozen_clock s "a" v).free_slabs
          ++ (put cfg frozen_clock s "a" v).reserve_slabs).length + 1
        = (s.free_slabs ++ s.reserve_slabs).length ∧
      (put cfg frozen_clock s "a" v).kv_map "a" ≠ none) ∧
    (s.free_slabs ++ s.reserve_slabs = [] →
      (put_rebalanced cfg frozen_clock s "a").free_slabs = [] ∧
      ∀ e, s.kv_map "a" = some e →
        e.2 ∈ ((put cfg frozen_clock s "a" v).slabs e.1).free_blocks) := by
  obtain ⟨c1, c2, c3⟩ := hc
  obtain ⟨rf, rr, rk, _⟩ := put_release_frame frozen_clock s "a"
  have rl : (put_release frozen_clock s "a").lru = [] := by
    unfold put_release
    cases hk : s.kv_map "a" with
    | none => exact c3 hk
    | some e =>
      obtain ⟨slab, idx⟩ := e
      exact lru_erase_all _ _ c1
  have rs : ∀ id, ((put_release frozen_clock s "a").slabs id).lru = 0 := by
    intro id
    unfold put_release
    cases hk : s.kv_map "a" with
    | none => exact c2 id
    | some e =>
      obtain ⟨slab, idx⟩ := e
      simp only
      by_cases hid : id = slab
      · rw [hid, Function.update_same]
        rfl
      · rw [Function.update_noteq hid]
        exact c2 id
  have rw1 : (put_release frozen_clock s "a").dynamic_low_wm = s.dynamic_low_wm :=
    (put_release_low_wm frozen_clock s "a").1
  obtain ⟨mf, mr, _, ml⟩ := manage_op_of_lru_nil cfg frozen_clock _ rl
  have ms := manage_op_slabs_of_lru_nil cfg frozen_clock _ rl
  have hperm : ((put_rebalanced cfg frozen_clock s "a").free_slabs
      ++ (put_rebalanced cfg frozen_clock s "a").reserve_slabs).Perm
      (s.free_slabs ++ s.reserve_slabs) := by
    unfold put_rebalanced
    rw [mf, mr]
    have hp := manage_pools_perm cfg (put_release frozen_clock s "a")
    rwa [rf, rr] at hp
  have hlow : 1 ≤ (manage_pools cfg (put_release frozen_clock s "a")).dynamic_low_wm := by
    have := adapt_low_ge cfg.total_slabs (put_release frozen_clock s "a").free_slabs.length
      (put_release frozen_clock s "a").dynamic_low_wm
      (put_release frozen_clock s "a").dynamic_high_wm (by rw [rw1]; exact h20)
    have hge : (manage_pools cfg (put_release frozen_clock s "a")).dynamic_low_wm
        = (adapt cfg.total_slabs (put_release frozen_clock s "a").free_slabs.length
            (put_release frozen_clock s "a").dynamic_low_wm
            (put_release frozen_clock s "a").dynamic_high_wm).1 := rfl
    rw [hge]
    omega
  cases hfree : (put_rebalanced cfg frozen_clock s "a").free_slabs with
  | nil =>
    have hput := put_of_nil cfg frozen_clock s "a" v hfree
    have hpools : s.free_slabs ++ s.reserve_slabs = [] := by
      by_contra hne
      have hne' : (put_release frozen_clock s "a").free_slabs
          ++ (put_release frozen_clock s "a").reserve_slabs ≠ [] := by rw [rf, rr]; exact hne
      have := manage_pools_free_ne_nil cfg _ hlow hne'
      unfold put_rebalanced at hfree
      rw [mf] at hfree
      exact this hfree
    refine ⟨⟨?_, ?_, ?_⟩, fun hne => absurd hpools hne, fun _ => ⟨rfl, ?_⟩⟩
    · intro e he
      rw [hput] at he
      unfold put_rebalanced at he
      rw [ml] at he
      exact absurd he (by simp)
    · intro id
      rw [hput]
      unfold put_rebalanced
      rw [ms]
      exact rs id
    · intro _
      rw [hput]
      unfold put_rebalanced
      exact ml
    · intro e he
      rw [hput]
      unfold put_rebalanced
      rw [ms]
      obtain ⟨slab, idx⟩ := e
      unfold put_release
      rw [he]
      simp only [Function.update_same, Slab.free]
      exact (mem_set_insert _ _ _).2 (Or.inl rfl)
  | cons slab_id rest =>
    obtain ⟨pslabs, _, plru⟩ := put_tail cfg frozen_clock s "a" v slab_id rest hfree
    obtain ⟨pf, pr, b, pk, _⟩ := put_of_free cfg frozen_clock s "a" v slab_id rest hfree
    have hs2 : ∀ id, ((put_rebalanced cfg frozen_clock s "a").slabs id).lru = 0 := by
      intro id
      unfold put_rebalanced
      rw [ms]
      exact rs id
    have hl2 : (put_rebalanced cfg frozen_clock s "a").lru = [] := by
      unfold put_rebalanced
      exact ml
    have ha : (((put_rebalanced cfg frozen_clock s "a").slabs slab_id).alloc
        (frozen_clock (put_rebalanced cfg frozen_clock s "a").ticks)).2.lru = 0 := by
      unfold Slab.alloc
      cases hfb : ((put_rebalanced cfg frozen_clock s "a").slabs slab_id).free_blocks with
      | nil => exact hs2 slab_id
      | cons i tl => rfl
    have hkv : (put cfg frozen_clock s "a" v).kv_map "a" ≠ none := by
      rw [pk, Function.update_same]
      simp
    refine ⟨⟨?_, ?_, fun h => absurd h hkv⟩, fun _ => ⟨?_, hkv⟩, ?_⟩
    · intro e he
      rw [plru, hl2] at he
      simp only [lru_insert, List.mem_singleton] at he
      rw [he]
      exact ha
    · intro id
      rw [pslabs]
      by_cases hid : id = slab_id
      · rw [hid, Function.update_same]
        exact ha
      · rw [Function.update_noteq hid]
        exact hs2 id
    · rw [pf, pr, ← hperm.length_eq, hfree]
      simp only [List.length_append, List.length_cons]
      omega
    · intro hnil
      have := hperm.length_eq
      rw [hnil, hfree] at this
      simp at this

theorem same_key_run (cfg : Config) (hn : 20 ≤ cfg.total_slabs) :
    ∀ j, j ≤ cfg.total_slabs →
      Coinciding (run cfg frozen_clock (same_key_writes j)) ∧
      ((run cfg frozen_clock (same_key_writes j)).free_slabs
        ++ (run cfg frozen_clock (same_key_writes j)).reserve_slabs).length + j
        = cfg.total_slabs ∧
      (1 ≤ j → (run cfg frozen_clock (same_key_writes j)).kv_map "a" ≠ none) := by
  intro j
  induction j with
  | zero =>
    intro _
    obtain ⟨_, hlen, _⟩ := init_fresh cfg frozen_clock
    refine ⟨init_coinciding cfg, ?_, fun h => absurd h (by omega)⟩
    simp only [same_key_writes, List.replicate_zero, run, List.foldl_nil]
    omega
  | succ j ih =>
    intro hj
    obtain ⟨hc, hlen, _⟩ := ih (by omega)
    have hrun : run cfg frozen_clock (same_key_writes (j + 1))
        = put cfg frozen_clock (run cfg frozen_clock (same_key_writes j)) "a" [1] := by
      simp [same_key_writes, List.replicate_succ', run, List.foldl_append, Op.run]
    have hne : (run cfg frozen_clock (same_key_writes j)).free_slabs
        ++ (run cfg frozen_clock (same_key_writes j)).reserve_slabs ≠ [] := by
      intro h
      rw [h] at hlen
      simp only [List.length_nil] at hlen
      omega
    obtain ⟨hc', hstep, _⟩ := coinciding_put cfg _ [1] hc
      (run_low_wm_bounds cfg frozen_clock _).1 hn
    obtain ⟨h1, h2⟩ := hstep hne
    rw [hrun]
    exact ⟨hc', by omega, fun _ => h2⟩

theorem exhausted_by_same_key (cfg : Config) (n : Nat) (hcfg : cfg.total_slabs = n)
    (hn : 20 ≤ n) (v : Bytes) :
    (put_rebalanced cfg frozen_clock
      (run cfg frozen_clock (same_key_writes n)) "a").free_slabs = [] ∧
    ∃ e, (run cfg frozen_clock (same_key_writes n)).kv_map "a" = some e ∧
      (put cfg frozen_clock (run cfg frozen_clock (same_key_writes n))
        "a" v).kv_map "a" = some e ∧
      e.2 ∈ ((put cfg frozen_clock (run cfg frozen_clock (same_key_writes n))
        "a" v).slabs e.1).free_blocks := by
  subst hcfg
  obtain ⟨hc, hlen, hkv⟩ := same_key_run cfg hn cfg.total_slabs (Nat.le_refl _)
  have hnil : (run cfg frozen_clock (same_key_writes cfg.total_slabs)).free_slabs
      ++ (run cfg frozen_clock (same_key_writes cfg.total_slabs)).reserve_slabs = [] :=
    List.eq_nil_of_length_eq_zero (by omega)
  obtain ⟨_, _, hdrop⟩ := coinciding_put cfg _ v hc
    (run_low_wm_bounds cfg frozen_clock _).1 hn
  obtain ⟨hfree, hblk⟩ := hdrop hnil
  cases hk : (run cfg frozen_clock (same_key_writes cfg.total_slabs)).kv_map "a" with
  | none => exact absurd hk (hkv (by omega))
  | some e =>
    refine ⟨hfree, e, rfl, ?_, hblk e hk⟩
    rw [dropped_put_keeps_directory cfg frozen_clock _ "a" v hfree]
    exact hk

/-- C5 (the code departs from the claim): on the engine of
`flash-kv-cache.cpp` (192 slabs), of `benchmark.cpp` (2000) and of
`prototype.cpp` (2700), in the state reached from construction by writing the
key `"a"` once for each slab while the clock readings coincide, the free pool is
empty after the rebalance of one more `put("a", …)`; the write is dropped, and
when `put` returns the directory still has the entry `"a"` had before. (Every
such write erases the one entry of the eviction index before it rebalances, so
the collector finds nothing to evict.) -/
theorem C5_dropped_overwrite_keeps_entry :
    ((put_rebalanced flash_cfg frozen_clock
        (run flash_cfg frozen_clock (same_key_writes 192)) "a").free_slabs = [] ∧
      ∃ e, (run flash_cfg frozen_clock (same_key_writes 192)).kv_map "a" = some e ∧
        (put flash_cfg frozen_clock (run flash_cfg frozen_clock (same_key_writes 192))
          "a" [2]).kv_map "a" = some e) ∧
    ((put_rebalanced benchmark_cfg frozen_clock
        (run benchmark_cfg frozen_clock (same_key_writes 2000)) "a").free_slabs = [] ∧
      ∃ e, (run benchmark_cfg frozen_clock (same_key_writes 2000)).kv_map "a" = some e ∧
        (put benchmark_cfg frozen_clock (run benchmark_cfg frozen_clock (same_key_writes 2000))
          "a" [2]).kv_map "a" = some e) ∧
    ((put_rebalanced prototype_cfg frozen_clock
        (run prototype_cfg frozen_clock (same_key_writes 2700)) "a").free_slabs = [] ∧
      ∃ e, (run prototype_cfg frozen_clock (same_key_writes 2700)).kv_map "a" = some e ∧
        (put prototype_cfg frozen_clock (run prototype_cfg frozen_clock (same_key_writes 2700))
          "a" [2]).kv_map "a" = some e) := by
  obtain ⟨f1, e1, f2, f3, _⟩ := exhausted_by_same_key flash_cfg 192 rfl (by decide) [2]
  obtain ⟨b1, e2, b2, b3, _⟩ := exhausted_by_same_key benchmark_cfg 2000 rfl (by decide) [2]
  obtain ⟨p1, e3, p2, p3, _⟩ := exhausted_by_same_key prototype_cfg 2700 rfl (by decide) [2]
  exact ⟨⟨f1, e1, f2, f3⟩, ⟨b1, e2, b2, b3⟩, ⟨p1, e3, p2, p3⟩⟩

/-! ## Directory entries and free blocks while nothing was evicted -/

end KVCache
